import Mathlib

/-! # Split-unit resolution (`libdw/libdw_find_split_unit.c`)

A shallow embedding of `try_split_file` and `__libdw_find_split_unit`.

* Machine integers are natural numbers reduced modulo `2^32` / `2^64` wherever the
  C arithmetic is performed in `uint32_t` / `uint64_t`.
* The `.debug_cu_index` section is a byte buffer; a read outside of it is undefined
  behaviour in C and is the outcome `Run.fault` here.
* The probe loop of the hash table has no counter in the source.  It is run with a
  budget of loop-condition evaluations; exhausting the budget is `Run.timeout`.
* The debugging `printf` calls of the source produce no value and are left out.
-/

namespace FindSplitUnit

/-! ## Outcomes -/

/-- Outcome of running a piece of the C code: a value, undefined behaviour
(a read outside the index buffer, a write outside `sec_mapping`, a division by zero,
an invalid pointer), or an exhausted probe budget. -/
inductive Run (α : Type) where
  | ok (a : α)
  | fault
  | timeout
  deriving DecidableEq, Repr

/-- Sequencing of outcomes. -/
def Run.bind {α β : Type} (r : Run α) (f : α → Run β) : Run β :=
  match r with
  | Run.ok a => f a
  | Run.fault => Run.fault
  | Run.timeout => Run.timeout

/-- A read that may fall outside the buffer. -/
def Run.ofOption {α : Type} (o : Option α) : Run α :=
  match o with
  | some a => Run.ok a
  | none => Run.fault

/-! ## Machine words and the index buffer -/

/-- The value `UINT32_MAX`. -/
def UINT32_MAX : Nat := 4294967295

/-- Modulus of `uint32_t` arithmetic. -/
def W32 : Nat := 4294967296

/-- Modulus of `uint64_t` arithmetic. -/
def W64 : Nat := 18446744073709551616

/-- The bytes of a section (`d_buf`); each entry is taken modulo 256. -/
abbrev Buf := List Nat

/-- One byte of the buffer, `none` outside of it. -/
def rd8 (b : Buf) (off : Nat) : Option Nat :=
  match b.get? off with
  | some x => some (x % 256)
  | none => none

/-- A `uint32_t` read at a byte offset (least significant byte first). -/
def rd32 (b : Buf) (off : Nat) : Option Nat :=
  match rd8 b off, rd8 b (off + 1), rd8 b (off + 2), rd8 b (off + 3) with
  | some b0, some b1, some b2, some b3 => some (b0 + 256 * b1 + 65536 * b2 + 16777216 * b3)
  | _, _, _, _ => none

/-- A `uint64_t` read at a byte offset (least significant byte first). -/
def rd64 (b : Buf) (off : Nat) : Option Nat :=
  match rd32 b off, rd32 b (off + 4) with
  | some lo, some hi => some (lo + W32 * hi)
  | _, _ => none

/-! ## The hash table probe (lines 67-75) -/

/-- The value `mask = (slots - 1)`: computed in `uint32_t`, then widened. -/
def maskOf (slots : Nat) : Nat := (slots + W32 - 1) % W32

/-- The value `hash = cu->unit_id8 & mask`. -/
def hashStart (slots id : Nat) : Nat := id &&& maskOf slots

/-- The value `hash_prime = ((cu->unit_id8 >> 32) & mask) | 1`. -/
def hashPrime (slots id : Nat) : Nat := ((id >>> 32) &&& maskOf slots) ||| 1

/-- The slot `hts[hash]`, with `hts` at byte 16 of the buffer. -/
def hts (b : Buf) (hash : Nat) : Option Nat := rd64 b (16 + 8 * hash)

/-- The loop `while (!(hts[hash] == 0 || hts[hash] == id)) hash = (hash + hash_prime) % slots;`
run for at most `fuel` evaluations of its condition (probes).  The result is the
value of `hash` when the loop is left. -/
def probeLoop (b : Buf) (slots id : Nat) : Nat → Nat → Run Nat
  | 0, _ => Run.timeout
  | fuel + 1, hash =>
    match hts b hash with
    | none => Run.fault
    | some v =>
      if v = 0 ∨ v = id then Run.ok hash
      else if slots = 0 then Run.fault
      else probeLoop b slots id fuel (((hash + hashPrime slots id) % W64) % slots)

/-! ## The section table decoder (lines 76-104) -/

/-- Enumerators of `dwarf.h` used by the source.  The header is not part of the
translated file, so the values are parameters.  The three section kinds index the
nine-entry array `sec_mapping`. -/
structure Consts where
  DW_SECT_INFO : Fin 9
  DW_SECT_ABBREV : Fin 9
  DW_SECT_STR_OFFSETS : Fin 9
  DW_UT_skeleton : Nat
  DW_UT_split_compile : Nat
  PATH_MAX : Nat

/-- The entry `pti[hash]`, with `pti` at byte `16 + 8 * slots` (the product is `uint32_t`). -/
def pti (b : Buf) (slots hash : Nat) : Option Nat :=
  rd32 b (16 + (8 * slots) % W32 + 4 * hash)

/-- Byte offset of `tso` as initialised on line 81 (the product is `uint32_t`). -/
def tsoBase (slots : Nat) : Nat := 16 + (12 * slots) % W32

/-- The array `sec_mapping` after `memset (sec_mapping, UINT32_MAX, sizeof (sec_mapping))`. -/
def secMappingInit : List Nat := List.replicate 9 UINT32_MAX

/-- The loop `for (i = 0; i < columns; i++) sec_mapping[tso[i]] = i;`, with `n` iterations
left, the counter at `i` and `tso` at byte offset `base`. -/
def fillMapping (b : Buf) (base : Nat) : Nat → Nat → List Nat → Run (List Nat)
  | 0, _, m => Run.ok m
  | n + 1, i, m =>
    match rd32 b (base + 4 * i) with
    | none => Run.fault
    | some tag =>
      if tag < 9 then fillMapping b base n (i + 1) (m.set tag i) else Run.fault

/-- The values `(info_offset, abbrev_offset, str_offset)` read from the offsets row. -/
structure RowOffsets where
  info_offset : Nat
  abbrev_offset : Nat
  str_offset : Nat
  deriving DecidableEq, Repr

/-- Lines 78-104, the body of `if (hts[hash] == cu->unit_id8)`.  The result is `none`
when the three offsets keep their initial `UINT32_MAX`, and the offsets row otherwise. -/
def decodeRow (k : Consts) (b : Buf) (columns units slots hash : Nat) :
    Run (Option RowOffsets) :=
  (Run.ofOption (pti b slots hash)).bind fun p =>
  let row_index := (p + W32 - 1) % W32
  let tso := tsoBase slots
  let tss := tso + 4 * ((((units + 1) % W32) * columns) % W32)
  (fillMapping b tso columns 0 secMappingInit).bind fun m =>
  let mi := m.getD k.DW_SECT_INFO.val 0
  let ma := m.getD k.DW_SECT_ABBREV.val 0
  let ms := m.getD k.DW_SECT_STR_OFFSETS.val 0
  if mi ≠ UINT32_MAX ∧ ma ≠ UINT32_MAX ∧ ms ≠ UINT32_MAX then
    let tso2 := tso + 4 * ((columns * ((row_index + 1) % W32)) % W32)
    (Run.ofOption (rd32 b (tso2 + 4 * mi))).bind fun info_offset =>
    (Run.ofOption (rd32 b (tso2 + 4 * ma))).bind fun abbrev_offset =>
    (Run.ofOption (rd32 b (tso2 + 4 * ms))).bind fun str_offset =>
    let tss2 := tss + 4 * ((columns * row_index) % W32)
    (Run.ofOption (rd32 b (tss2 + 4 * mi))).bind fun _info_size =>
    (Run.ofOption (rd32 b (tss2 + 4 * ma))).bind fun _abbrev_size =>
    Run.ok (some ⟨info_offset, abbrev_offset, str_offset⟩)
  else Run.ok none

/-- Lines 60-105, the body of `if (sectiondata[IDX_debug_cu_index] != NULL)`:
header, probe, and the decoder when the slot reached holds the signature. -/
def lookupIndex (k : Consts) (b : Buf) (id fuel : Nat) : Run (Option RowOffsets) :=
  (Run.ofOption (rd32 b 0)).bind fun _dwp_version =>
  (Run.ofOption (rd32 b 4)).bind fun columns =>
  (Run.ofOption (rd32 b 8)).bind fun units =>
  (Run.ofOption (rd32 b 12)).bind fun slots =>
  (probeLoop b slots id fuel (hashStart slots id)).bind fun hash =>
  (Run.ofOption (hts b hash)).bind fun v =>
  if v = id then decodeRow k b columns units slots hash else Run.ok none

/-- Lines 108-111: an offset still equal to `UINT32_MAX` becomes 0. -/
def normOffset (x : Nat) : Nat := if x = UINT32_MAX then 0 else x

/-- Lines 54-111: the pair `(abbrev_offset, str_offset)` with which the units of the
candidate are iterated; `cu_index` is `sectiondata[IDX_debug_cu_index]`. -/
def indexOffsets (k : Consts) (cu_index : Option Buf) (id fuel : Nat) : Run (Nat × Nat) :=
  match cu_index with
  | none => Run.ok (0, 0)
  | some b =>
    (lookupIndex k b id fuel).bind fun r =>
    match r with
    | none => Run.ok (normOffset UINT32_MAX, normOffset UINT32_MAX)
    | some o => Run.ok (normOffset o.abbrev_offset, normOffset o.str_offset)

/-! ## Units, containers and the external collaborators -/

/-- Values of the field `split` of a `Dwarf_CU`: the marker `(Dwarf_CU *) -1`,
`NULL`, or a pointer to a unit. -/
inductive SplitLink where
  | untried
  | null
  | unit (addr : Nat)
  deriving DecidableEq, Repr

/-- The fields of a `Dwarf_CU` that the source reads or writes.  `dbg` is the handle
of the owning `Dwarf`. -/
structure CU where
  dbg : Nat
  unit_type : Nat
  unit_id8 : Nat
  split : SplitLink
  str_off_base : Nat
  deriving DecidableEq, Repr

/-- What the unit iterator exposes of one unit of a candidate file. -/
structure UnitInfo where
  unit_type : Nat
  unit_id8 : Nat
  deriving DecidableEq, Repr

/-- What `dwarf_begin` exposes of a candidate file: the index section
`sectiondata[IDX_debug_cu_index]` and, for every abbreviation offset handed to
`dwarf_get_units_adv`, the units it yields before it returns non-zero. -/
structure Container where
  cu_index : Option Buf
  units : Nat → List UnitInfo

/-- Attributes of the root entry of a unit read by the source. -/
inductive AttrName where
  | dwo_name
  | GNU_dwo_name
  | comp_dir
  deriving DecidableEq, Repr

/-- Calls into the collaborators, in the order in which they are made. -/
inductive Event where
  | openFile (path : String) (fd : Option Nat)
  | dwarfBegin (fd : Nat) (dbg : Option Nat)
  | dwarfEnd (dbg : Nat)
  | closeFd (fd : Nat)
  | treeSearch (key : Nat) (found : Bool)
  | setErrnoNomem
  | linkUnits (skel : Nat) (split : Nat)
  | fdDone (dbg : Nat)
  | attrRead (cu : Nat) (name : AttrName)
  | filePath (debugdir : Option String) (dir : Option String) (file : Option String)
  | globRun (pattern : String)
  | globFree
  deriving DecidableEq, Repr

/-- The collaborators outside of the translated file.  An answer that can differ from
one call to the next (file system, allocation) takes the number of calls made so far.

* `openFile t p`: `open (p, O_RDONLY)` succeeds;
* `dwarfBegin t p`: the container `dwarf_begin` makes of the file opened from `p`,
  `none` for `NULL`;
* `allocOk t`: `tsearch` can allocate a node;
* `sameDbg a b`: `__libdw_finddbg_cb` compares the two handles equal;
* `dwoName cu`, `gnuDwoName cu`: `none` when `dwarf_attr` returns `NULL`, else the
  result of `dwarf_formstring` (itself possibly `NULL`);
* `compDir cu`: the result of `dwarf_formstring` after `dwarf_attr (DW_AT_comp_dir)`;
* `debugdir dbg`: the field `debugdir` of a `Dwarf`;
* `filepath t debugdir dir file`: the result of `__libdw_filepath`;
* `glob t pat`: the paths `glob` stores when it returns 0, `none` otherwise. -/
structure Env where
  openFile : Nat → String → Bool
  dwarfBegin : Nat → String → Option Container
  allocOk : Nat → Bool
  sameDbg : Nat → Nat → Bool
  dwoName : Nat → Option (Option String)
  gnuDwoName : Nat → Option (Option String)
  compDir : Nat → Option String
  debugdir : Nat → Option String
  filepath : Nat → Option String → Option String → Option String → Option String
  glob : Nat → String → Option (List String)

/-- The memory and the history of a run.  `cus` is the heap of `Dwarf_CU` objects (a
pointer is an index), `split_tree` holds the pairs (owning `Dwarf`, key) of all
`split_tree` search trees, `errno_nomem` is set by `__libdw_seterrno (DWARF_E_NOMEM)`. -/
structure State where
  cus : List CU
  split_tree : List (Nat × Nat)
  errno_nomem : Bool
  next_fd : Nat
  next_dbg : Nat
  trace : List Event
  deriving DecidableEq, Repr

/-- Record a call. -/
def State.log (s : State) (e : Event) : State := { s with trace := s.trace ++ [e] }

/-- Dereference a `Dwarf_CU *`. -/
def State.readCU (s : State) (p : Nat) : Run CU := Run.ofOption (s.cus.get? p)

/-- The assignment `p->split = v`. -/
def State.setSplit (s : State) (p : Nat) (v : SplitLink) : State :=
  { s with cus := s.cus.modify (fun c => { c with split := v }) p }

/-- Modelled from the spec: `__libdw_link_skel_split`, an inline function of `libdwP.h`.
It links skeleton and split unit bidirectionally. -/
def link_skel_split (s : State) (skel split : Nat) : State :=
  ((s.setSplit skel (SplitLink.unit split)).setSplit split (SplitLink.unit skel)).log
    (Event.linkUnits skel split)

/-- The call `tsearch (key, &owner->split_tree, __libdw_finddbg_cb)`.  The flag is
`false` when the result is `NULL`: no equal key is in the tree and no node could be
allocated. -/
def tsearch (env : Env) (owner key : Nat) (s : State) : Bool × State :=
  if (s.split_tree.any fun e => e.1 = owner && env.sameDbg e.2 key) then
    (true, s.log (Event.treeSearch key true))
  else if env.allocOk s.trace.length then
    (true, { s with split_tree := s.split_tree ++ [(owner, key)] }.log (Event.treeSearch key true))
  else (false, s.log (Event.treeSearch key false))

/-! ## `try_split_file` (lines 45-149) -/

/-- The object `dwarf_get_units_adv` hands out for a unit of the container `dbg`. -/
def newUnit (dbg : Nat) (u : UnitInfo) : CU :=
  { dbg := dbg, unit_type := u.unit_type, unit_id8 := u.unit_id8,
    split := SplitLink.untried, str_off_base := 0 }

/-- The assignment `p->str_off_base = v`. -/
def State.setStrOffBase (s : State) (p v : Nat) : State :=
  { s with cus := s.cus.modify (fun c => { c with str_off_base := v }) p }

/-- Lines 113-140: the loop over the units of the candidate; the list holds the units
the iterator has yet to yield. -/
def unitLoop (env : Env) (k : Consts) (cu dbg str_offset : Nat) :
    List UnitInfo → State → Run State
  | [], s => Run.ok s
  | u :: rest, s =>
    let split := s.cus.length
    let s1 := ({ s with cus := s.cus ++ [newUnit dbg u] }).setStrOffBase split str_offset
    (s1.readCU split).bind fun sp =>
    (s1.readCU cu).bind fun c =>
    if sp.unit_type = k.DW_UT_split_compile ∧ c.unit_id8 = sp.unit_id8 then
      match tsearch env c.dbg sp.dbg s1 with
      | (false, s2) => Run.ok { s2.log Event.setErrnoNomem with errno_nomem := true }
      | (true, s2) => Run.ok ((link_skel_split s2 cu split).log (Event.fdDone dbg))
    else unitLoop env k cu dbg str_offset rest s1

/-- The function `try_split_file (cu, dwo_path)`; `fuel` bounds each run of the probe loop. -/
def try_split_file (env : Env) (k : Consts) (fuel : Nat) (cu : Nat) (dwo_path : String)
    (s : State) : Run State :=
  if env.openFile s.trace.length dwo_path then
    let split_fd := s.next_fd
    let s1 := ({ s with next_fd := split_fd + 1 }).log (Event.openFile dwo_path (some split_fd))
    match env.dwarfBegin s1.trace.length dwo_path with
    | none => Run.ok ((s1.log (Event.dwarfBegin split_fd none)).log (Event.closeFd split_fd))
    | some split_dwarf =>
      let dbg := s1.next_dbg
      let s2 := ({ s1 with next_dbg := dbg + 1 }).log (Event.dwarfBegin split_fd (some dbg))
      (match split_dwarf.cu_index with
        | none => Run.ok (0, 0)
        | some b => (s2.readCU cu).bind fun c => indexOffsets k (some b) c.unit_id8 fuel).bind
      fun offs =>
      (unitLoop env k cu dbg offs.2 (split_dwarf.units offs.1) s2).bind fun s3 =>
      (s3.readCU cu).bind fun c3 =>
      let s4 := if c3.split = SplitLink.untried then s3.log (Event.dwarfEnd dbg) else s3
      Run.ok (s4.log (Event.closeFd split_fd))
  else Run.ok (s.log (Event.openFile dwo_path none))

/-! ## `__libdw_find_split_unit` (lines 151-225) -/

/-- Lines 190-192: the loop over `glob_result.gl_pathv`. -/
def globLoop (env : Env) (k : Consts) (fuel cu : Nat) : List String → State → Run State
  | [], s => Run.ok s
  | p :: ps, s => (try_split_file env k fuel cu p s).bind (globLoop env k fuel cu ps)

/-- Lines 182-195: the search of the package files; `strcpy` and `strcat` write into
`char dwpglob[PATH_MAX]`. -/
def globSearch (env : Env) (k : Consts) (fuel cu : Nat) (debugdir : Option String)
    (s : State) : Run State :=
  match debugdir with
  | none => Run.fault
  | some d =>
    if d.utf8ByteSize + 6 ≤ k.PATH_MAX then
      let pat := d ++ "*.dwp"
      let s1 := s.log (Event.globRun pat)
      (match env.glob s.trace.length pat with
        | some paths => globLoop env k fuel cu paths s1
        | none => Run.ok s1).bind fun s2 =>
      Run.ok (s2.log Event.globFree)
    else Run.fault

/-- Lines 198-213: the candidate below `comp_dir`. -/
def compDirSearch (env : Env) (k : Consts) (fuel cu : Nat) (debugdir dwo_file : Option String)
    (s : State) : Run State :=
  let s1 := s.log (Event.attrRead cu AttrName.comp_dir)
  match env.compDir cu with
  | none => Run.ok s1
  | some dwo_dir =>
    let s2 := s1.log (Event.filePath debugdir (some dwo_dir) dwo_file)
    match env.filepath s1.trace.length debugdir (some dwo_dir) dwo_file with
    | none => Run.ok s2
    | some dwo_path => try_split_file env k fuel cu dwo_path s2

/-- Lines 171-213: the three searches, entered with the result `dwo_file` of
`dwarf_formstring (&dwo_name)`. -/
def searchCandidates (env : Env) (k : Consts) (fuel cu : Nat) (dwo_file : Option String)
    (s : State) : Run State :=
  (s.readCU cu).bind fun c =>
  let debugdir := env.debugdir c.dbg
  let s1 := s.log (Event.filePath debugdir none dwo_file)
  (match env.filepath s.trace.length debugdir none dwo_file with
    | none => Run.ok s1
    | some dwo_path => try_split_file env k fuel cu dwo_path s1).bind fun s2 =>
  (s2.readCU cu).bind fun c2 =>
  (if c2.split = SplitLink.untried then globSearch env k fuel cu debugdir s2
    else Run.ok s2).bind fun s3 =>
  (s3.readCU cu).bind fun c3 =>
  if c3.split = SplitLink.untried then compDirSearch env k fuel cu debugdir dwo_file s3
  else Run.ok s3

/-- Lines 164-217: the body of `if (cu->unit_type == DW_UT_skeleton)`. -/
def searchSkeleton (env : Env) (k : Consts) (fuel cu : Nat) (s : State) : Run State :=
  let s1 := s.log (Event.attrRead cu AttrName.dwo_name)
  match env.dwoName cu with
  | some dwo_file => searchCandidates env k fuel cu dwo_file s1
  | none =>
    let s2 := s1.log (Event.attrRead cu AttrName.GNU_dwo_name)
    match env.gnuDwoName cu with
    | some dwo_file => searchCandidates env k fuel cu dwo_file s2
    | none => Run.ok s2

/-- The function `__libdw_find_split_unit (cu)`: the value returned and the state left. -/
def find_split_unit (env : Env) (k : Consts) (fuel cu : Nat) (s : State) :
    Run (SplitLink × State) :=
  (s.readCU cu).bind fun c =>
  if c.split ≠ SplitLink.untried then Run.ok (c.split, s)
  else
    (if c.unit_type = k.DW_UT_skeleton then searchSkeleton env k fuel cu s
      else Run.ok s).bind fun s1 =>
    (s1.readCU cu).bind fun c1 =>
    if c1.split = SplitLink.untried then Run.ok (SplitLink.null, s1.setSplit cu SplitLink.null)
    else Run.ok (c1.split, s1)

/-! ## Construction of a hash table

The source only reads an index.  The specification speaks of a table built by inserting
signatures along the probe sequence; these definitions follow its words. -/

/-- Insertion by the writer of an index: probe from `pos` in steps of `step` and store
the signature in the first empty slot. -/
def insertLoop (slots sig step : Nat) : Nat → Nat → List Nat → Option (List Nat)
  | 0, _, _ => none
  | fuel + 1, pos, t =>
    if t.getD pos 0 = 0 then some (t.set pos sig)
    else insertLoop slots sig step fuel ((pos + step) % slots) t

/-- Insert one signature: start `sig & (slots-1)`, step `((sig >> 32) & (slots-1)) | 1`. -/
def insertSig (slots : Nat) (t : List Nat) (sig : Nat) : Option (List Nat) :=
  insertLoop slots sig (((sig >>> 32) &&& (slots - 1)) ||| 1) slots (sig &&& (slots - 1)) t

/-- Insert the signatures one after the other. -/
def buildFrom (slots : Nat) : List Nat → List Nat → Option (List Nat)
  | [], t => some t
  | sig :: rest, t =>
    match insertSig slots t sig with
    | some t2 => buildFrom slots rest t2
    | none => none

/-- The hash table built from the empty table of `slots` slots. -/
def buildTable (slots : Nat) (sigs : List Nat) : Option (List Nat) :=
  buildFrom slots sigs (List.replicate slots 0)

/-- Position reached from `pos` after `j` steps of size `st` in a table of `slots` slots. -/
def stepPos (slots st pos j : Nat) : Nat := (pos + j * st) % slots

/-- Slot `j` of the probe path of a signature. -/
def pathPos (slots sig j : Nat) : Nat :=
  stepPos slots (hashPrime slots sig) (hashStart slots sig) j

/-- Every signature of `S` sits on its probe path behind non-empty slots only. -/
def Stored (slots : Nat) (t : List Nat) (S : List Nat) : Prop :=
  ∀ s, s ∈ S → ∃ kk, t.getD (pathPos slots s kk) 0 = s ∧
    ∀ j, j < kk → t.getD (pathPos slots s j) 0 ≠ 0

/-- The slots in use. -/
def usedSlots (slots : Nat) (t : List Nat) : Finset Nat :=
  (Finset.range slots).filter fun h => t.getD h 0 ≠ 0

/-! ## Notions for the section table -/

/-- The row index `row_index = pti[hash] - 1` as `uint32_t`, for the entry `p = pti[hash]`. -/
def rowIndexOf (p : Nat) : Nat := (p + W32 - 1) % W32

/-- Byte offset of `tso` after `tso += columns * (row_index + 1)`. -/
def offsetsRowBase (columns slots row : Nat) : Nat :=
  tsoBase slots + 4 * ((columns * ((row + 1) % W32)) % W32)

/-- Byte offset of `tss` after `tss += columns * row_index`. -/
def sizesRowBase (columns units slots row : Nat) : Nat :=
  tsoBase slots + 4 * ((((units + 1) % W32) * columns) % W32) + 4 * ((columns * row) % W32)

/-- The section kind has a column: some column tag at `tso[i]`, `i < columns`, equals it. -/
def hasColumn (b : Buf) (slots columns kind : Nat) : Prop :=
  ∃ i, i < columns ∧ rd32 b (tsoBase slots + 4 * i) = some kind

/-- Column `i` is the one mapped to the section kind: the last column tagged with it. -/
def mappedColumn (b : Buf) (slots columns kind i : Nat) : Prop :=
  i < columns ∧ rd32 b (tsoBase slots + 4 * i) = some kind
    ∧ ∀ j, j < columns → i < j → rd32 b (tsoBase slots + 4 * j) ≠ some kind

/-! ## Notions for the search -/

/-- The paths handed to `open`, in the order of the calls. -/
def opens (tr : List Event) : List String :=
  tr.filterMap fun e =>
    match e with
    | Event.openFile p _ => some p
    | _ => none

/-- The patterns handed to `glob`, in the order of the calls. -/
def globs (tr : List Event) : List String :=
  tr.filterMap fun e =>
    match e with
    | Event.globRun p => some p
    | _ => none

/-- The object made of a unit the iterator yields, once `str_off_base` is assigned. -/
def yieldedUnit (dbg str_offset : Nat) (u : UnitInfo) : CU :=
  { newUnit dbg u with str_off_base := str_offset }

/-- The test of lines 120-121 for a skeleton with signature `id`. -/
def passes (k : Consts) (id : Nat) (u : UnitInfo) : Prop :=
  u.unit_type = k.DW_UT_split_compile ∧ id = u.unit_id8

/-- The heap after `__libdw_link_skel_split (cu, split)`. -/
def linkedCus (l : List CU) (cu split : Nat) : List CU :=
  List.modify (fun c => { c with split := SplitLink.unit cu }) split
    (List.modify (fun c => { c with split := SplitLink.unit split }) cu l)

/-- What a run may change on the heap, seen from the unit `cu`: objects are only added,
every other old object is left as it is, and of `cu` only the field `split` changes, if at
all to a new object that is a split-compile unit with the signature of `cu`. -/
def Ext (k : Consts) (cu : Nat) (l l2 : List CU) : Prop :=
  l.length ≤ l2.length
  ∧ (∀ p, p < l.length → p ≠ cu → l2[p]? = l[p]?)
  ∧ ∀ c, l[cu]? = some c → ∃ c2, l2[cu]? = some c2
      ∧ c2.dbg = c.dbg ∧ c2.unit_type = c.unit_type ∧ c2.unit_id8 = c.unit_id8
      ∧ c2.str_off_base = c.str_off_base
      ∧ (c2.split = c.split
        ∨ ∃ a ua, c2.split = SplitLink.unit a ∧ l.length ≤ a ∧ l2[a]? = some ua
            ∧ ua.unit_type = k.DW_UT_split_compile ∧ ua.unit_id8 = c.unit_id8)

/-- The state in which the three searches start: after the attribute lookups of lines
168-169, the second of which is made only when the first finds nothing. -/
def afterNameLookup (env : Env) (cu : Nat) (s : State) : State :=
  match env.dwoName cu with
  | some _ => s.log (Event.attrRead cu AttrName.dwo_name)
  | none =>
    (s.log (Event.attrRead cu AttrName.dwo_name)).log (Event.attrRead cu AttrName.GNU_dwo_name)

/-- The values `hash` takes in the probe loop: `hash = cu->unit_id8 & mask` at first, then
`hash = (hash + hash_prime) % slots` (in `uint64_t`) once per iteration. -/
def probeSeq (slots id : Nat) : Nat → Nat
  | 0 => hashStart slots id
  | j + 1 => ((probeSeq slots id j + hashPrime slots id) % W64) % slots

/-! ## Stages of one candidate -/

/-- The state after a successful `open` of the candidate (line 48). -/
def openedState (s : State) (path : String) : State :=
  ({ s with next_fd := s.next_fd + 1 }).log (Event.openFile path (some s.next_fd))

/-- The state after a successful `dwarf_begin` on the candidate (line 51). -/
def begunState (s : State) (path : String) : State :=
  ({ openedState s path with next_dbg := s.next_dbg + 1 }).log
    (Event.dwarfBegin s.next_fd (some s.next_dbg))

/-- Lines 54-111 for the container `d`: the offsets with which its units are iterated. -/
def candidateOffsets (k : Consts) (fuel cu : Nat) (d : Container) (s : State) :
    Run (Nat × Nat) :=
  match d.cu_index with
  | none => Run.ok (0, 0)
  | some b => (s.readCU cu).bind fun c => indexOffsets k (some b) c.unit_id8 fuel

/-- Lines 141-147: `dwarf_end` when `cu` is still unresolved, then `close`. -/
def finishCandidate (s3 : State) (c3 : CU) (dbg fd : Nat) : State :=
  (if c3.split = SplitLink.untried then s3.log (Event.dwarfEnd dbg) else s3).log
    (Event.closeFd fd)

/-- The state after the iterator has yielded the units `us` and none of them has ended
the loop. -/
def yieldedState (s : State) (dbg str_offset : Nat) (us : List UnitInfo) : State :=
  { s with cus := s.cus ++ us.map (yieldedUnit dbg str_offset) }

/-! ## Resources in the history of calls -/

/-- The descriptors `open` has returned. -/
def openedFds (tr : List Event) : List Nat :=
  tr.filterMap fun e =>
    match e with
    | Event.openFile _ (some fd) => some fd
    | _ => none

/-- The descriptors handed to `close`. -/
def closedFds (tr : List Event) : List Nat :=
  tr.filterMap fun e =>
    match e with
    | Event.closeFd fd => some fd
    | _ => none

/-- The containers `dwarf_begin` has returned. -/
def begunDbgs (tr : List Event) : List Nat :=
  tr.filterMap fun e =>
    match e with
    | Event.dwarfBegin _ (some dbg) => some dbg
    | _ => none

/-- The containers handed to `dwarf_end`. -/
def endedDbgs (tr : List Event) : List Nat :=
  tr.filterMap fun e =>
    match e with
    | Event.dwarfEnd dbg => some dbg
    | _ => none

/-- Between the two states every descriptor opened has been closed and every container
begun has been ended, in the order of their making. -/
def Released (s s2 : State) : Prop :=
  ∃ fds dbgs, openedFds s2.trace = openedFds s.trace ++ fds
    ∧ closedFds s2.trace = closedFds s.trace ++ fds
    ∧ begunDbgs s2.trace = begunDbgs s.trace ++ dbgs
    ∧ endedDbgs s2.trace = endedDbgs s.trace ++ dbgs

/-- A stretch of the search that links nothing, sets no error, leaves the search tree as it
is and releases what it opens. -/
def Quiet (cu : Nat) (c : CU) (s s2 : State) : Prop :=
  s2.cus[cu]? = some c ∧ s2.errno_nomem = s.errno_nomem ∧ s2.split_tree = s.split_tree
    ∧ Released s s2

/-! ## Well-formedness of an index, in the words of the specification -/

/-- An index with the header fields `columns`, `units`, `slots` is well formed: the slot
count is a power of two (so at least 1), some slot is empty, the buffer holds at least
`16 + 12 * slots + 4 * columns * (2 * units + 1)` bytes, every column tag is in `0..8`, and
the row-index entry of every non-empty slot is in `1..units`.  The positions are those of
the format, computed without a word size. -/
def WellFormedIndex (b : Buf) (columns units slots : Nat) : Prop :=
  rd32 b 4 = some columns ∧ rd32 b 8 = some units ∧ rd32 b 12 = some slots
    ∧ (∃ n, slots = 2 ^ n)
    ∧ (∃ e, e < slots ∧ hts b e = some 0)
    ∧ 16 + 12 * slots + 4 * columns * (2 * units + 1) ≤ b.length
    ∧ (∀ i, i < columns → ∃ t, rd32 b (16 + 12 * slots + 4 * i) = some t ∧ t < 9)
    ∧ (∀ h, h < slots → hts b h ≠ some 0 →
        ∃ p, rd32 b (16 + 8 * slots + 4 * h) = some p ∧ 1 ≤ p ∧ p ≤ units)

/-! ## Concrete inputs -/

/-- The four bytes of a 32-bit word, least significant first. -/
def le32 (x : Nat) : List Nat := [x % 256, x / 256 % 256, x / 65536 % 256, x / 16777216 % 256]

/-- The eight bytes of a 64-bit word, least significant first. -/
def le64 (x : Nat) : List Nat := le32 (x % W32) ++ le32 (x / W32)

/-- Bytes of a sequence of 32-bit words. -/
def words32 (l : List Nat) : List Nat := (l.map le32).flatten

/-- Bytes of a sequence of 64-bit words. -/
def words64 (l : List Nat) : List Nat := (l.map le64).flatten

/-- The enumerators as DWARF 5 numbers them. -/
def kEx : Consts :=
  { DW_SECT_INFO := 1, DW_SECT_ABBREV := 3, DW_SECT_STR_OFFSETS := 6,
    DW_UT_skeleton := 4, DW_UT_split_compile := 5, PATH_MAX := 4096 }

/-- Three signatures that all start probing at slot 2 of an eight-slot table. -/
def sigsEx : List Nat := [41394, 4294967298, 10]

/-- The table `buildTable 8 sigsEx`. -/
def tblEx : List Nat := [0, 0, 41394, 4294967298, 10, 0, 0, 0]

/-- A package index: version 2, 3 columns, 3 units, 8 slots holding `tblEx`; row indices;
the column tags; three rows of offsets, the middle one (row index 1) as given; three rows
of sizes. -/
def pkgWith (tags row : List Nat) : Buf :=
  words32 [2, 3, 3, 8] ++ words64 tblEx ++ words32 [0, 0, 2, 1, 3, 0, 0, 0]
    ++ words32 tags
    ++ words32 ([10, 20, 30] ++ row ++ [12, 22, 32])
    ++ words32 [100, 200, 300, 101, 201, 301, 102, 202, 302]

/-- A well-formed index with the columns info, abbreviations, string offsets. -/
def bufPkg : Buf := pkgWith [1, 3, 6] [11, 21, 31]

/-- The same index with an abbreviation offset of `0xFFFFFFFF` in the row of signature 41394. -/
def bufMax : Buf := pkgWith [1, 3, 6] [11, 4294967295, 31]

/-- The same index with a line column in place of the string offsets column. -/
def bufNoStr : Buf := pkgWith [1, 3, 4] [11, 21, 31]

/-- An index whose header declares `2 ^ 30` slots: `8 * slots` and `12 * slots` are 0 in
`uint32_t`.  The words after the header are the column tags, one row of offsets, two sizes,
the row index entry read for slot 8 and, at byte 80, slot 8 holding the signature 8. -/
def bufWrap : Buf :=
  words32 [2, 3, 1, 1073741824]
    ++ words32 [1, 3, 6, 11, 21, 31, 100, 200, 1, 0, 0, 0, 0, 0, 0, 0, 8, 0]

/-- A malformed index: 2 slots, both in use, and neither holds the signature 7. -/
def bufFull : Buf :=
  words32 [2, 0, 2, 2] ++ words64 [5, 9] ++ words32 [1, 2]

/-- Path of the split file beside the skeleton. -/
def sibPath : String := "/d/foo.dwo"

/-- Path of a package file in the debug directory. -/
def pkgPath : String := "/d/pkg.dwp"

/-- Path of a second package file in the debug directory. -/
def pkg2Path : String := "/d/pkg2.dwp"

/-- The pattern the source builds from the debug directory `/d/`. -/
def globPat : String := "/d/*.dwp"

/-- A split file without index: one split-compile unit with the signature 41394. -/
def dwoFile : Container :=
  { cu_index := none, units := fun _ => [⟨5, 41394⟩] }

/-- A package file with the index `bufPkg`.  Started at the abbreviation offset 21 of the
signature 41394 the iterator yields a unit of another type, a split-compile unit with
another signature, and two split-compile units with the signature. -/
def pkgFile : Container :=
  { cu_index := some bufPkg,
    units := fun a => if a = 21 then [⟨6, 41394⟩, ⟨5, 7⟩, ⟨5, 41394⟩, ⟨5, 41394⟩] else [] }

/-- Collaborators over a fixed file system: `files` maps a path to its container, `globbed`
is what the pattern `globPat` matches, `name` is the result of the `dwo_name` lookup.  Paths
are joined as `__libdw_filepath` joins them; its call number `failAt` returns `NULL`. -/
def envOf (files : String → Option Container) (globbed : List String)
    (name : Option (Option String)) (failAt : Nat) : Env :=
  { openFile := fun _ p => (files p).isSome
    dwarfBegin := fun _ p => files p
    allocOk := fun _ => true
    sameDbg := fun a b => a == b
    dwoName := fun _ => name
    gnuDwoName := fun _ => none
    compDir := fun _ => some "/build"
    debugdir := fun _ => some "/d/"
    filepath := fun t d dir f =>
      if t = failAt then none
      else
        match f, dir, d with
        | some f, some dir, _ => some (dir ++ "/" ++ f)
        | some f, none, some d => some (d ++ f)
        | _, _, _ => none
    glob := fun _ pat => if pat = globPat then some globbed else none }

/-- The split file lies beside the skeleton and a package file holds the unit as well. -/
def envSib : Env :=
  envOf (fun p => if p = sibPath then some dwoFile else if p = pkgPath then some pkgFile else none)
    [pkgPath] (some (some "foo.dwo")) 1000

/-- Two package files hold the unit; there is no split file beside the skeleton. -/
def envTwoPkg : Env :=
  envOf (fun p => if p = pkgPath ∨ p = pkg2Path then some pkgFile else none)
    [pkgPath, pkg2Path] (some (some "foo.dwo")) 1000

/-- A context with one unresolved skeleton unit (address 0) with the signature 41394. -/
def sEx : State :=
  { cus := [⟨0, 4, 41394, SplitLink.untried, 0⟩], split_tree := [], errno_nomem := false,
    next_fd := 3, next_dbg := 1, trace := [] }

/-- The skeleton unit of `sEx`. -/
def cuSkelEx : CU := ⟨0, 4, 41394, SplitLink.untried, 0⟩

/-- The skeleton unit of `sEx` once linked to the unit at address 1. -/
def cuLinkedEx : CU := ⟨0, 4, 41394, SplitLink.unit 1, 0⟩

/-- The string value of the `dwo_name` attribute in the examples. -/
def dwoNameEx : Option String := some "foo.dwo"

/-- The state `__libdw_find_split_unit` leaves when run on `sEx` with `envSib`: the
skeleton is linked with the unit of the split file beside it. -/
def sLinkedEx : State :=
  { cus := [cuLinkedEx, ⟨1, 5, 41394, SplitLink.unit 0, 0⟩],
    split_tree := [(0, 1)], errno_nomem := false, next_fd := 4, next_dbg := 2,
    trace := [Event.attrRead 0 AttrName.dwo_name,
      Event.filePath (some "/d/") none (some "foo.dwo"),
      Event.openFile sibPath (some 3), Event.dwarfBegin 3 (some 1),
      Event.treeSearch 1 true, Event.linkUnits 0 1, Event.fdDone 1, Event.closeFd 3] }

/-- The calls of `__libdw_link_skel_split` in a history. -/
def links (tr : List Event) : List Event :=
  tr.filter fun e =>
    match e with
    | Event.linkUnits _ _ => true
    | _ => false

/-- As `envSib`, but the root entry of the skeleton has neither a `dwo_name` nor a
`GNU_dwo_name` attribute. -/
def envNoName : Env :=
  envOf (fun p => if p = sibPath then some dwoFile else if p = pkgPath then some pkgFile else none)
    [pkgPath] none 1000

/-- As `envSib`, but `tsearch` can never allocate a node. -/
def envNoMem : Env := { envSib with allocOk := fun _ => false }

/-- Path of the candidate below `comp_dir` in the examples. -/
def compPath : String := "/build/foo.dwo"

/-- An unresolved unit that is no skeleton (a compile unit, type 1). -/
def cuPlainEx : CU := ⟨0, 1, 41394, SplitLink.untried, 0⟩

/-- A context with the unit `cuPlainEx` at address 0. -/
def sPlain : State := { sEx with cus := [cuPlainEx] }

/-- An unresolved skeleton with the signature 18, which no file of the examples holds. -/
def cuAbsentEx : CU := ⟨0, 4, 18, SplitLink.untried, 0⟩

/-- A context with the unit `cuAbsentEx` at address 0. -/
def sAbsent : State := { sEx with cus := [cuAbsentEx] }

/-- A package file with the index `bufPkg` that holds one split-compile unit for the
signature 41394 (abbreviation offset 21) and one for the signature 10 (offset 22). -/
def pkgBoth : Container :=
  { cu_index := some bufPkg,
    units := fun a => if a = 21 then [⟨5, 41394⟩] else if a = 22 then [⟨5, 10⟩] else [] }

/-- The only file is the package file `pkgBoth`; handles are compared by identity, as in
`envOf`. -/
def envOnePkg : Env :=
  envOf (fun p => if p = pkgPath then some pkgBoth else none) [pkgPath]
    (some (some "foo.dwo")) 1000

/-- A context with two unresolved skeletons, with the signatures 41394 and 10. -/
def sTwo : State :=
  { sEx with cus := [⟨0, 4, 41394, SplitLink.untried, 0⟩, ⟨0, 4, 10, SplitLink.untried, 0⟩] }

/-- The second skeleton of `sTwo`. -/
def cuSecondEx : CU := ⟨0, 4, 10, SplitLink.untried, 0⟩

/-- The state after the first skeleton of `sTwo` has been resolved in `envOnePkg`. -/
def sTwoFirst : State :=
  { cus := [⟨0, 4, 41394, SplitLink.unit 2, 0⟩, cuSecondEx, ⟨1, 5, 41394, SplitLink.unit 0, 31⟩],
    split_tree := [(0, 1)], errno_nomem := false, next_fd := 4, next_dbg := 2,
    trace := [Event.attrRead 0 AttrName.dwo_name,
      Event.filePath (some "/d/") none (some "foo.dwo"),
      Event.openFile sibPath none, Event.globRun globPat,
      Event.openFile pkgPath (some 3), Event.dwarfBegin 3 (some 1),
      Event.treeSearch 1 true, Event.linkUnits 0 2, Event.fdDone 1, Event.closeFd 3,
      Event.globFree] }

/-- The header of `bufGiant`: version 2, no column, one unit, `2 ^ 29` slots. -/
def giantHead : Buf := words32 [2, 0, 1, 536870912]

/-- The slot array of `bufGiant`: slot 0 holds the signature `2 ^ 29`, all others are
empty. -/
def giantTable : Buf := le64 536870912 ++ List.replicate 4294967288 0

/-- The row-index array of `bufGiant`: the entry of slot 0 is 1, all others are 0. -/
def giantRows : Buf := le32 1 ++ List.replicate 2147483644 0

/-- An index of `16 + 12 * 2 ^ 29` bytes (6 GiB): `8 * slots` is `2 ^ 32`. -/
def bufGiant : Buf := giantHead ++ giantTable ++ giantRows

/-- The index `bufPkg` cut off behind its slot array: the row-index array and the tables its
header declares are missing. -/
def bufShort : Buf := words32 [2, 3, 3, 8] ++ words64 tblEx

/-- The index `bufPkg` with the column tag 9 in place of the string offsets tag. -/
def bufTag9 : Buf := pkgWith [1, 3, 9] [11, 21, 31]

/-- The index `bufPkg` with the row-index entry 7 for the slot of the signature 41394,
although the header declares 3 units. -/
def bufBadRow : Buf :=
  words32 [2, 3, 3, 8] ++ words64 tblEx ++ words32 [0, 0, 7, 1, 3, 0, 0, 0]
    ++ words32 [1, 3, 6]
    ++ words32 [10, 20, 30, 11, 21, 31, 12, 22, 32]
    ++ words32 [100, 200, 300, 101, 201, 301, 102, 202, 302]

/-- The debug directory of the examples. -/
def debugDirEx : String := "/d/"

/-- A package file whose index is the full table `bufFull` and which holds no unit. -/
def fullPkg : Container := { cu_index := some bufFull, units := fun _ => [] }

/-- The only file is the package file `fullPkg`. -/
def envFullPkg : Env :=
  envOf (fun p => if p = pkgPath then some fullPkg else none) [pkgPath]
    (some (some "foo.dwo")) 1000

/-- An unresolved skeleton with the signature 7. -/
def cuSevenEx : CU := ⟨0, 4, 7, SplitLink.untried, 0⟩

/-- A context with the unit `cuSevenEx` at address 0. -/
def sSeven : State := { sEx with cus := [cuSevenEx] }

/-- An unresolved skeleton with the signature 0. -/
def cuZeroEx : CU := ⟨0, 4, 0, SplitLink.untried, 0⟩

/-- A context with the unit `cuZeroEx` at address 0. -/
def sZero : State := { sEx with cus := [cuZeroEx] }

/-- As `envSib`, but the field `debugdir` of the context is `NULL`. -/
def envNoDir : Env := { envSib with debugdir := fun _ => none }

/-! ## The probe sequence -/

theorem rd8_lt {b : Buf} {off v : Nat} (h : rd8 b off = some v) : v < 256 := by
  unfold rd8 at h
  split at h
  · injection h with h; omega
  · cases h

theorem rd32_lt {b : Buf} {off v : Nat} (h : rd32 b off = some v) : v < W32 := by
  unfold rd32 at h
  split at h
  · rename_i b0 b1 b2 b3 h0 h1 h2 h3
    injection h with h
    have := rd8_lt h0; have := rd8_lt h1; have := rd8_lt h2; have := rd8_lt h3
    unfold W32; omega
  · cases h

theorem maskOf_pow (n : Nat) (hn : 2 ^ n < W32) : maskOf (2 ^ n) = 2 ^ n - 1 := by
  unfold maskOf
  have hpos : 0 < 2 ^ n := Nat.two_pow_pos n
  have : 2 ^ n + W32 - 1 = (2 ^ n - 1) + W32 := by omega
  rw [this, Nat.add_mod_right, Nat.mod_eq_of_lt (by omega)]

theorem hashStart_pow (n id : Nat) (hn : 2 ^ n < W32) : hashStart (2 ^ n) id = id % 2 ^ n := by
  unfold hashStart
  rw [maskOf_pow n hn, Nat.and_pow_two_sub_one_eq_mod]

theorem maskOf_lt (slots : Nat) : maskOf slots < 2 ^ 32 := by
  unfold maskOf
  exact Nat.mod_lt _ (by unfold W32; norm_num)

theorem hashPrime_lt (slots id : Nat) : hashPrime slots id < 2 ^ 32 := by
  unfold hashPrime
  apply Nat.or_lt_two_pow
  · exact lt_of_le_of_lt Nat.and_le_right (maskOf_lt slots)
  · norm_num

theorem hashPrime_odd (slots id : Nat) : hashPrime slots id % 2 = 1 := by
  unfold hashPrime
  rw [Nat.or_mod_two_eq_one]
  right; rfl

theorem hashPrime_coprime (n id : Nat) : Nat.Coprime (hashPrime (2 ^ n) id) (2 ^ n) := by
  apply Nat.Coprime.pow_right
  rw [Nat.coprime_comm, Nat.Prime.coprime_iff_not_dvd Nat.prime_two]
  have := hashPrime_odd (2 ^ n) id
  omega

theorem stepPos_lt (slots st pos j : Nat) (h : 0 < slots) : stepPos slots st pos j < slots :=
  Nat.mod_lt _ h

theorem stepPos_succ (slots st pos j : Nat) :
    stepPos slots st ((pos + st) % slots) j = stepPos slots st pos (j + 1) := by
  unfold stepPos
  rw [Nat.add_mod, Nat.mod_mod, ← Nat.add_mod]
  congr 1; ring

theorem stepPos_cover (slots st pos : Nat) (hs : 0 < slots) (hc : Nat.Coprime st slots)
    (e : Nat) (he : e < slots) : ∃ j, j < slots ∧ stepPos slots st pos j = e := by
  let f : Fin slots → Fin slots := fun j => ⟨stepPos slots st pos j, stepPos_lt _ _ _ _ hs⟩
  have hinj : Function.Injective f := by
    intro i j hij
    have h1 : stepPos slots st pos i = stepPos slots st pos j := congrArg Fin.val hij
    unfold stepPos at h1
    have h2 : pos + i * st ≡ pos + j * st [MOD slots] := h1
    have h3 : (i : Nat) * st ≡ j * st [MOD slots] := Nat.ModEq.add_left_cancel' pos h2
    have h4 : (i : Nat) ≡ j [MOD slots] :=
      Nat.ModEq.cancel_right_of_coprime (by rw [Nat.gcd_comm]; exact hc) h3
    have h5 : (i : Nat) % slots = j % slots := h4
    rw [Nat.mod_eq_of_lt i.2, Nat.mod_eq_of_lt j.2] at h5
    exact Fin.ext h5
  have hsur : Function.Surjective f := Finite.injective_iff_surjective.mp hinj
  obtain ⟨j, hj⟩ := hsur ⟨e, he⟩
  exact ⟨j.1, j.2, congrArg Fin.val hj⟩

/-- The probe loop leaves at the first position of its path whose slot is empty or
holds the signature. -/
theorem probeLoop_hit (b : Buf) (slots id : Nat) (T : Nat → Nat) (hs : 0 < slots)
    (hslots : slots < W32)
    (hT : ∀ h, h < slots → hts b h = some (T h)) :
    ∀ (kk pos fuel : Nat), pos < slots → kk < fuel →
      (∀ j, j < kk → ¬ (T (stepPos slots (hashPrime slots id) pos j) = 0
        ∨ T (stepPos slots (hashPrime slots id) pos j) = id)) →
      (T (stepPos slots (hashPrime slots id) pos kk) = 0
        ∨ T (stepPos slots (hashPrime slots id) pos kk) = id) →
      probeLoop b slots id fuel pos = Run.ok (stepPos slots (hashPrime slots id) pos kk) := by
  intro kk
  induction kk with
  | zero =>
    intro pos fuel hpos hf _ hhit
    have h0 : stepPos slots (hashPrime slots id) pos 0 = pos := by
      unfold stepPos; simp [Nat.mod_eq_of_lt hpos]
    rw [h0] at hhit ⊢
    obtain ⟨f, rfl⟩ : ∃ f, fuel = f + 1 := ⟨fuel - 1, by omega⟩
    simp only [probeLoop, hT pos hpos]
    simp [hhit]
  | succ kk ih =>
    intro pos fuel hpos hf hmiss hhit
    obtain ⟨f, rfl⟩ : ∃ f, fuel = f + 1 := ⟨fuel - 1, by omega⟩
    have h0 : stepPos slots (hashPrime slots id) pos 0 = pos := by
      unfold stepPos; simp [Nat.mod_eq_of_lt hpos]
    have hm0 := hmiss 0 (by omega)
    rw [h0] at hm0
    have hlt : pos + hashPrime slots id < W64 := by
      have := hashPrime_lt slots id
      unfold W64; unfold W32 at hslots; omega
    simp only [probeLoop, hT pos hpos]
    rw [if_neg hm0, if_neg (by omega), Nat.mod_eq_of_lt hlt]
    rw [ih ((pos + hashPrime slots id) % slots) f (Nat.mod_lt _ hs) (by omega)]
    · rw [stepPos_succ]
    · intro j hj
      rw [stepPos_succ]
      exact hmiss (j + 1) (by omega)
    · rw [stepPos_succ]; exact hhit

/-- Without an empty slot and without the signature the loop is never left. -/
theorem probeLoop_never (b : Buf) (slots id : Nat) (hs : 0 < slots)
    (hfull : ∀ h, h < slots → ∃ v, hts b h = some v ∧ v ≠ 0 ∧ v ≠ id) :
    ∀ (fuel pos : Nat), pos < slots → probeLoop b slots id fuel pos = Run.timeout := by
  intro fuel
  induction fuel with
  | zero => intro pos _; rfl
  | succ f ih =>
    intro pos hpos
    obtain ⟨v, hv, h0, hid⟩ := hfull pos hpos
    simp only [probeLoop, hv]
    rw [if_neg (by simp [h0, hid]), if_neg (by omega)]
    exact ih _ (Nat.mod_lt _ hs)

/-- The loop is left within `slots` probes, at the first slot of the probe path that is
empty or holds the signature, when there is such a slot in the table. -/
theorem probeLoop_finds (b : Buf) (n id : Nat) (T : Nat → Nat) (hslots : 2 ^ n < W32)
    (hT : ∀ h, h < 2 ^ n → hts b h = some (T h))
    (hex : ∃ e, e < 2 ^ n ∧ (T e = 0 ∨ T e = id)) :
    ∃ m, m < 2 ^ n ∧ (T (pathPos (2 ^ n) id m) = 0 ∨ T (pathPos (2 ^ n) id m) = id) ∧
      (∀ j, j < m → ¬ (T (pathPos (2 ^ n) id j) = 0 ∨ T (pathPos (2 ^ n) id j) = id)) ∧
      ∀ fuel, 2 ^ n ≤ fuel →
        probeLoop b (2 ^ n) id fuel (hashStart (2 ^ n) id) = Run.ok (pathPos (2 ^ n) id m) := by
  classical
  have hs : 0 < 2 ^ n := Nat.two_pow_pos n
  have hpos : hashStart (2 ^ n) id < 2 ^ n := by
    rw [hashStart_pow n id hslots]; exact Nat.mod_lt _ hs
  obtain ⟨e, he, hte⟩ := hex
  obtain ⟨j, hj, hje⟩ := stepPos_cover (2 ^ n) (hashPrime (2 ^ n) id) (hashStart (2 ^ n) id) hs
    (hashPrime_coprime n id) e he
  let P : Nat → Prop := fun i =>
    T (pathPos (2 ^ n) id i) = 0 ∨ T (pathPos (2 ^ n) id i) = id
  have hPj : P j := by
    show _ ∨ _
    unfold pathPos; rw [hje]; exact hte
  have hP : ∃ i, P i := ⟨j, hPj⟩
  have hmin : Nat.find hP ≤ j := Nat.find_min' hP hPj
  refine ⟨Nat.find hP, by omega, Nat.find_spec hP, fun i hi => Nat.find_min hP hi, ?_⟩
  intro fuel hfuel
  exact probeLoop_hit b (2 ^ n) id T hs hslots hT (Nat.find hP) _ fuel hpos (by omega)
    (fun i hi => Nat.find_min hP hi) (Nat.find_spec hP)

theorem getD_set_self (t : List Nat) (q v : Nat) (hq : q < t.length) :
    (t.set q v).getD q 0 = v := by
  simp [List.getD_eq_getElem?_getD, List.getElem?_set, hq]

theorem getD_set_other (t : List Nat) (q p v : Nat) (hne : p ≠ q) :
    (t.set q v).getD p 0 = t.getD p 0 := by
  simp [List.getD_eq_getElem?_getD, List.getElem?_set, Ne.symm hne]

theorem insertLoop_hit (slots sig st : Nat) (t : List Nat) (hs : 0 < slots) :
    ∀ (kk pos fuel : Nat), pos < slots → kk < fuel →
      (∀ j, j < kk → t.getD (stepPos slots st pos j) 0 ≠ 0) →
      t.getD (stepPos slots st pos kk) 0 = 0 →
      insertLoop slots sig st fuel pos t = some (t.set (stepPos slots st pos kk) sig) := by
  intro kk
  induction kk with
  | zero =>
    intro pos fuel hpos hf _ hhit
    have h0 : stepPos slots st pos 0 = pos := by
      unfold stepPos; simp [Nat.mod_eq_of_lt hpos]
    rw [h0] at hhit ⊢
    obtain ⟨f, rfl⟩ : ∃ f, fuel = f + 1 := ⟨fuel - 1, by omega⟩
    simp only [insertLoop]
    rw [if_pos hhit]
  | succ kk ih =>
    intro pos fuel hpos hf hmiss hhit
    obtain ⟨f, rfl⟩ : ∃ f, fuel = f + 1 := ⟨fuel - 1, by omega⟩
    have h0 : stepPos slots st pos 0 = pos := by
      unfold stepPos; simp [Nat.mod_eq_of_lt hpos]
    have hm0 := hmiss 0 (by omega)
    rw [h0] at hm0
    simp only [insertLoop]
    rw [if_neg hm0, ih ((pos + st) % slots) f (Nat.mod_lt _ hs) (by omega)]
    · rw [stepPos_succ]
    · intro j hj
      rw [stepPos_succ]
      exact hmiss (j + 1) (by omega)
    · rw [stepPos_succ]; exact hhit

theorem exists_empty (slots : Nat) (t : List Nat) (h : (usedSlots slots t).card < slots) :
    ∃ e, e < slots ∧ t.getD e 0 = 0 := by
  by_contra hno
  push_neg at hno
  have : usedSlots slots t = Finset.range slots := by
    unfold usedSlots
    apply Finset.filter_true_of_mem
    intro x hx
    exact hno x (Finset.mem_range.mp hx)
  rw [this, Finset.card_range] at h
  omega

theorem usedSlots_set (slots : Nat) (t : List Nat) (q v : Nat) :
    (usedSlots slots (t.set q v)).card ≤ (usedSlots slots t).card + 1 := by
  have hsub : usedSlots slots (t.set q v) ⊆ insert q (usedSlots slots t) := by
    intro x hx
    unfold usedSlots at hx ⊢
    rw [Finset.mem_filter] at hx
    rw [Finset.mem_insert, Finset.mem_filter]
    by_cases hxq : x = q
    · left; exact hxq
    · right
      rw [getD_set_other t q x v hxq] at hx
      exact hx
  exact le_trans (Finset.card_le_card hsub) (Finset.card_insert_le _ _)

theorem insertSig_spec (n : Nat) (t S : List Nat) (sig : Nat) (hslots : 2 ^ n < W32)
    (hlen : t.length = 2 ^ n) (hsig : sig ≠ 0) (hS : Stored (2 ^ n) t S)
    (hnz : ∀ s, s ∈ S → s ≠ 0) (hcard : (usedSlots (2 ^ n) t).card < 2 ^ n) :
    ∃ q, insertSig (2 ^ n) t sig = some (t.set q sig) ∧ Stored (2 ^ n) (t.set q sig) (sig :: S) := by
  classical
  have hs : 0 < 2 ^ n := Nat.two_pow_pos n
  obtain ⟨e, he, hte⟩ := exists_empty _ _ hcard
  obtain ⟨j, hj, hje⟩ := stepPos_cover (2 ^ n) (hashPrime (2 ^ n) sig) (hashStart (2 ^ n) sig) hs
    (hashPrime_coprime n sig) e he
  let P : Nat → Prop := fun i => t.getD (pathPos (2 ^ n) sig i) 0 = 0
  have hP : ∃ i, P i := ⟨j, by show t.getD (pathPos (2 ^ n) sig j) 0 = 0; unfold pathPos; rw [hje]; exact hte⟩
  have hmin : Nat.find hP ≤ j := Nat.find_min' hP (by
    show t.getD (pathPos (2 ^ n) sig j) 0 = 0; unfold pathPos; rw [hje]; exact hte)
  have hq0 : t.getD (pathPos (2 ^ n) sig (Nat.find hP)) 0 = 0 := Nat.find_spec hP
  have hqlt : pathPos (2 ^ n) sig (Nat.find hP) < t.length := by
    rw [hlen]; exact stepPos_lt _ _ _ _ hs
  refine ⟨pathPos (2 ^ n) sig (Nat.find hP), ?_, ?_⟩
  · unfold insertSig
    have hstart : sig &&& (2 ^ n - 1) = hashStart (2 ^ n) sig := by
      unfold hashStart; rw [maskOf_pow n hslots]
    have hstep : ((sig >>> 32) &&& (2 ^ n - 1)) ||| 1 = hashPrime (2 ^ n) sig := by
      unfold hashPrime; rw [maskOf_pow n hslots]
    rw [hstart, hstep]
    have hpos : hashStart (2 ^ n) sig < 2 ^ n := by
      rw [hashStart_pow n sig hslots]; exact Nat.mod_lt _ hs
    exact insertLoop_hit (2 ^ n) sig _ t hs (Nat.find hP) _ (2 ^ n) hpos (by omega)
      (fun i hi => Nat.find_min hP hi) hq0
  · intro s hsmem
    rcases List.mem_cons.mp hsmem with rfl | hsS
    · refine ⟨Nat.find hP, getD_set_self t _ _ hqlt, ?_⟩
      intro i hi
      have hne : t.getD (pathPos (2 ^ n) s i) 0 ≠ 0 := Nat.find_min hP hi
      have hpq : pathPos (2 ^ n) s i ≠ pathPos (2 ^ n) s (Nat.find hP) := by
        intro heq; rw [heq] at hne; exact hne hq0
      rw [getD_set_other t _ _ _ hpq]; exact hne
    · obtain ⟨kk, hk, hbefore⟩ := hS s hsS
      refine ⟨kk, ?_, ?_⟩
      · have hpq : pathPos (2 ^ n) s kk ≠ pathPos (2 ^ n) sig (Nat.find hP) := by
          intro heq; rw [heq, hq0] at hk; exact hnz s hsS hk.symm
        rw [getD_set_other t _ _ _ hpq]; exact hk
      · intro i hi
        have hne := hbefore i hi
        have hpq : pathPos (2 ^ n) s i ≠ pathPos (2 ^ n) sig (Nat.find hP) := by
          intro heq; rw [heq] at hne; exact hne hq0
        rw [getD_set_other t _ _ _ hpq]; exact hne

theorem buildFrom_spec (n : Nat) (hslots : 2 ^ n < W32) :
    ∀ (sigs t S : List Nat), t.length = 2 ^ n → Stored (2 ^ n) t S →
      (∀ s, s ∈ S → s ≠ 0) → (∀ s, s ∈ sigs → s ≠ 0) →
      (usedSlots (2 ^ n) t).card ≤ S.length → S.length + sigs.length < 2 ^ n →
      ∃ t2, buildFrom (2 ^ n) sigs t = some t2 ∧ t2.length = 2 ^ n ∧
        Stored (2 ^ n) t2 (sigs ++ S) := by
  intro sigs
  induction sigs with
  | nil =>
    intro t S hlen hS _ _ _ _
    exact ⟨t, rfl, hlen, by simpa using hS⟩
  | cons sig rest ih =>
    intro t S hlen hS hnzS hnz hcard hbound
    simp only [List.length_cons] at hbound
    obtain ⟨q, hq, hst⟩ := insertSig_spec n t S sig hslots hlen
      (hnz sig (List.mem_cons_self _ _)) hS hnzS (by omega)
    obtain ⟨t2, h2, hl2, hS2⟩ := ih (t.set q sig) (sig :: S) (by simp [hlen]) hst
      (by
        intro s hs
        rcases List.mem_cons.mp hs with rfl | h
        · exact hnz s (List.mem_cons_self _ _)
        · exact hnzS s h)
      (fun s hs => hnz s (List.mem_cons_of_mem _ hs))
      (by
        have := usedSlots_set (2 ^ n) t q sig
        simp only [List.length_cons]; omega)
      (by simp only [List.length_cons]; omega)
    refine ⟨t2, ?_, hl2, ?_⟩
    · simp only [buildFrom, hq]; exact h2
    · intro s hs
      apply hS2 s
      simp only [List.mem_append, List.mem_cons] at hs ⊢
      tauto

theorem pathPos_lt (n sig j : Nat) : pathPos (2 ^ n) sig j < 2 ^ n :=
  stepPos_lt _ _ _ _ (Nat.two_pow_pos n)

theorem usedSlots_replicate (slots : Nat) : usedSlots slots (List.replicate slots 0) = ∅ := by
  unfold usedSlots
  apply Finset.filter_false_of_mem
  intro x _
  simp only [List.getD_eq_getElem?_getD, List.getElem?_replicate, ne_eq, not_not]
  split <;> rfl

/-- The construction succeeds for fewer than `slots` non-zero signatures. -/
theorem buildTable_total (n : Nat) (sigs : List Nat) (hslots : 2 ^ n < W32)
    (hcount : sigs.length < 2 ^ n) (hnz : ∀ s, s ∈ sigs → s ≠ 0) :
    ∃ tbl, buildTable (2 ^ n) sigs = some tbl ∧ tbl.length = 2 ^ n
      ∧ Stored (2 ^ n) tbl sigs := by
  obtain ⟨t2, h1, h2, h3⟩ := buildFrom_spec n hslots sigs (List.replicate (2 ^ n) 0) []
    (by simp) (by intro s hs; cases hs) (by intro s hs; cases hs) hnz
    (by rw [usedSlots_replicate]; simp) (by simpa using hcount)
  exact ⟨t2, h1, h2, by simpa using h3⟩

theorem lookupIndex_of_probe (k : Consts) (b : Buf) (id fuel ver columns units slots h v : Nat)
    (hv : rd32 b 0 = some ver) (hc : rd32 b 4 = some columns) (hu : rd32 b 8 = some units)
    (hs : rd32 b 12 = some slots)
    (hp : probeLoop b slots id fuel (hashStart slots id) = Run.ok h) (hh : hts b h = some v) :
    lookupIndex k b id fuel
      = if v = id then decodeRow k b columns units slots h else Run.ok none := by
  simp [lookupIndex, hv, hc, hu, hs, hp, hh, Run.ofOption, Run.bind]

/-- C1: in a table of `2 ^ n` slots built by inserting fewer than `2 ^ n` non-zero
signatures along the double-hash probe sequence (`buildTable`, which succeeds on every
such input by `buildTable_total`), the probe loop of `try_split_file`, run on a buffer
holding that table for an inserted signature, stops within `slots` probes at a slot that
holds the signature, and the lookup takes the branch `hts[hash] == cu->unit_id8`.
Distinctness of the signatures is not needed. -/
theorem C1_inserted_signature_is_found (k : Consts) (b : Buf) (n ver columns units : Nat)
    (sigs tbl : List Nat) (id fuel : Nat)
    (hv : rd32 b 0 = some ver) (hc : rd32 b 4 = some columns) (hu : rd32 b 8 = some units)
    (hs : rd32 b 12 = some (2 ^ n))
    (hcount : sigs.length < 2 ^ n) (hnz : ∀ s, s ∈ sigs → s ≠ 0)
    (htbl : buildTable (2 ^ n) sigs = some tbl)
    (hbuf : ∀ h, h < 2 ^ n → hts b h = some (tbl.getD h 0))
    (hid : id ∈ sigs) (hfuel : 2 ^ n ≤ fuel) :
    ∃ h, h < 2 ^ n ∧ probeLoop b (2 ^ n) id fuel (hashStart (2 ^ n) id) = Run.ok h
      ∧ hts b h = some id
      ∧ lookupIndex k b id fuel = decodeRow k b columns units (2 ^ n) h := by
  have hslots : 2 ^ n < W32 := rd32_lt hs
  obtain ⟨t2, h1, _, hst⟩ := buildTable_total n sigs hslots hcount hnz
  rw [htbl] at h1
  injection h1 with h1
  subst h1
  obtain ⟨kk, hk, hbefore⟩ := hst id hid
  obtain ⟨m, hm, hhit, hmin, hrun⟩ := probeLoop_finds b n id (fun h => tbl.getD h 0) hslots hbuf
    ⟨pathPos (2 ^ n) id kk, pathPos_lt n id kk, Or.inr hk⟩
  have hval : tbl.getD (pathPos (2 ^ n) id m) 0 = id := by
    rcases hhit with h0 | hi
    · exfalso
      rcases Nat.lt_trichotomy m kk with hlt | heq | hgt
      · exact hbefore m hlt h0
      · rw [heq, hk] at h0; exact hnz id hid h0
      · exact hmin kk hgt (Or.inr hk)
    · exact hi
  have hh : hts b (pathPos (2 ^ n) id m) = some id := by
    rw [hbuf _ (pathPos_lt n id m)]; exact congrArg some hval
  refine ⟨pathPos (2 ^ n) id m, pathPos_lt n id m, hrun fuel hfuel, hh, ?_⟩
  rw [lookupIndex_of_probe k b id fuel ver columns units (2 ^ n) _ id hv hc hu hs
    (hrun fuel hfuel) hh]
  simp

/-- C2: in a well-formed package index (slot count `2 ^ n`, slot array inside the buffer,
at most `units` slots in use, `units < slots`) the probe loop, run for a non-zero signature
that no slot holds, stops within `slots` probes at an empty slot; the lookup reports no
match and the abbreviation and string offsets are both 0. -/
theorem C2_absent_signature_stops_at_empty_slot (k : Consts) (b : Buf)
    (n ver columns units id : Nat)
    (hv : rd32 b 0 = some ver) (hc : rd32 b 4 = some columns) (hu : rd32 b 8 = some units)
    (hs : rd32 b 12 = some (2 ^ n))
    (hread : ∀ h, h < 2 ^ n → (hts b h).isSome)
    (hused : ((Finset.range (2 ^ n)).filter fun h => hts b h ≠ some 0).card ≤ units)
    (hunits : units < 2 ^ n)
    (hid : id ≠ 0) (habs : ∀ h, h < 2 ^ n → hts b h ≠ some id) :
    ∃ h, h < 2 ^ n ∧ hts b h = some 0 ∧
      ∀ fuel, 2 ^ n ≤ fuel →
        probeLoop b (2 ^ n) id fuel (hashStart (2 ^ n) id) = Run.ok h
        ∧ lookupIndex k b id fuel = Run.ok none
        ∧ indexOffsets k (some b) id fuel = Run.ok (0, 0) := by
  have hslots : 2 ^ n < W32 := rd32_lt hs
  have hT : ∀ h, h < 2 ^ n → hts b h = some ((hts b h).getD 0) := by
    intro h hh
    have := hread h hh
    cases hx : hts b h with
    | none => rw [hx] at this; cases this
    | some v => rfl
  have hempty : ∃ e, e < 2 ^ n ∧ ((hts b e).getD 0 = 0 ∨ (hts b e).getD 0 = id) := by
    by_contra hno
    push_neg at hno
    have hall : ((Finset.range (2 ^ n)).filter fun h => hts b h ≠ some 0)
        = Finset.range (2 ^ n) := by
      apply Finset.filter_true_of_mem
      intro x hx
      have hx2 := Finset.mem_range.mp hx
      intro h0
      have := (hno x hx2).1
      rw [h0] at this
      exact this rfl
    rw [hall, Finset.card_range] at hused
    omega
  obtain ⟨m, hm, hhit, _, hrun⟩ := probeLoop_finds b n id (fun h => (hts b h).getD 0) hslots hT
    hempty
  have hlt := pathPos_lt n id m
  have hval : hts b (pathPos (2 ^ n) id m) = some 0 := by
    rcases hhit with h0 | hi
    · rw [hT _ hlt]; exact congrArg some h0
    · exfalso
      apply habs _ hlt
      rw [hT _ hlt]; exact congrArg some hi
  refine ⟨pathPos (2 ^ n) id m, hlt, hval, ?_⟩
  intro fuel hfuel
  have hl : lookupIndex k b id fuel = Run.ok none := by
    rw [lookupIndex_of_probe k b id fuel ver columns units (2 ^ n) _ 0 hv hc hu hs
      (hrun fuel hfuel) hval]
    rw [if_neg (fun h => hid h.symm)]
  refine ⟨hrun fuel hfuel, hl, ?_⟩
  simp [indexOffsets, hl, Run.bind, normOffset]

/-- C3 (amended): for a package index with `2 ^ n` slots whose slot array lies inside the
buffer, the probe loop stops within `slots` probes when some slot is empty or holds the
signature; the loop has no probe counter, and when no slot is empty or holds the signature
it is never left, whatever the number of probes. -/
theorem C3_probe_loop_stops_iff_slot_available (b : Buf) (n id : Nat) (hslots : 2 ^ n < W32)
    (hread : ∀ h, h < 2 ^ n → (hts b h).isSome) :
    ((∃ e, e < 2 ^ n ∧ (hts b e = some 0 ∨ hts b e = some id)) →
      ∃ h, h < 2 ^ n ∧ (hts b h = some 0 ∨ hts b h = some id) ∧
        ∀ fuel, 2 ^ n ≤ fuel →
          probeLoop b (2 ^ n) id fuel (hashStart (2 ^ n) id) = Run.ok h)
    ∧ ((∀ e, e < 2 ^ n → hts b e ≠ some 0 ∧ hts b e ≠ some id) →
      ∀ fuel, probeLoop b (2 ^ n) id fuel (hashStart (2 ^ n) id) = Run.timeout) := by
  have hT : ∀ h, h < 2 ^ n → hts b h = some ((hts b h).getD 0) := by
    intro h hh
    have := hread h hh
    cases hx : hts b h with
    | none => rw [hx] at this; cases this
    | some v => rfl
  constructor
  · rintro ⟨e, he, hte⟩
    obtain ⟨m, hm, hhit, _, hrun⟩ := probeLoop_finds b n id (fun h => (hts b h).getD 0) hslots hT
      ⟨e, he, by rcases hte with h | h <;> simp [h]⟩
    have hlt := pathPos_lt n id m
    refine ⟨pathPos (2 ^ n) id m, hlt, ?_, hrun⟩
    rcases hhit with h | h
    · left; rw [hT _ hlt]; exact congrArg some h
    · right; rw [hT _ hlt]; exact congrArg some h
  · intro hfull fuel
    apply probeLoop_never b (2 ^ n) id (Nat.two_pow_pos n)
    · intro h hh
      refine ⟨(hts b h).getD 0, hT h hh, ?_, ?_⟩
      · intro h0; apply (hfull h hh).1; rw [hT h hh, h0]
      · intro h0; apply (hfull h hh).2; rw [hT h hh, h0]
    · rw [hashStart_pow n id hslots]; exact Nat.mod_lt _ (Nat.two_pow_pos n)

/-- Witness of C1: the signature 10, inserted third behind two collisions, is found. -/
theorem C1_witness :
    ∃ h, h < 2 ^ 3 ∧ probeLoop bufPkg (2 ^ 3) 10 8 (hashStart (2 ^ 3) 10) = Run.ok h
      ∧ hts bufPkg h = some 10
      ∧ lookupIndex kEx bufPkg 10 8 = decodeRow kEx bufPkg 3 3 (2 ^ 3) h :=
  C1_inserted_signature_is_found kEx bufPkg 3 2 3 3 sigsEx tblEx 10 8 (by decide) (by decide)
    (by decide) (by decide) (by decide) (by decide) (by decide) (by decide) (by decide)
    (by decide)

/-- Witness of C2: the signature 18 is not in the table of `bufPkg`. -/
theorem C2_witness :
    ∃ h, h < 2 ^ 3 ∧ hts bufPkg h = some 0 ∧
      ∀ fuel, 2 ^ 3 ≤ fuel →
        probeLoop bufPkg (2 ^ 3) 18 fuel (hashStart (2 ^ 3) 18) = Run.ok h
        ∧ lookupIndex kEx bufPkg 18 fuel = Run.ok none
        ∧ indexOffsets kEx (some bufPkg) 18 fuel = Run.ok (0, 0) :=
  C2_absent_signature_stops_at_empty_slot kEx bufPkg 3 2 3 3 18 (by decide) (by decide)
    (by decide) (by decide) (by decide) (by decide) (by decide) (by decide) (by decide)

theorem lookupIndex_of_probe_timeout (k : Consts) (b : Buf) (id fuel ver columns units slots : Nat)
    (hv : rd32 b 0 = some ver) (hc : rd32 b 4 = some columns) (hu : rd32 b 8 = some units)
    (hs : rd32 b 12 = some slots)
    (hp : probeLoop b slots id fuel (hashStart slots id) = Run.timeout) :
    lookupIndex k b id fuel = Run.timeout := by
  simp [lookupIndex, hv, hc, hu, hs, hp, Run.ofOption, Run.bind]

/-- C3, counterexample: on `bufFull` (2 slots, both in use, signature 7 absent) the loop
has not stopped after `slots` = 2 probes and does not stop for any number of probes. -/
theorem C3_counterexample_full_table :
    probeLoop bufFull 2 7 2 (hashStart 2 7) = Run.timeout
      ∧ ∀ fuel, indexOffsets kEx (some bufFull) 7 fuel = Run.timeout := by
  have hnever : ∀ fuel, probeLoop bufFull 2 7 fuel (hashStart 2 7) = Run.timeout := by
    intro fuel
    apply probeLoop_never bufFull 2 7 (by decide)
    · intro h hh
      have : h = 0 ∨ h = 1 := by omega
      rcases this with rfl | rfl
      · exact ⟨5, by decide, by decide, by decide⟩
      · exact ⟨9, by decide, by decide, by decide⟩
    · decide
  refine ⟨hnever 2, ?_⟩
  intro fuel
  have hl := lookupIndex_of_probe_timeout kEx bufFull 7 fuel 2 0 2 2 (by decide) (by decide)
    (by decide) (by decide) (hnever fuel)
  simp only [indexOffsets, hl, Run.bind]

/-- Witness of C3 (amended), at the full table `bufFull` and the signature 7. -/
theorem C3_witness :
    ((∃ e, e < 2 ^ 1 ∧ (hts bufFull e = some 0 ∨ hts bufFull e = some 7)) →
      ∃ h, h < 2 ^ 1 ∧ (hts bufFull h = some 0 ∨ hts bufFull h = some 7) ∧
        ∀ fuel, 2 ^ 1 ≤ fuel →
          probeLoop bufFull (2 ^ 1) 7 fuel (hashStart (2 ^ 1) 7) = Run.ok h)
    ∧ ((∀ e, e < 2 ^ 1 → hts bufFull e ≠ some 0 ∧ hts bufFull e ≠ some 7) →
      ∀ fuel, probeLoop bufFull (2 ^ 1) 7 fuel (hashStart (2 ^ 1) 7) = Run.timeout) :=
  C3_probe_loop_stops_iff_slot_available bufFull 1 7 (by decide) (by decide)

/-! ## The section table -/

theorem fillMapping_spec (b : Buf) (base : Nat) :
    ∀ (n i : Nat) (m : List Nat), m.length = 9 →
      (∀ j, j < i + n → i ≤ j → ∃ t, rd32 b (base + 4 * j) = some t ∧ t < 9) →
      ∃ m2, fillMapping b base n i m = Run.ok m2 ∧ m2.length = 9 ∧
        ∀ K, K < 9 →
          ((∃ j, j < i + n ∧ i ≤ j ∧ rd32 b (base + 4 * j) = some K
              ∧ (∀ j2, j2 < i + n → j < j2 → rd32 b (base + 4 * j2) ≠ some K)
              ∧ m2.getD K 0 = j)
            ∨ ((∀ j, j < i + n → i ≤ j → rd32 b (base + 4 * j) ≠ some K)
              ∧ m2.getD K 0 = m.getD K 0)) := by
  intro n
  induction n with
  | zero =>
    intro i m hlen _
    refine ⟨m, rfl, hlen, ?_⟩
    intro K _
    right
    exact ⟨fun j h1 h2 => by omega, rfl⟩
  | succ n ih =>
    intro i m hlen htags
    obtain ⟨t, ht, ht9⟩ := htags i (by omega) (le_refl i)
    obtain ⟨m2, hrun, hlen2, hspec⟩ := ih (i + 1) (m.set t i) (by simp [hlen])
      (fun j h1 h2 => htags j (by omega) (by omega))
    refine ⟨m2, ?_, hlen2, ?_⟩
    · simp only [fillMapping, ht]
      rw [if_pos ht9]; exact hrun
    · intro K hK
      rcases hspec K hK with ⟨j, hj1, hj2, hj3, hj4, hj5⟩ | ⟨hnone, hval⟩
      · left
        exact ⟨j, by omega, by omega, hj3, fun j2 h1 h2 => hj4 j2 (by omega) h2, hj5⟩
      · by_cases htK : t = K
        · left
          subst htK
          refine ⟨i, by omega, le_refl i, ht, ?_, ?_⟩
          · intro j2 h1 h2
            exact hnone j2 (by omega) (by omega)
          · rw [hval]; exact getD_set_self m t i (by omega)
        · right
          refine ⟨?_, ?_⟩
          · intro j h1 h2
            by_cases hji : j = i
            · subst hji
              rw [ht]; intro h; injection h with h; exact htK h
            · exact hnone j (by omega) (by omega)
          · rw [hval]; exact getD_set_other m t K i (fun h => htK h.symm)

theorem secMappingInit_getD (K : Nat) (hK : K < 9) : secMappingInit.getD K 0 = UINT32_MAX := by
  interval_cases K <;> rfl

/-- The mapping built from readable column tags below 9: a kind is mapped to its last column,
and keeps `UINT32_MAX` when no column carries it. -/
theorem fillMapping_columns (b : Buf) (slots columns : Nat) (hcol : columns < W32)
    (htags : ∀ i, i < columns → ∃ t, rd32 b (tsoBase slots + 4 * i) = some t ∧ t < 9) :
    ∃ m, fillMapping b (tsoBase slots) columns 0 secMappingInit = Run.ok m ∧
      ∀ K, K < 9 →
        ((∃ i, mappedColumn b slots columns K i ∧ m.getD K 0 = i ∧ m.getD K 0 ≠ UINT32_MAX)
          ∨ (¬ hasColumn b slots columns K ∧ m.getD K 0 = UINT32_MAX)) := by
  obtain ⟨m, hrun, _, hspec⟩ := fillMapping_spec b (tsoBase slots) columns 0 secMappingInit
    (by simp [secMappingInit]) (fun j h1 _ => htags j (by omega))
  refine ⟨m, hrun, ?_⟩
  intro K hK
  rcases hspec K hK with ⟨j, hj1, _, hj3, hj4, hj5⟩ | ⟨hnone, hval⟩
  · left
    refine ⟨j, ⟨by omega, hj3, fun j2 h1 h2 => hj4 j2 (by omega) h2⟩, hj5, ?_⟩
    rw [hj5]; unfold UINT32_MAX; unfold W32 at hcol; omega
  · right
    refine ⟨?_, ?_⟩
    · rintro ⟨i, hi, hti⟩
      exact hnone i (by omega) (Nat.zero_le i) hti
    · rw [hval]; exact secMappingInit_getD K hK

theorem mappedColumn_unique (b : Buf) (slots columns kind i j : Nat)
    (hi : mappedColumn b slots columns kind i) (hj : mappedColumn b slots columns kind j) :
    i = j := by
  rcases Nat.lt_trichotomy i j with h | h | h
  · exact absurd hj.2.1 (hi.2.2 j hj.1 h)
  · exact h
  · exact absurd hi.2.1 (hj.2.2 i hi.1 h)

theorem decodeRow_eq (k : Consts) (b : Buf) (columns units slots h p : Nat) (m : List Nat)
    (hpti : pti b slots h = some p)
    (hm : fillMapping b (tsoBase slots) columns 0 secMappingInit = Run.ok m) :
    decodeRow k b columns units slots h =
      if m.getD k.DW_SECT_INFO.val 0 ≠ UINT32_MAX ∧ m.getD k.DW_SECT_ABBREV.val 0 ≠ UINT32_MAX
          ∧ m.getD k.DW_SECT_STR_OFFSETS.val 0 ≠ UINT32_MAX then
        (Run.ofOption (rd32 b (offsetsRowBase columns slots (rowIndexOf p)
            + 4 * m.getD k.DW_SECT_INFO.val 0))).bind fun info_offset =>
        (Run.ofOption (rd32 b (offsetsRowBase columns slots (rowIndexOf p)
            + 4 * m.getD k.DW_SECT_ABBREV.val 0))).bind fun abbrev_offset =>
        (Run.ofOption (rd32 b (offsetsRowBase columns slots (rowIndexOf p)
            + 4 * m.getD k.DW_SECT_STR_OFFSETS.val 0))).bind fun str_offset =>
        (Run.ofOption (rd32 b (sizesRowBase columns units slots (rowIndexOf p)
            + 4 * m.getD k.DW_SECT_INFO.val 0))).bind fun _ =>
        (Run.ofOption (rd32 b (sizesRowBase columns units slots (rowIndexOf p)
            + 4 * m.getD k.DW_SECT_ABBREV.val 0))).bind fun _ =>
        Run.ok (some ⟨info_offset, abbrev_offset, str_offset⟩)
      else Run.ok none := by
  unfold decodeRow
  rw [hpti]
  show (fillMapping b (tsoBase slots) columns 0 secMappingInit).bind _ = _
  rw [hm]
  rfl

theorem indexOffsets_of_lookup (k : Consts) (b : Buf) (id fuel : Nat) (r : Option RowOffsets)
    (hl : lookupIndex k b id fuel = Run.ok r) :
    indexOffsets k (some b) id fuel = Run.ok
      (match r with
        | none => (0, 0)
        | some o => (normOffset o.abbrev_offset, normOffset o.str_offset)) := by
  simp only [indexOffsets, hl, Run.bind]
  cases r with
  | none => rfl
  | some o => rfl

/-- The decoder on a row whose three kinds are mapped and whose reads are inside the buffer. -/
theorem decodeRow_mapped (k : Consts) (b : Buf) (columns units slots h p ci ca cs : Nat)
    (ei ea es si sa : Nat) (hcol : columns < W32)
    (hpti : pti b slots h = some p)
    (htags : ∀ i, i < columns → ∃ t, rd32 b (tsoBase slots + 4 * i) = some t ∧ t < 9)
    (hci : mappedColumn b slots columns k.DW_SECT_INFO.val ci)
    (hca : mappedColumn b slots columns k.DW_SECT_ABBREV.val ca)
    (hcs : mappedColumn b slots columns k.DW_SECT_STR_OFFSETS.val cs)
    (hei : rd32 b (offsetsRowBase columns slots (rowIndexOf p) + 4 * ci) = some ei)
    (hea : rd32 b (offsetsRowBase columns slots (rowIndexOf p) + 4 * ca) = some ea)
    (hes : rd32 b (offsetsRowBase columns slots (rowIndexOf p) + 4 * cs) = some es)
    (hsi : rd32 b (sizesRowBase columns units slots (rowIndexOf p) + 4 * ci) = some si)
    (hsa : rd32 b (sizesRowBase columns units slots (rowIndexOf p) + 4 * ca) = some sa) :
    decodeRow k b columns units slots h = Run.ok (some ⟨ei, ea, es⟩) := by
  obtain ⟨m, hm, hspec⟩ := fillMapping_columns b slots columns hcol htags
  have key : ∀ K c, K < 9 → mappedColumn b slots columns K c →
      m.getD K 0 = c ∧ m.getD K 0 ≠ UINT32_MAX := by
    intro K c hK hc
    rcases hspec K hK with ⟨i, hi, hv, hne⟩ | ⟨hno, _⟩
    · have := mappedColumn_unique b slots columns K i c hi hc
      subst this
      exact ⟨hv, hne⟩
    · exact absurd ⟨c, hc.1, hc.2.1⟩ hno
  obtain ⟨h1, h1n⟩ := key _ ci k.DW_SECT_INFO.isLt hci
  obtain ⟨h2, h2n⟩ := key _ ca k.DW_SECT_ABBREV.isLt hca
  obtain ⟨h3, h3n⟩ := key _ cs k.DW_SECT_STR_OFFSETS.isLt hcs
  rw [decodeRow_eq k b columns units slots h p m hpti hm, if_pos ⟨h1n, h2n, h3n⟩,
    h1, h2, h3, hei, hea, hes, hsi, hsa]
  rfl

/-- The decoder on a row of which some kind has no column. -/
theorem decodeRow_unmapped (k : Consts) (b : Buf) (columns units slots h p : Nat)
    (hcol : columns < W32)
    (hpti : pti b slots h = some p)
    (htags : ∀ i, i < columns → ∃ t, rd32 b (tsoBase slots + 4 * i) = some t ∧ t < 9)
    (hmiss : ¬ hasColumn b slots columns k.DW_SECT_INFO.val
      ∨ ¬ hasColumn b slots columns k.DW_SECT_ABBREV.val
      ∨ ¬ hasColumn b slots columns k.DW_SECT_STR_OFFSETS.val) :
    decodeRow k b columns units slots h = Run.ok none := by
  obtain ⟨m, hm, hspec⟩ := fillMapping_columns b slots columns hcol htags
  have key : ∀ K, K < 9 → ¬ hasColumn b slots columns K → m.getD K 0 = UINT32_MAX := by
    intro K hK hno
    rcases hspec K hK with ⟨i, hi, _, _⟩ | ⟨_, hv⟩
    · exact absurd ⟨i, hi.1, hi.2.1⟩ hno
    · exact hv
  rw [decodeRow_eq k b columns units slots h p m hpti hm, if_neg]
  rintro ⟨a1, a2, a3⟩
  rcases hmiss with h | h | h
  · exact a1 (key _ k.DW_SECT_INFO.isLt h)
  · exact a2 (key _ k.DW_SECT_ABBREV.isLt h)
  · exact a3 (key _ k.DW_SECT_STR_OFFSETS.isLt h)

/-- A kind with a column has a mapped column. -/
theorem hasColumn_mapped (b : Buf) (slots columns kind : Nat)
    (h : hasColumn b slots columns kind) : ∃ i, mappedColumn b slots columns kind i := by
  classical
  obtain ⟨i0, hi0, ht0⟩ := h
  -- the largest column below `columns` with the tag
  have hex : ∃ d, d < columns ∧ rd32 b (tsoBase slots + 4 * (columns - 1 - d)) = some kind :=
    ⟨columns - 1 - i0, by omega, by
      have : columns - 1 - (columns - 1 - i0) = i0 := by omega
      rw [this]; exact ht0⟩
  refine ⟨columns - 1 - Nat.find hex, by omega, (Nat.find_spec hex).2, ?_⟩
  intro j hj hlt hjt
  have hlt2 := (Nat.find_spec hex).1
  have : columns - 1 - j < Nat.find hex := by omega
  apply Nat.find_min hex this
  refine ⟨by omega, ?_⟩
  have : columns - 1 - (columns - 1 - j) = j := by omega
  rw [this]; exact hjt

/-- C4 (amended): when the signature is found at slot `h` and the three kinds have mapped
columns `ci`, `ca`, `cs`, the decoder reads `p = pti[h]` at byte
`16 + (8 * slots mod 2^32) + 4 * h`, takes `row = (p - 1) mod 2^32`, and yields the entries
at 32-bit word index `(columns * (row + 1)) mod 2^32 + col` from byte
`16 + (12 * slots mod 2^32)`; the abbreviation and string offsets go on to the unit
iterator, an entry `0xFFFFFFFF` as 0.  Without wrap-around (`12 * slots < 2^32`, `p ≥ 1`,
`columns * p < 2^32`) these are the positions `16 + 8 * slots`, `row = p - 1` and
`16 + 12 * slots + 4 * (columns * (row + 1) + col)`. -/
theorem C4_offsets_read_from_row (k : Consts) (b : Buf)
    (id fuel ver columns units slots h p ci ca cs ei ea es si sa : Nat)
    (hv : rd32 b 0 = some ver) (hc : rd32 b 4 = some columns) (hu : rd32 b 8 = some units)
    (hs : rd32 b 12 = some slots)
    (hp : probeLoop b slots id fuel (hashStart slots id) = Run.ok h)
    (hh : hts b h = some id)
    (hpti : pti b slots h = some p)
    (htags : ∀ i, i < columns → ∃ t, t < 9 ∧ rd32 b (tsoBase slots + 4 * i) = some t)
    (hci : mappedColumn b slots columns k.DW_SECT_INFO.val ci)
    (hca : mappedColumn b slots columns k.DW_SECT_ABBREV.val ca)
    (hcs : mappedColumn b slots columns k.DW_SECT_STR_OFFSETS.val cs)
    (hei : rd32 b (offsetsRowBase columns slots (rowIndexOf p) + 4 * ci) = some ei)
    (hea : rd32 b (offsetsRowBase columns slots (rowIndexOf p) + 4 * ca) = some ea)
    (hes : rd32 b (offsetsRowBase columns slots (rowIndexOf p) + 4 * cs) = some es)
    (hsi : rd32 b (sizesRowBase columns units slots (rowIndexOf p) + 4 * ci) = some si)
    (hsa : rd32 b (sizesRowBase columns units slots (rowIndexOf p) + 4 * ca) = some sa) :
    lookupIndex k b id fuel = Run.ok (some ⟨ei, ea, es⟩)
      ∧ indexOffsets k (some b) id fuel
          = Run.ok (if ea = UINT32_MAX then 0 else ea, if es = UINT32_MAX then 0 else es)
      ∧ (12 * slots < W32 → 1 ≤ p → columns * p < W32 →
          pti b slots h = rd32 b (16 + 8 * slots + 4 * h)
          ∧ rowIndexOf p = p - 1
          ∧ offsetsRowBase columns slots (rowIndexOf p) + 4 * ca
              = 16 + 12 * slots + 4 * (columns * ((p - 1) + 1) + ca)
          ∧ offsetsRowBase columns slots (rowIndexOf p) + 4 * cs
              = 16 + 12 * slots + 4 * (columns * ((p - 1) + 1) + cs)) := by
  have hcol : columns < W32 := rd32_lt hc
  have hd := decodeRow_mapped k b columns units slots h p ci ca cs ei ea es si sa hcol hpti
    (fun i hi => let ⟨t, h1, h2⟩ := htags i hi; ⟨t, h2, h1⟩) hci hca hcs hei hea hes hsi hsa
  have hl : lookupIndex k b id fuel = Run.ok (some ⟨ei, ea, es⟩) := by
    rw [lookupIndex_of_probe k b id fuel ver columns units slots h id hv hc hu hs hp hh,
      if_pos rfl, hd]
  refine ⟨hl, ?_, ?_⟩
  · rw [indexOffsets_of_lookup k b id fuel _ hl]; rfl
  · intro h12 hp1 hcp
    have hpW : p < W32 := rd32_lt hpti
    have hrow : rowIndexOf p = p - 1 := by
      unfold rowIndexOf
      have : p + W32 - 1 = (p - 1) + W32 := by omega
      rw [this, Nat.add_mod_right, Nat.mod_eq_of_lt (by omega)]
    have hbase : offsetsRowBase columns slots (rowIndexOf p)
        = 16 + 12 * slots + 4 * (columns * ((p - 1) + 1)) := by
      unfold offsetsRowBase tsoBase
      have hp' : p - 1 + 1 = p := by omega
      rw [hrow, hp', Nat.mod_eq_of_lt hpW, Nat.mod_eq_of_lt hcp, Nat.mod_eq_of_lt h12]
    refine ⟨?_, hrow, ?_, ?_⟩
    · unfold pti
      rw [Nat.mod_eq_of_lt (by omega)]
    · rw [hbase]; ring
    · rw [hbase]; ring

/-- Witness of C4: signature 41394 of `bufPkg` sits in slot 2 with row index entry 2. -/
theorem C4_witness :
    lookupIndex kEx bufPkg 41394 8 = Run.ok (some ⟨11, 21, 31⟩)
      ∧ indexOffsets kEx (some bufPkg) 41394 8
          = Run.ok (if 21 = UINT32_MAX then 0 else 21, if 31 = UINT32_MAX then 0 else 31)
      ∧ (12 * 8 < W32 → 1 ≤ 2 → 3 * 2 < W32 →
          pti bufPkg 8 2 = rd32 bufPkg (16 + 8 * 8 + 4 * 2)
          ∧ rowIndexOf 2 = 2 - 1
          ∧ offsetsRowBase 3 8 (rowIndexOf 2) + 4 * 1
              = 16 + 12 * 8 + 4 * (3 * ((2 - 1) + 1) + 1)
          ∧ offsetsRowBase 3 8 (rowIndexOf 2) + 4 * 2
              = 16 + 12 * 8 + 4 * (3 * ((2 - 1) + 1) + 2)) :=
  C4_offsets_read_from_row kEx bufPkg 41394 8 2 3 3 8 2 2 0 1 2 11 21 31 101 201
    (by decide) (by decide) (by decide) (by decide) (by decide) (by decide) (by decide)
    (by decide) ⟨by decide, by decide, by decide⟩ ⟨by decide, by decide, by decide⟩
    ⟨by decide, by decide, by decide⟩ (by decide) (by decide) (by decide) (by decide)
    (by decide)

/-- C4, counterexample.  In `bufMax` the signature 41394 is found, the three kinds have
columns, and the abbreviation entry of the row is `0xFFFFFFFF`, yet the iterator gets 0.
In `bufWrap` (header: `2 ^ 30` slots) the signature 8 is found and the iterator gets the
offsets 21 and 31, although nothing lies at byte `16 + 8 * slots + 4 * 8` or at byte
`16 + 12 * slots + 4 * (columns * (row + 1) + col)`. -/
theorem C4_counterexample_sentinel_and_wrap :
    (lookupIndex kEx bufMax 41394 8 = Run.ok (some ⟨11, 4294967295, 31⟩)
      ∧ rd32 bufMax (16 + 12 * 8 + 4 * (3 * (1 + 1) + 1)) = some 4294967295
      ∧ indexOffsets kEx (some bufMax) 41394 8 = Run.ok (0, 31))
    ∧ (lookupIndex kEx bufWrap 8 1 = Run.ok (some ⟨11, 21, 31⟩)
      ∧ indexOffsets kEx (some bufWrap) 8 1 = Run.ok (21, 31)
      ∧ rd32 bufWrap (16 + 8 * 1073741824 + 4 * 8) = none
      ∧ rd32 bufWrap (16 + 12 * 1073741824 + 4 * (3 * (0 + 1) + 1)) = none) := by
  decide

/-- C5: when the signature is found at slot `h` (and the row index entry, the column tags,
all below 9, and the unit's rows of offsets and sizes lie inside the buffer), the decoder
leaves the offsets row unused, so that both offsets are 0, if and only if at least one of
the kinds debug-info, abbreviations, string-offsets has no column. -/
theorem C5_row_unused_iff_kind_without_column (k : Consts) (b : Buf)
    (id fuel ver columns units slots h p : Nat)
    (hv : rd32 b 0 = some ver) (hc : rd32 b 4 = some columns) (hu : rd32 b 8 = some units)
    (hs : rd32 b 12 = some slots)
    (hp : probeLoop b slots id fuel (hashStart slots id) = Run.ok h)
    (hh : hts b h = some id)
    (hpti : pti b slots h = some p)
    (htags : ∀ i, i < columns → ∃ t, t < 9 ∧ rd32 b (tsoBase slots + 4 * i) = some t)
    (hoff : ∀ c, c < columns →
      (rd32 b (offsetsRowBase columns slots (rowIndexOf p) + 4 * c)).isSome)
    (hsz : ∀ c, c < columns →
      (rd32 b (sizesRowBase columns units slots (rowIndexOf p) + 4 * c)).isSome) :
    ∃ r, lookupIndex k b id fuel = Run.ok r
      ∧ (r = none ↔ (¬ hasColumn b slots columns k.DW_SECT_INFO.val
          ∨ ¬ hasColumn b slots columns k.DW_SECT_ABBREV.val
          ∨ ¬ hasColumn b slots columns k.DW_SECT_STR_OFFSETS.val))
      ∧ (r = none → indexOffsets k (some b) id fuel = Run.ok (0, 0)) := by
  have hcol : columns < W32 := rd32_lt hc
  have htags2 : ∀ i, i < columns → ∃ t, rd32 b (tsoBase slots + 4 * i) = some t ∧ t < 9 :=
    fun i hi => let ⟨t, h1, h2⟩ := htags i hi; ⟨t, h2, h1⟩
  have hlook : lookupIndex k b id fuel = decodeRow k b columns units slots h := by
    rw [lookupIndex_of_probe k b id fuel ver columns units slots h id hv hc hu hs hp hh,
      if_pos rfl]
  have hsome : ∀ {o : Option Nat}, o.isSome → ∃ v, o = some v := by
    intro o ho
    cases o with
    | none => cases ho
    | some v => exact ⟨v, rfl⟩
  by_cases hmiss : (¬ hasColumn b slots columns k.DW_SECT_INFO.val
      ∨ ¬ hasColumn b slots columns k.DW_SECT_ABBREV.val
      ∨ ¬ hasColumn b slots columns k.DW_SECT_STR_OFFSETS.val)
  · have hl : lookupIndex k b id fuel = Run.ok none := by
      rw [hlook]; exact decodeRow_unmapped k b columns units slots h p hcol hpti htags2 hmiss
    refine ⟨none, hl, ⟨fun _ => hmiss, fun _ => rfl⟩, fun _ => ?_⟩
    rw [indexOffsets_of_lookup k b id fuel _ hl]
  · push_neg at hmiss
    obtain ⟨ci, hci⟩ := hasColumn_mapped b slots columns _ hmiss.1
    obtain ⟨ca, hca⟩ := hasColumn_mapped b slots columns _ hmiss.2.1
    obtain ⟨cs, hcs⟩ := hasColumn_mapped b slots columns _ hmiss.2.2
    obtain ⟨ei, hei⟩ := hsome (hoff ci hci.1)
    obtain ⟨ea, hea⟩ := hsome (hoff ca hca.1)
    obtain ⟨es, hes⟩ := hsome (hoff cs hcs.1)
    obtain ⟨si, hsi⟩ := hsome (hsz ci hci.1)
    obtain ⟨sa, hsa⟩ := hsome (hsz ca hca.1)
    have hl : lookupIndex k b id fuel = Run.ok (some ⟨ei, ea, es⟩) := by
      rw [hlook]
      exact decodeRow_mapped k b columns units slots h p ci ca cs ei ea es si sa hcol hpti
        htags2 hci hca hcs hei hea hes hsi hsa
    refine ⟨some ⟨ei, ea, es⟩, hl, ⟨fun h => (by cases h), fun h => ?_⟩, fun h => (by cases h)⟩
    rcases h with h | h | h
    · exact absurd hmiss.1 h
    · exact absurd hmiss.2.1 h
    · exact absurd hmiss.2.2 h

/-- Witness of C5: `bufNoStr` has no string-offsets column. -/
theorem C5_witness :
    ∃ r, lookupIndex kEx bufNoStr 41394 8 = Run.ok r
      ∧ (r = none ↔ (¬ hasColumn bufNoStr 8 3 kEx.DW_SECT_INFO.val
          ∨ ¬ hasColumn bufNoStr 8 3 kEx.DW_SECT_ABBREV.val
          ∨ ¬ hasColumn bufNoStr 8 3 kEx.DW_SECT_STR_OFFSETS.val))
      ∧ (r = none → indexOffsets kEx (some bufNoStr) 41394 8 = Run.ok (0, 0)) :=
  C5_row_unused_iff_kind_without_column kEx bufNoStr 41394 8 2 3 3 8 2 2
    (by decide) (by decide) (by decide) (by decide) (by decide) (by decide) (by decide)
    (by decide) (by decide) (by decide)

/-! ## The heap of units -/

theorem modify_append_length {α : Type} (f : α → α) (l : List α) (x : α) :
    List.modify f l.length (l ++ [x]) = l ++ [f x] := by
  induction l with
  | nil => rfl
  | cons a l ih => simp [List.modify_succ_cons, ih]

theorem readCU_ok_iff (s : State) (p : Nat) (c : CU) :
    s.readCU p = Run.ok c ↔ s.cus[p]? = some c := by
  unfold State.readCU Run.ofOption
  rw [List.get?_eq_getElem?]
  cases h : s.cus[p]? with
  | none => simp
  | some x => simp

theorem readCU_of_getElem? (s : State) (p : Nat) (c : CU) (h : s.cus[p]? = some c) :
    s.readCU p = Run.ok c := (readCU_ok_iff s p c).mpr h

theorem lt_of_getElem?_some {α : Type} (l : List α) (p : Nat) (c : α) (h : l[p]? = some c) :
    p < l.length := by
  by_contra hn
  rw [List.getElem?_eq_none (by omega)] at h
  cases h

theorem unitLoop_step_cus (s : State) (dbg str_offset : Nat) (u : UnitInfo) :
    (({ s with cus := s.cus ++ [newUnit dbg u] } : State).setStrOffBase s.cus.length
        str_offset).cus
      = s.cus ++ [yieldedUnit dbg str_offset u] := by
  unfold State.setStrOffBase
  exact modify_append_length _ s.cus (newUnit dbg u)

theorem opens_append (a b : List Event) : opens (a ++ b) = opens a ++ opens b := by
  unfold opens; exact List.filterMap_append _ _ _

theorem globs_append (a b : List Event) : globs (a ++ b) = globs a ++ globs b := by
  unfold globs; exact List.filterMap_append _ _ _

theorem tsearch_cus (env : Env) (owner key : Nat) (s : State) :
    (tsearch env owner key s).2.cus = s.cus := by
  unfold tsearch
  split
  · rfl
  · split <;> rfl

theorem tsearch_trace (env : Env) (owner key : Nat) (s : State) :
    ∃ f, (tsearch env owner key s).2.trace = s.trace ++ [Event.treeSearch key f] := by
  unfold tsearch
  split
  · exact ⟨true, rfl⟩
  · split
    · exact ⟨true, rfl⟩
    · exact ⟨false, rfl⟩

theorem tsearch_counters (env : Env) (owner key : Nat) (s : State) :
    (tsearch env owner key s).2.next_fd = s.next_fd
      ∧ (tsearch env owner key s).2.next_dbg = s.next_dbg := by
  unfold tsearch
  split
  · exact ⟨rfl, rfl⟩
  · split <;> exact ⟨rfl, rfl⟩

/-- The unit loop in closed form: either no unit passes the test and all are yielded, or
the loop ends at the first unit `j` that passes, with or without a link. -/
theorem unitLoop_spec (env : Env) (k : Consts) (cu dbg str_offset : Nat) :
    ∀ (us : List UnitInfo) (s s2 : State) (c : CU), s.cus[cu]? = some c →
      unitLoop env k cu dbg str_offset us s = Run.ok s2 →
      opens s2.trace = opens s.trace ∧ globs s2.trace = globs s.trace
      ∧ s2.next_fd = s.next_fd ∧ s2.next_dbg = s.next_dbg
      ∧ (((∀ u, u ∈ us → ¬ passes k c.unit_id8 u)
            ∧ s2.cus = s.cus ++ us.map (yieldedUnit dbg str_offset))
          ∨ ∃ j u, us[j]? = some u ∧ passes k c.unit_id8 u
              ∧ (∀ i v, i < j → us[i]? = some v → ¬ passes k c.unit_id8 v)
              ∧ ((s2.cus = s.cus ++ (us.take (j + 1)).map (yieldedUnit dbg str_offset)
                    ∧ (tsearch env c.dbg dbg
                        { s with cus := (s.cus ++ (us.take (j + 1)).map
                            (yieldedUnit dbg str_offset)) }).1 = false)
                  ∨ (s2.cus = linkedCus
                      (s.cus ++ (us.take (j + 1)).map (yieldedUnit dbg str_offset))
                      cu (s.cus.length + j)))) := by
  intro us
  induction us with
  | nil =>
    intro s s2 c _ hrun
    simp only [unitLoop] at hrun
    injection hrun with hrun
    subst hrun
    refine ⟨rfl, rfl, rfl, rfl, Or.inl ⟨fun u hu => (by cases hu), by simp⟩⟩
  | cons u rest ih =>
    intro s s2 c hc hrun
    have hlt := lt_of_getElem?_some _ _ _ hc
    have hcus := unitLoop_step_cus s dbg str_offset u
    simp only [unitLoop] at hrun
    generalize hs1 : (({ s with cus := s.cus ++ [newUnit dbg u] } : State).setStrOffBase
      s.cus.length str_offset) = s1 at hrun hcus
    have htr1 : s1.trace = s.trace := by rw [← hs1]; rfl
    have hfd1 : s1.next_fd = s.next_fd := by rw [← hs1]; rfl
    have hdbg1 : s1.next_dbg = s.next_dbg := by rw [← hs1]; rfl
    have hsp : s1.cus[s.cus.length]? = some (yieldedUnit dbg str_offset u) := by
      rw [hcus]; simp
    have hc1 : s1.cus[cu]? = some c := by
      rw [hcus, List.getElem?_append_left hlt]; exact hc
    rw [readCU_of_getElem? s1 _ _ hsp, readCU_of_getElem? s1 _ _ hc1] at hrun
    simp only [Run.bind] at hrun
    by_cases hpass : (yieldedUnit dbg str_offset u).unit_type = k.DW_UT_split_compile
        ∧ c.unit_id8 = (yieldedUnit dbg str_offset u).unit_id8
    · rw [if_pos hpass] at hrun
      have hp : passes k c.unit_id8 u := hpass
      have hts_cus := tsearch_cus env c.dbg (yieldedUnit dbg str_offset u).dbg s1
      obtain ⟨f, hts_tr⟩ := tsearch_trace env c.dbg (yieldedUnit dbg str_offset u).dbg s1
      obtain ⟨hts_fd, hts_dbg⟩ :=
        tsearch_counters env c.dbg (yieldedUnit dbg str_offset u).dbg s1
      have hs1eq : s1 = { s with cus := (s.cus ++ (List.take (0 + 1) (u :: rest)).map
          (yieldedUnit dbg str_offset)) } := by
        rw [← hs1]
        unfold State.setStrOffBase
        simp only [List.take_succ_cons, List.take_zero, List.map_cons, List.map_nil, zero_add]
        congr 1
        exact modify_append_length _ s.cus (newUnit dbg u)
      cases hts : tsearch env c.dbg (yieldedUnit dbg str_offset u).dbg s1 with
      | mk fl st =>
        rw [hts] at hrun hts_cus hts_tr hts_fd hts_dbg
        simp only at hts_cus hts_tr hts_fd hts_dbg
        cases fl with
        | false =>
          simp only at hrun
          injection hrun with hrun
          subst hrun
          refine ⟨?_, ?_, ?_, ?_, Or.inr ⟨0, u, List.getElem?_cons_zero, hp, fun i v hi => (by omega), Or.inl ⟨?_, ?_⟩⟩⟩
          · show opens ((st.trace ++ [Event.setErrnoNomem])) = _
            rw [hts_tr, htr1]; simp [opens_append, opens]
          · show globs ((st.trace ++ [Event.setErrnoNomem])) = _
            rw [hts_tr, htr1]; simp [globs_append, globs]
          · show st.next_fd = _
            rw [hts_fd, hfd1]
          · show st.next_dbg = _
            rw [hts_dbg, hdbg1]
          · show st.cus = _
            rw [hts_cus, hcus]; simp
          · rw [← hs1eq]
            show (tsearch env c.dbg (yieldedUnit dbg str_offset u).dbg s1).1 = false
            rw [hts]
        | true =>
          simp only at hrun
          injection hrun with hrun
          subst hrun
          refine ⟨?_, ?_, ?_, ?_, Or.inr ⟨0, u, List.getElem?_cons_zero, hp, fun i v hi => (by omega), Or.inr ?_⟩⟩
          · show opens (st.trace ++ [Event.linkUnits cu s.cus.length]
              ++ [Event.fdDone dbg]) = _
            rw [hts_tr, htr1]; simp [opens_append, opens]
          · show globs (st.trace ++ [Event.linkUnits cu s.cus.length]
              ++ [Event.fdDone dbg]) = _
            rw [hts_tr, htr1]; simp [globs_append, globs]
          · show st.next_fd = _
            rw [hts_fd, hfd1]
          · show st.next_dbg = _
            rw [hts_dbg, hdbg1]
          · show linkedCus st.cus cu s.cus.length = _
            rw [hts_cus, hcus]; simp
    · rw [if_neg hpass] at hrun
      have hnp : ¬ passes k c.unit_id8 u := hpass
      obtain ⟨ho, hg, hfd, hdbg, hres⟩ := ih s1 s2 c hc1 hrun
      have hlen1 : s1.cus.length = s.cus.length + 1 := by rw [hcus]; simp
      refine ⟨by rw [ho, htr1], by rw [hg, htr1], by rw [hfd, hfd1], by rw [hdbg, hdbg1], ?_⟩
      rcases hres with ⟨hall, hcus2⟩ | ⟨j, v, hj, hpv, hbefore, hout⟩
      · left
        refine ⟨?_, ?_⟩
        · intro w hw
          rcases List.mem_cons.mp hw with rfl | hw
          · exact hnp
          · exact hall w hw
        · rw [hcus2, hcus]; simp
      · right
        refine ⟨j + 1, v, by simpa using hj, hpv, ?_, ?_⟩
        · intro i w hi hw
          cases i with
          | zero =>
            simp only [List.getElem?_cons_zero, Option.some.injEq] at hw
            subst hw; exact hnp
          | succ i =>
            simp only [List.getElem?_cons_succ] at hw
            exact hbefore i w (by omega) hw
        · have hs1eq : ∀ l, ({ s1 with cus := s1.cus ++ l } : State)
              = { s with cus := s.cus ++ ([yieldedUnit dbg str_offset u] ++ l) } := by
            intro l
            rw [← hs1]
            unfold State.setStrOffBase
            simp only [modify_append_length, List.append_assoc]
            rfl
          rcases hout with ⟨h1, h2⟩ | h1
          · left
            refine ⟨by rw [h1, hcus]; simp, ?_⟩
            rw [hs1eq] at h2
            simpa using h2
          · right
            rw [h1, hlen1, hcus]
            simp only [List.take_succ_cons, List.map_cons, List.append_assoc,
              List.singleton_append]
            congr 1
            omega

theorem Run.bind_eq_ok {α β : Type} (r : Run α) (f : α → Run β) (b : β)
    (h : r.bind f = Run.ok b) : ∃ a, r = Run.ok a ∧ f a = Run.ok b := by
  cases r with
  | ok a => exact ⟨a, rfl, h⟩
  | fault => cases h
  | timeout => cases h

theorem Ext_refl (k : Consts) (cu : Nat) (l : List CU) : Ext k cu l l :=
  ⟨le_refl _, fun _ _ _ => rfl, fun c hc => ⟨c, hc, rfl, rfl, rfl, rfl, Or.inl rfl⟩⟩

theorem Ext_trans (k : Consts) (cu : Nat) (l l2 l3 : List CU) (hcu : cu < l.length)
    (h1 : Ext k cu l l2) (h2 : Ext k cu l2 l3) : Ext k cu l l3 := by
  obtain ⟨a1, b1, c1⟩ := h1
  obtain ⟨a2, b2, c2⟩ := h2
  refine ⟨le_trans a1 a2, ?_, ?_⟩
  · intro p hp hne
    rw [b2 p (by omega) hne, b1 p hp hne]
  · intro c hc
    obtain ⟨x, hx, e1, e2, e3, e4, e5⟩ := c1 c hc
    obtain ⟨y, hy, f1, f2, f3, f4, f5⟩ := c2 x hx
    refine ⟨y, hy, by rw [f1, e1], by rw [f2, e2], by rw [f3, e3], by rw [f4, e4], ?_⟩
    rcases f5 with f5 | ⟨a, ua, g1, g2, g3, g4, g5⟩
    · rcases e5 with e5 | ⟨a, ua, g1, g2, g3, g4, g5⟩
      · left; rw [f5, e5]
      · right
        have hal := lt_of_getElem?_some _ _ _ g3
        refine ⟨a, ua, by rw [f5, g1], g2, ?_, g4, g5⟩
        rw [b2 a hal (by omega)]; exact g3
    · right
      exact ⟨a, ua, g1, by omega, g3, g4, by rw [g5, e3]⟩

theorem Ext_append (k : Consts) (cu : Nat) (l x : List CU) : Ext k cu l (l ++ x) := by
  refine ⟨by simp, ?_, ?_⟩
  · intro p hp _
    exact List.getElem?_append_left hp
  · intro c hc
    have hlt := lt_of_getElem?_some _ _ _ hc
    exact ⟨c, by rw [List.getElem?_append_left hlt]; exact hc, rfl, rfl, rfl, rfl, Or.inl rfl⟩

theorem getElem?_linkedCus (l : List CU) (cu a p : Nat) :
    (linkedCus l cu a)[p]? =
      (fun x => if a = p then { x with split := SplitLink.unit cu } else x) <$>
        ((fun x => if cu = p then { x with split := SplitLink.unit a } else x) <$> l[p]?) := by
  unfold linkedCus
  rw [List.getElem?_modify, List.getElem?_modify]

theorem Ext_linked (k : Consts) (cu a : Nat) (l x : List CU) (c ua : CU)
    (hc : l[cu]? = some c) (ha : l.length ≤ a) (hua : (l ++ x)[a]? = some ua)
    (ht : ua.unit_type = k.DW_UT_split_compile) (hid : ua.unit_id8 = c.unit_id8) :
    Ext k cu l (linkedCus (l ++ x) cu a)
      ∧ (linkedCus (l ++ x) cu a)[cu]? = some { c with split := SplitLink.unit a }
      ∧ (linkedCus (l ++ x) cu a)[a]? = some { ua with split := SplitLink.unit cu } := by
  have hlt := lt_of_getElem?_some _ _ _ hc
  have hne : a ≠ cu := by omega
  have hcu2 : (linkedCus (l ++ x) cu a)[cu]? = some { c with split := SplitLink.unit a } := by
    rw [getElem?_linkedCus, List.getElem?_append_left hlt, hc]
    simp [hne]
  have ha2 : (linkedCus (l ++ x) cu a)[a]? = some { ua with split := SplitLink.unit cu } := by
    rw [getElem?_linkedCus, hua]
    simp [Ne.symm hne]
  refine ⟨⟨?_, ?_, ?_⟩, hcu2, ha2⟩
  · unfold linkedCus; simp
  · intro p hp hpc
    rw [getElem?_linkedCus, List.getElem?_append_left hp]
    have h1 : ¬ cu = p := fun h => hpc h.symm
    have h2 : ¬ a = p := by omega
    cases l[p]? with
    | none => rfl
    | some y => simp [h1, h2]
  · intro c0 hc0
    rw [hc] at hc0
    injection hc0 with hc0
    subst hc0
    exact ⟨_, hcu2, rfl, rfl, rfl, rfl, Or.inr ⟨a, _, rfl, ha, ha2, ht, hid⟩⟩

/-- The unit loop changes the heap within `Ext` and makes no call to `open` or `glob`. -/
theorem unitLoop_Ext (env : Env) (k : Consts) (cu dbg str_offset : Nat)
    (us : List UnitInfo) (s s2 : State) (c : CU) (hc : s.cus[cu]? = some c)
    (hrun : unitLoop env k cu dbg str_offset us s = Run.ok s2) :
    Ext k cu s.cus s2.cus := by
  obtain ⟨_, _, _, _, hres⟩ := unitLoop_spec env k cu dbg str_offset us s s2 c hc hrun
  rcases hres with ⟨_, h⟩ | ⟨j, u, hj, hp, _, ⟨h, _⟩ | h⟩
  · rw [h]; exact Ext_append k cu _ _
  · rw [h]; exact Ext_append k cu _ _
  · rw [h]
    have hjl := lt_of_getElem?_some _ _ _ hj
    have hua : (s.cus ++ (us.take (j + 1)).map (yieldedUnit dbg str_offset))[s.cus.length + j]?
        = some (yieldedUnit dbg str_offset u) := by
      rw [List.getElem?_append_right (by omega)]
      simp [List.getElem?_take, hj]
    exact (Ext_linked k cu (s.cus.length + j) s.cus _ c _ hc (by omega) hua hp.1 hp.2.symm).1

theorem opens_log_ne (s : State) (e : Event) (h : ∀ p fd, e ≠ Event.openFile p fd) :
    opens (s.log e).trace = opens s.trace := by
  unfold State.log
  simp only [opens_append]
  have : opens [e] = [] := by
    unfold opens
    cases e <;> simp_all
  rw [this, List.append_nil]

theorem globs_log_ne (s : State) (e : Event) (h : ∀ p, e ≠ Event.globRun p) :
    globs (s.log e).trace = globs s.trace := by
  unfold State.log
  simp only [globs_append]
  have : globs [e] = [] := by
    unfold globs
    cases e <;> simp_all
  rw [this, List.append_nil]

theorem opens_log_open (s : State) (p : String) (fd : Option Nat) :
    opens (s.log (Event.openFile p fd)).trace = opens s.trace ++ [p] := by
  unfold State.log
  simp only [opens_append]
  rfl

/-- One call of `try_split_file`: exactly one `open`, of the path given, no `glob`, and a
heap changed within `Ext`. -/
theorem try_split_file_spec (env : Env) (k : Consts) (fuel cu : Nat) (path : String)
    (s s2 : State) (c : CU)
    (hrun : try_split_file env k fuel cu path s = Run.ok s2) (hc : s.cus[cu]? = some c) :
    opens s2.trace = opens s.trace ++ [path] ∧ globs s2.trace = globs s.trace
      ∧ Ext k cu s.cus s2.cus := by
  unfold try_split_file at hrun
  by_cases hopen : env.openFile s.trace.length path = true
  · rw [if_pos hopen] at hrun
    simp only at hrun
    split at hrun
    · injection hrun with hrun
      subst hrun
      refine ⟨?_, ?_, Ext_refl k cu _⟩
      · rw [opens_log_ne _ _ (by intro p fd h; cases h), opens_log_ne _ _ (by intro p fd h; cases h),
          opens_log_open]
      · rw [globs_log_ne _ _ (by intro p h; cases h), globs_log_ne _ _ (by intro p h; cases h),
          globs_log_ne _ _ (by intro p h; cases h)]
    · rename_i d _
      obtain ⟨offs, _, hrun⟩ := Run.bind_eq_ok _ _ _ hrun
      obtain ⟨s3, hloop, hrun⟩ := Run.bind_eq_ok _ _ _ hrun
      obtain ⟨c3, _, hrun⟩ := Run.bind_eq_ok _ _ _ hrun
      injection hrun with hrun
      subst hrun
      have hspec := fun h => unitLoop_spec env k cu _ _ _ _ s3 c h hloop
      obtain ⟨ho, hg, _, _, _⟩ := hspec hc
      have hext0 := fun h => unitLoop_Ext env k cu _ _ _ _ s3 c h hloop
      have hext : Ext k cu s.cus s3.cus := hext0 hc
      refine ⟨?_, ?_, ?_⟩
      · rw [opens_log_ne _ _ (by intro p fd h; cases h)]
        split
        · rw [opens_log_ne _ _ (by intro p fd h; cases h), ho,
            opens_log_ne _ _ (by intro p fd h; cases h), opens_log_open]
        · rw [ho, opens_log_ne _ _ (by intro p fd h; cases h), opens_log_open]
      · rw [globs_log_ne _ _ (by intro p h; cases h)]
        split
        · rw [globs_log_ne _ _ (by intro p h; cases h), hg,
            globs_log_ne _ _ (by intro p h; cases h), globs_log_ne _ _ (by intro p h; cases h)]
        · rw [hg, globs_log_ne _ _ (by intro p h; cases h),
            globs_log_ne _ _ (by intro p h; cases h)]
      · have h2 : ∀ (a b : State) (e : Event) (P : Prop) [Decidable P], a.cus = b.cus →
            ((if P then a else b).log e).cus = b.cus := by
          intro a b e P _ h
          split
          · exact h
          · rfl
        rw [h2 (s3.log _) s3 _ _ rfl]; exact hext
  · rw [if_neg hopen] at hrun
    injection hrun with hrun
    subst hrun
    exact ⟨opens_log_open _ _ _, globs_log_ne _ _ (by intro p h; cases h), Ext_refl k cu _⟩

theorem cus_setSplit_eq (s : State) (p : Nat) (v : SplitLink) (c : CU)
    (h : s.cus[p]? = some c) : (s.setSplit p v).cus[p]? = some { c with split := v } := by
  unfold State.setSplit
  simp [List.getElem?_modify, h]

/-- The last step of `__libdw_find_split_unit` (lines 220-224). -/
theorem find_split_unit_end (env : Env) (k : Consts) (fuel cu : Nat) (s s2 : State)
    (r : SplitLink) (h : find_split_unit env k fuel cu s = Run.ok (r, s2)) :
    ∃ c2, s2.cus[cu]? = some c2 ∧ c2.split = r ∧ r ≠ SplitLink.untried := by
  unfold find_split_unit at h
  obtain ⟨c, hc, h⟩ := Run.bind_eq_ok _ _ _ h
  have hc' := (readCU_ok_iff s cu c).mp hc
  by_cases hs : c.split ≠ SplitLink.untried
  · rw [if_pos hs] at h
    injection h with h
    injection h with h1 h2
    subst h1 h2
    exact ⟨c, hc', rfl, hs⟩
  · rw [if_neg hs] at h
    obtain ⟨s1, _, h⟩ := Run.bind_eq_ok _ _ _ h
    obtain ⟨c1, hc1, h⟩ := Run.bind_eq_ok _ _ _ h
    have hc1' := (readCU_ok_iff s1 cu c1).mp hc1
    by_cases h1 : c1.split = SplitLink.untried
    · rw [if_pos h1] at h
      injection h with h
      injection h with h2 h3
      subst h2 h3
      exact ⟨_, cus_setSplit_eq s1 cu SplitLink.null c1 hc1', rfl, by intro h; cases h⟩
    · rw [if_neg h1] at h
      injection h with h
      injection h with h2 h3
      subst h2 h3
      exact ⟨c1, hc1', rfl, h1⟩

/-- The first step of `__libdw_find_split_unit` (lines 155-157). -/
theorem find_split_unit_resolved (env : Env) (k : Consts) (fuel cu : Nat) (s : State) (c : CU)
    (hc : s.cus[cu]? = some c) (hs : c.split ≠ SplitLink.untried) :
    find_split_unit env k fuel cu s = Run.ok (c.split, s) := by
  unfold find_split_unit
  rw [readCU_of_getElem? s cu c hc]
  simp only [Run.bind]
  rw [if_pos hs]

/-- C6: when a call of `__libdw_find_split_unit (cu)` has returned, a second call, in
whatever state the file system and the other collaborators are then (`env2`), returns the
same value and leaves the state as it is: the history of calls is part of the state, so no
file is opened and no `glob` is run. -/
theorem C6_second_call_is_idempotent (env env2 : Env) (k : Consts) (fuel fuel2 cu : Nat)
    (s s2 : State) (r : SplitLink)
    (h : find_split_unit env k fuel cu s = Run.ok (r, s2)) :
    find_split_unit env2 k fuel2 cu s2 = Run.ok (r, s2) := by
  obtain ⟨c2, hc2, hr, hne⟩ := find_split_unit_end env k fuel cu s s2 r h
  rw [← hr] at hne ⊢
  exact find_split_unit_resolved env2 k fuel2 cu s2 c2 hc2 hne

/-- C7 (amended): a unit whose `split` is not the marker keeps it through
`__libdw_find_split_unit`, which changes nothing; a call of `__libdw_find_split_unit` that
returns never leaves the marker; `try_split_file` leaves `split` as it is or sets it to a
unit made during the call, so it never sets the marker again. -/
theorem C7_state_never_back_to_untried (env : Env) (k : Consts) (fuel cu : Nat) (s : State)
    (c : CU) (hc : s.cus[cu]? = some c) :
    (c.split ≠ SplitLink.untried → find_split_unit env k fuel cu s = Run.ok (c.split, s))
    ∧ (∀ r s2, find_split_unit env k fuel cu s = Run.ok (r, s2) →
        ∃ c2, s2.cus[cu]? = some c2 ∧ c2.split = r ∧ r ≠ SplitLink.untried)
    ∧ (∀ path s2, try_split_file env k fuel cu path s = Run.ok s2 →
        ∃ c2, s2.cus[cu]? = some c2
          ∧ (c2.split = c.split ∨ ∃ a, c2.split = SplitLink.unit a ∧ s.cus.length ≤ a)
          ∧ (c.split ≠ SplitLink.untried → c2.split ≠ SplitLink.untried)) := by
  refine ⟨find_split_unit_resolved env k fuel cu s c hc,
    fun r s2 h => find_split_unit_end env k fuel cu s s2 r h, ?_⟩
  intro path s2 h
  obtain ⟨_, _, _, _, hext⟩ := try_split_file_spec env k fuel cu path s s2 c h hc
  obtain ⟨c2, hc2, _, _, _, _, hsp⟩ := hext c hc
  refine ⟨c2, hc2, ?_, ?_⟩
  · rcases hsp with h1 | ⟨a, _, h1, h2, _⟩
    · exact Or.inl h1
    · exact Or.inr ⟨a, h1, h2⟩
  · intro hne
    rcases hsp with h1 | ⟨a, _, h1, _⟩
    · rw [h1]; exact hne
    · rw [h1]; intro h; cases h

theorem Ext_getElem? (k : Consts) (cu : Nat) (l l2 : List CU) (c : CU) (h : Ext k cu l l2)
    (hc : l[cu]? = some c) : ∃ c2, l2[cu]? = some c2 ∧ c2.unit_id8 = c.unit_id8 :=
  let ⟨c2, h1, _, _, h2, _⟩ := h.2.2 c hc
  ⟨c2, h1, h2⟩

theorem globLoop_Ext (env : Env) (k : Consts) (fuel cu : Nat) :
    ∀ (paths : List String) (s s2 : State) (c : CU),
      globLoop env k fuel cu paths s = Run.ok s2 → s.cus[cu]? = some c →
      Ext k cu s.cus s2.cus := by
  intro paths
  induction paths with
  | nil =>
    intro s s2 c h _
    simp only [globLoop] at h
    injection h with h
    subst h
    exact Ext_refl k cu _
  | cons p ps ih =>
    intro s s2 c h hc
    simp only [globLoop] at h
    obtain ⟨s1, h1, h⟩ := Run.bind_eq_ok _ _ _ h
    obtain ⟨_, _, hext⟩ := try_split_file_spec env k fuel cu p s s1 c h1 hc
    obtain ⟨c1, hc1, _⟩ := Ext_getElem? k cu _ _ c hext hc
    exact Ext_trans k cu _ _ _ (lt_of_getElem?_some _ _ _ hc) hext (ih s1 s2 c1 h hc1)

theorem globSearch_Ext (env : Env) (k : Consts) (fuel cu : Nat) (debugdir : Option String)
    (s s2 : State) (c : CU)
    (h : globSearch env k fuel cu debugdir s = Run.ok s2) (hc : s.cus[cu]? = some c) :
    Ext k cu s.cus s2.cus := by
  unfold globSearch at h
  split at h
  · cases h
  · split at h
    · simp only at h
      obtain ⟨s1, h1, h⟩ := Run.bind_eq_ok _ _ _ h
      injection h with h
      subst h
      split at h1
      · have e := globLoop_Ext env k fuel cu _ _ s1 c h1 hc
        exact e
      · injection h1 with h1
        subst h1
        exact Ext_refl k cu _
    · cases h

theorem compDirSearch_Ext (env : Env) (k : Consts) (fuel cu : Nat)
    (debugdir dwo_file : Option String) (s s2 : State) (c : CU)
    (h : compDirSearch env k fuel cu debugdir dwo_file s = Run.ok s2)
    (hc : s.cus[cu]? = some c) :
    Ext k cu s.cus s2.cus := by
  unfold compDirSearch at h
  simp only at h
  split at h
  · injection h with h
    subst h
    exact Ext_refl k cu _
  · split at h
    · injection h with h
      subst h
      exact Ext_refl k cu _
    · exact (try_split_file_spec env k fuel cu _ _ s2 c h hc).2.2

theorem searchCandidates_Ext (env : Env) (k : Consts) (fuel cu : Nat)
    (dwo_file : Option String) (s s2 : State) (c : CU)
    (h : searchCandidates env k fuel cu dwo_file s = Run.ok s2) (hc : s.cus[cu]? = some c) :
    Ext k cu s.cus s2.cus := by
  unfold searchCandidates at h
  obtain ⟨c0, _, h⟩ := Run.bind_eq_ok _ _ _ h
  simp only at h
  obtain ⟨sa, ha, h⟩ := Run.bind_eq_ok _ _ _ h
  obtain ⟨ca, hca, h⟩ := Run.bind_eq_ok _ _ _ h
  obtain ⟨sb, hb, h⟩ := Run.bind_eq_ok _ _ _ h
  obtain ⟨cb, hcb, h⟩ := Run.bind_eq_ok _ _ _ h
  have hlt := lt_of_getElem?_some _ _ _ hc
  have e1 : Ext k cu s.cus sa.cus := by
    split at ha
    · injection ha with ha
      subst ha
      exact Ext_refl k cu _
    · exact (try_split_file_spec env k fuel cu _ _ sa c ha hc).2.2
  have hca' := (readCU_ok_iff sa cu ca).mp hca
  have e2 : Ext k cu sa.cus sb.cus := by
    split at hb
    · exact globSearch_Ext env k fuel cu _ sa sb ca hb hca'
    · injection hb with hb
      subst hb
      exact Ext_refl k cu _
  have hcb' := (readCU_ok_iff sb cu cb).mp hcb
  have e3 : Ext k cu sb.cus s2.cus := by
    split at h
    · exact compDirSearch_Ext env k fuel cu _ _ sb s2 cb h hcb'
    · injection h with h
      subst h
      exact Ext_refl k cu _
  exact Ext_trans k cu _ _ _ hlt e1
    (Ext_trans k cu _ _ _ (lt_of_getElem?_some _ _ _ hca') e2 e3)

theorem searchSkeleton_Ext (env : Env) (k : Consts) (fuel cu : Nat) (s s2 : State) (c : CU)
    (h : searchSkeleton env k fuel cu s = Run.ok s2) (hc : s.cus[cu]? = some c) :
    Ext k cu s.cus s2.cus := by
  unfold searchSkeleton at h
  simp only at h
  split at h
  · have e := searchCandidates_Ext env k fuel cu _ _ s2 c h hc
    exact e
  · split at h
    · have e := searchCandidates_Ext env k fuel cu _ _ s2 c h hc
      exact e
    · injection h with h
      subst h
      exact Ext_refl k cu _

/-- The unit loop returns for every valid unit pointer. -/
theorem unitLoop_total (env : Env) (k : Consts) (cu dbg str_offset : Nat) :
    ∀ (us : List UnitInfo) (s : State) (c : CU), s.cus[cu]? = some c →
      ∃ s2, unitLoop env k cu dbg str_offset us s = Run.ok s2 := by
  intro us
  induction us with
  | nil => intro s c _; exact ⟨s, rfl⟩
  | cons u rest ih =>
    intro s c hc
    have hlt := lt_of_getElem?_some _ _ _ hc
    have hcus := unitLoop_step_cus s dbg str_offset u
    simp only [unitLoop]
    generalize (({ s with cus := s.cus ++ [newUnit dbg u] } : State).setStrOffBase
      s.cus.length str_offset) = s1 at hcus
    have hsp : s1.cus[s.cus.length]? = some (yieldedUnit dbg str_offset u) := by
      rw [hcus]; simp
    have hc1 : s1.cus[cu]? = some c := by
      rw [hcus, List.getElem?_append_left hlt]; exact hc
    rw [readCU_of_getElem? s1 _ _ hsp, readCU_of_getElem? s1 _ _ hc1]
    simp only [Run.bind]
    split
    · cases tsearch env c.dbg (yieldedUnit dbg str_offset u).dbg s1 with
      | mk fl st =>
        cases fl with
        | false => exact ⟨_, rfl⟩
        | true => exact ⟨_, rfl⟩
    · exact ih s1 c hc1

theorem afterNameLookup_cus (env : Env) (cu : Nat) (s : State) :
    (afterNameLookup env cu s).cus = s.cus := by
  unfold afterNameLookup
  split <;> rfl

theorem searchSkeleton_named (env : Env) (k : Consts) (fuel cu : Nat) (s : State)
    (f : Option String)
    (hname : env.dwoName cu = some f ∨ (env.dwoName cu = none ∧ env.gnuDwoName cu = some f)) :
    searchSkeleton env k fuel cu s
      = searchCandidates env k fuel cu f (afterNameLookup env cu s) := by
  unfold searchSkeleton afterNameLookup
  rcases hname with h | ⟨h1, h2⟩
  · simp only [h]
  · simp only [h1, h2]

/-- The first call of `__libdw_find_split_unit` changes the heap within `Ext`. -/
theorem find_split_unit_Ext (env : Env) (k : Consts) (fuel cu : Nat) (s s2 : State)
    (r : SplitLink) (c : CU) (h : find_split_unit env k fuel cu s = Run.ok (r, s2))
    (hc : s.cus[cu]? = some c) (hr : r ≠ SplitLink.null) : Ext k cu s.cus s2.cus := by
  unfold find_split_unit at h
  rw [readCU_of_getElem? s cu c hc] at h
  simp only [Run.bind] at h
  split at h
  · injection h with h
    injection h with h1 h2
    subst h2
    exact Ext_refl k cu _
  · obtain ⟨s1, hs1, h⟩ := Run.bind_eq_ok _ _ _ h
    obtain ⟨c1, _, h⟩ := Run.bind_eq_ok _ _ _ h
    have e1 : Ext k cu s.cus s1.cus := by
      split at hs1
      · exact searchSkeleton_Ext env k fuel cu s s1 c hs1 hc
      · injection hs1 with hs1
        subst hs1
        exact Ext_refl k cu _
    split at h
    · injection h with h
      injection h with h1 h2
      exact absurd h1.symm hr
    · injection h with h
      injection h with h1 h2
      subst h2
      exact e1

/-- C10: a unit returned by the first call of `__libdw_find_split_unit` on a unit `cu` is
a split-compile unit with the signature of `cu`; whenever the unit loop of `try_split_file`
changes `cu->split`, the new value is the first unit in iteration order that passes both
tests, so no unit failing a test is ever linked, by the loop or by `try_split_file`; and
when a unit passes both tests and the insertion into the search tree does not fail, the
loop returns with `cu` linked to the first such unit. -/
theorem C10_linked_unit_is_first_match (env : Env) (k : Consts) (fuel cu : Nat) (s : State)
    (c : CU) (hc : s.cus[cu]? = some c) :
    (c.split = SplitLink.untried → ∀ a s2,
        find_split_unit env k fuel cu s = Run.ok (SplitLink.unit a, s2) →
        ∃ ua, s2.cus[a]? = some ua ∧ ua.unit_type = k.DW_UT_split_compile
          ∧ ua.unit_id8 = c.unit_id8)
    ∧ (∀ dbg str_offset us s2 c2, unitLoop env k cu dbg str_offset us s = Run.ok s2 →
        s2.cus[cu]? = some c2 → c2.split ≠ c.split →
        ∃ j u, us[j]? = some u ∧ passes k c.unit_id8 u
          ∧ (∀ i v, i < j → us[i]? = some v → ¬ passes k c.unit_id8 v)
          ∧ c2.split = SplitLink.unit (s.cus.length + j)
          ∧ s2.cus[s.cus.length + j]?
              = some { yieldedUnit dbg str_offset u with split := SplitLink.unit cu })
    ∧ (∀ path s2 c2, try_split_file env k fuel cu path s = Run.ok s2 →
        s2.cus[cu]? = some c2 → c2.split ≠ c.split →
        ∃ a ua, c2.split = SplitLink.unit a ∧ s2.cus[a]? = some ua
          ∧ ua.unit_type = k.DW_UT_split_compile ∧ ua.unit_id8 = c.unit_id8)
    ∧ ((∀ t, env.allocOk t = true) → ∀ dbg str_offset us j u, us[j]? = some u →
        passes k c.unit_id8 u → (∀ i v, i < j → us[i]? = some v → ¬ passes k c.unit_id8 v) →
        ∃ s2, unitLoop env k cu dbg str_offset us s = Run.ok s2
          ∧ s2.cus[cu]? = some { c with split := SplitLink.unit (s.cus.length + j) }) := by
  have hlt := lt_of_getElem?_some _ _ _ hc
  refine ⟨?_, ?_, ?_, ?_⟩
  · intro hun a s2 h
    have hext := find_split_unit_Ext env k fuel cu s s2 _ c h hc (by intro h; cases h)
    obtain ⟨c2, hc2, hsp, _⟩ := find_split_unit_end env k fuel cu s s2 _ h
    obtain ⟨c3, hc3, _, _, _, _, hlink⟩ := hext.2.2 c hc
    rw [hc2] at hc3
    injection hc3 with hc3
    subst hc3
    rcases hlink with h1 | ⟨a2, ua, h1, _, h3, h4, h5⟩
    · rw [hsp, hun] at h1; cases h1
    · rw [hsp] at h1
      injection h1 with h1
      subst h1
      exact ⟨ua, h3, h4, h5⟩
  · intro dbg str_offset us s2 c2 hrun hc2 hne
    obtain ⟨_, _, _, _, hres⟩ := unitLoop_spec env k cu dbg str_offset us s s2 c hc hrun
    have hsame : ∀ x : List CU, s2.cus = s.cus ++ x → False := by
      intro x hx
      rw [hx, List.getElem?_append_left hlt, hc] at hc2
      injection hc2 with hc2
      subst hc2
      exact hne rfl
    rcases hres with ⟨_, h⟩ | ⟨j, u, hj, hp, hbefore, ⟨h, _⟩ | h⟩
    · exact absurd h (fun h => hsame _ h)
    · exact absurd h (fun h => hsame _ h)
    · have hua : (s.cus ++ (us.take (j + 1)).map (yieldedUnit dbg str_offset))[s.cus.length + j]?
          = some (yieldedUnit dbg str_offset u) := by
        rw [List.getElem?_append_right (by omega)]
        simp [List.getElem?_take, hj]
      obtain ⟨_, h1, h2⟩ := Ext_linked k cu (s.cus.length + j) s.cus _ c _ hc (by omega) hua
        hp.1 hp.2.symm
      rw [← h] at h1 h2
      rw [hc2] at h1
      injection h1 with h1
      exact ⟨j, u, hj, hp, hbefore, by rw [h1], h2⟩
  · intro path s2 c2 hrun hc2 hne
    obtain ⟨_, _, hext⟩ := try_split_file_spec env k fuel cu path s s2 c hrun hc
    obtain ⟨c3, hc3, _, _, _, _, hlink⟩ := hext.2.2 c hc
    rw [hc2] at hc3
    injection hc3 with hc3
    subst hc3
    rcases hlink with h1 | ⟨a, ua, h1, _, h3, h4, h5⟩
    · exact absurd h1 hne
    · exact ⟨a, ua, h1, h3, h4, h5⟩
  · intro halloc dbg str_offset us j u hj hp hbefore
    obtain ⟨s2, hrun⟩ := unitLoop_total env k cu dbg str_offset us s c hc
    refine ⟨s2, hrun, ?_⟩
    obtain ⟨_, _, _, _, hres⟩ := unitLoop_spec env k cu dbg str_offset us s s2 c hc hrun
    rcases hres with ⟨hall, _⟩ | ⟨j2, u2, hj2, hp2, hbefore2, hout⟩
    · exact absurd hp (hall u (List.getElem?_mem hj))
    · have hjj : j2 = j := by
        rcases Nat.lt_trichotomy j2 j with h | h | h
        · exact absurd hp2 (hbefore j2 u2 h hj2)
        · exact h
        · exact absurd hp (hbefore2 j u h hj)
      subst hjj
      rcases hout with ⟨_, hts⟩ | h
      · exfalso
        revert hts
        unfold tsearch
        split
        · simp
        · rw [if_pos (halloc _)]; simp
      · have hua : (s.cus ++ (us.take (j2 + 1)).map (yieldedUnit dbg str_offset))[s.cus.length
            + j2]? = some (yieldedUnit dbg str_offset u2) := by
          rw [List.getElem?_append_right (by omega)]
          simp [List.getElem?_take, hj2]
        obtain ⟨_, h1, _⟩ := Ext_linked k cu (s.cus.length + j2) s.cus _ c _ hc (by omega) hua
          hp2.1 hp2.2.symm
        rw [h]; exact h1

/-- Witness of C6: after the run on `sEx`, a second call in another file system (`envTwoPkg`)
and without any probe budget returns the same unit and the same state. -/
theorem C6_witness :
    find_split_unit envTwoPkg kEx 0 0 sLinkedEx = Run.ok (SplitLink.unit 1, sLinkedEx) :=
  C6_second_call_is_idempotent envSib envTwoPkg kEx 8 0 0 sEx sLinkedEx (SplitLink.unit 1)
    (by decide)

/-- C7, counterexample: `try_split_file` run on a skeleton already linked to the unit at
address 1 links it to the unit at address 4 of the package file. -/
theorem C7_counterexample_relink :
    (sLinkedEx.cus[0]?).map CU.split = some (SplitLink.unit 1)
      ∧ ((try_split_file envSib kEx 8 0 pkgPath sLinkedEx).bind fun s =>
          Run.ofOption ((s.cus[0]?).map CU.split)) = Run.ok (SplitLink.unit 4) := by
  decide

/-- Witness of C7 (amended), at the linked skeleton of `sLinkedEx`. -/
theorem C7_witness :
    (cuLinkedEx.split ≠ SplitLink.untried →
        find_split_unit envSib kEx 8 0 sLinkedEx = Run.ok (cuLinkedEx.split, sLinkedEx))
    ∧ (∀ r s2, find_split_unit envSib kEx 8 0 sLinkedEx = Run.ok (r, s2) →
        ∃ c2, s2.cus[0]? = some c2 ∧ c2.split = r ∧ r ≠ SplitLink.untried)
    ∧ (∀ path s2, try_split_file envSib kEx 8 0 path sLinkedEx = Run.ok s2 →
        ∃ c2, s2.cus[0]? = some c2
          ∧ (c2.split = cuLinkedEx.split
            ∨ ∃ a, c2.split = SplitLink.unit a ∧ sLinkedEx.cus.length ≤ a)
          ∧ (cuLinkedEx.split ≠ SplitLink.untried → c2.split ≠ SplitLink.untried)) :=
  C7_state_never_back_to_untried envSib kEx 8 0 sLinkedEx cuLinkedEx (by decide)

/-- C9, the code at the failing input: with two package files that both hold the unit, the
second one is opened after the first has been linked, and the skeleton ends up linked to
the unit of the second (address 6), not to that of the first (address 3). -/
theorem C9_later_package_is_opened_and_relinked :
    ((find_split_unit envTwoPkg kEx 8 0 sEx).bind fun r =>
        Run.ok (r.1, opens r.2.trace, links r.2.trace))
      = Run.ok (SplitLink.unit 6, [sibPath, pkgPath, pkg2Path],
          [Event.linkUnits 0 3, Event.linkUnits 0 6]) := by
  decide

/-- Witness of C10: the unit returned for `sEx` in `envSib`, and the unit loop over the
units of the package file, which links the third unit, the first to pass both tests. -/
theorem C10_witness :
    (∃ ua, sLinkedEx.cus[1]? = some ua ∧ ua.unit_type = kEx.DW_UT_split_compile
      ∧ ua.unit_id8 = cuSkelEx.unit_id8)
    ∧ ∃ s2, unitLoop envSib kEx 0 1 31 (pkgFile.units 21) sEx = Run.ok s2
        ∧ s2.cus[0]? = some { cuSkelEx with split := SplitLink.unit (sEx.cus.length + 2) } :=
  ⟨(C10_linked_unit_is_first_match envSib kEx 8 0 sEx cuSkelEx (by decide)).1 (by decide) 1
      sLinkedEx (by decide),
    (C10_linked_unit_is_first_match envSib kEx 8 0 sEx cuSkelEx (by decide)).2.2.2
      (fun _ => rfl) 1 31 (pkgFile.units 21) 2 ⟨5, 41394⟩ (by decide) ⟨by decide, by decide⟩
      (by
        intro i v hi hv hp
        have hi2 : i = 0 ∨ i = 1 := by omega
        rcases hi2 with rfl | rfl
        · have h0 : (pkgFile.units 21)[0]? = some (⟨6, 41394⟩ : UnitInfo) := by decide
          rw [h0] at hv
          injection hv with hv
          subst hv
          exact absurd hp.1 (by decide)
        · have h1 : (pkgFile.units 21)[1]? = some (⟨5, 7⟩ : UnitInfo) := by decide
          rw [h1] at hv
          injection hv with hv
          subst hv
          exact absurd hp.2 (by decide))⟩

/-! ## Units that are not searched for -/

/-- C11: for an unresolved skeleton whose root entry has neither a `dwo_name` nor a
`GNU_dwo_name` attribute, `__libdw_find_split_unit` returns `NULL` ('no split unit') and
leaves `cu->split = NULL`; the only calls it makes are the two attribute lookups: no path is
built, no file opened, no `glob` run. -/
theorem C11_no_dwo_name_resolves_to_none (env : Env) (k : Consts) (fuel cu : Nat) (s : State)
    (c : CU) (hc : s.cus[cu]? = some c) (hun : c.split = SplitLink.untried)
    (hsk : c.unit_type = k.DW_UT_skeleton)
    (h1 : env.dwoName cu = none) (h2 : env.gnuDwoName cu = none) :
    ∃ s2, find_split_unit env k fuel cu s = Run.ok (SplitLink.null, s2)
      ∧ s2.cus[cu]? = some { c with split := SplitLink.null }
      ∧ s2.trace = s.trace ++ [Event.attrRead cu AttrName.dwo_name,
          Event.attrRead cu AttrName.GNU_dwo_name]
      ∧ opens s2.trace = opens s.trace ∧ globs s2.trace = globs s.trace := by
  have hc2 : ((s.log (Event.attrRead cu AttrName.dwo_name)).log
      (Event.attrRead cu AttrName.GNU_dwo_name)).cus[cu]? = some c := hc
  refine ⟨((s.log (Event.attrRead cu AttrName.dwo_name)).log
      (Event.attrRead cu AttrName.GNU_dwo_name)).setSplit cu SplitLink.null, ?_,
    cus_setSplit_eq _ cu SplitLink.null c hc2, ?_, ?_, ?_⟩
  · unfold find_split_unit
    rw [readCU_of_getElem? s cu c hc]
    simp only [Run.bind]
    rw [if_neg (by rw [hun]; simp), if_pos hsk]
    unfold searchSkeleton
    simp only [h1, h2, Run.bind]
    rw [readCU_of_getElem? _ cu c hc2]
    simp only [Run.bind, if_pos hun]
  · show (s.trace ++ [_]) ++ [_] = _
    simp
  · show opens ((s.trace ++ [_]) ++ [_]) = _
    simp [opens_append, opens]
  · show globs ((s.trace ++ [_]) ++ [_]) = _
    simp [globs_append, globs]

/-- C20: for an unresolved unit whose type is not `DW_UT_skeleton`,
`__libdw_find_split_unit` makes no call at all (no attribute is read, no file opened, no
`glob` run), sets `cu->split = NULL` and returns `NULL`. -/
theorem C20_non_skeleton_resolves_to_none (env : Env) (k : Consts) (fuel cu : Nat)
    (s : State) (c : CU) (hc : s.cus[cu]? = some c) (hun : c.split = SplitLink.untried)
    (hns : c.unit_type ≠ k.DW_UT_skeleton) :
    find_split_unit env k fuel cu s = Run.ok (SplitLink.null, s.setSplit cu SplitLink.null)
      ∧ (s.setSplit cu SplitLink.null).cus[cu]? = some { c with split := SplitLink.null }
      ∧ (s.setSplit cu SplitLink.null).trace = s.trace := by
  refine ⟨?_, cus_setSplit_eq s cu SplitLink.null c hc, rfl⟩
  unfold find_split_unit
  rw [readCU_of_getElem? s cu c hc]
  simp only [Run.bind]
  rw [if_neg (by rw [hun]; simp), if_neg hns]
  simp only [Run.bind]
  rw [readCU_of_getElem? s cu c hc]
  simp only [Run.bind, if_pos hun]

/-! ## The probe sequence as a permutation of the slots -/

theorem stepPos_inj (slots st pos i j : Nat) (hc : Nat.Coprime st slots)
    (hi : i < slots) (hj : j < slots) (h : stepPos slots st pos i = stepPos slots st pos j) :
    i = j := by
  unfold stepPos at h
  have h2 : pos + i * st ≡ pos + j * st [MOD slots] := h
  have h3 : i * st ≡ j * st [MOD slots] := Nat.ModEq.add_left_cancel' pos h2
  have h4 : i ≡ j [MOD slots] :=
    Nat.ModEq.cancel_right_of_coprime (by rw [Nat.gcd_comm]; exact hc) h3
  have h5 : i % slots = j % slots := h4
  rw [Nat.mod_eq_of_lt hi, Nat.mod_eq_of_lt hj] at h5
  exact h5

theorem probeSeq_eq_pathPos (n id : Nat) (hn : 2 ^ n < W32) :
    ∀ j, probeSeq (2 ^ n) id j = pathPos (2 ^ n) id j := by
  have hs : 0 < 2 ^ n := Nat.two_pow_pos n
  have hstart : hashStart (2 ^ n) id < 2 ^ n := by
    rw [hashStart_pow n id hn]; exact Nat.mod_lt _ hs
  intro j
  induction j with
  | zero =>
    show hashStart (2 ^ n) id = stepPos _ _ _ 0
    unfold stepPos
    simp [Nat.mod_eq_of_lt hstart]
  | succ j ih =>
    show ((probeSeq (2 ^ n) id j + hashPrime (2 ^ n) id) % W64) % 2 ^ n = _
    rw [ih]
    have hlt : pathPos (2 ^ n) id j < 2 ^ n := pathPos_lt n id j
    have hp := hashPrime_lt (2 ^ n) id
    have hw : pathPos (2 ^ n) id j + hashPrime (2 ^ n) id < W64 := by
      unfold W64; unfold W32 at hn; omega
    rw [Nat.mod_eq_of_lt hw]
    unfold pathPos stepPos
    rw [Nat.add_mod, Nat.mod_mod, ← Nat.add_mod]
    congr 1
    ring

/-- C15: for a slot count `2 ^ n` (a `uint32_t`) and any signature, the step
`((signature >> 32) & (slots-1)) | 1` is odd, and the sequence of values of `hash` in the
probe loop takes pairwise distinct values at its first `slots` positions, reaches every slot
there, and repeats with period `slots`. -/
theorem C15_probe_sequence_visits_every_slot_once (n id : Nat) (hn : 2 ^ n < W32) :
    hashPrime (2 ^ n) id % 2 = 1
      ∧ hashPrime (2 ^ n) id = ((id >>> 32) &&& (2 ^ n - 1)) ||| 1
      ∧ probeSeq (2 ^ n) id 0 = id &&& (2 ^ n - 1)
      ∧ (∀ i j, i < 2 ^ n → j < 2 ^ n → probeSeq (2 ^ n) id i = probeSeq (2 ^ n) id j → i = j)
      ∧ (∀ e, e < 2 ^ n → ∃ j, j < 2 ^ n ∧ probeSeq (2 ^ n) id j = e)
      ∧ (∀ j, probeSeq (2 ^ n) id j < 2 ^ n)
      ∧ (∀ j, probeSeq (2 ^ n) id (j + 2 ^ n) = probeSeq (2 ^ n) id j) := by
  have hs : 0 < 2 ^ n := Nat.two_pow_pos n
  have heq := probeSeq_eq_pathPos n id hn
  refine ⟨hashPrime_odd _ _, ?_, ?_, ?_, ?_, ?_, ?_⟩
  · unfold hashPrime; rw [maskOf_pow n hn]
  · show hashStart (2 ^ n) id = _
    unfold hashStart; rw [maskOf_pow n hn]
  · intro i j hi hj h
    rw [heq, heq] at h
    exact stepPos_inj _ _ _ i j (hashPrime_coprime n id) hi hj h
  · intro e he
    obtain ⟨j, hj, hje⟩ := stepPos_cover (2 ^ n) (hashPrime (2 ^ n) id) (hashStart (2 ^ n) id)
      hs (hashPrime_coprime n id) e he
    exact ⟨j, hj, by rw [heq]; exact hje⟩
  · intro j
    rw [heq]; exact pathPos_lt n id j
  · intro j
    rw [heq, heq]
    unfold pathPos stepPos
    have : hashStart (2 ^ n) id + (j + 2 ^ n) * hashPrime (2 ^ n) id
        = hashStart (2 ^ n) id + j * hashPrime (2 ^ n) id + 2 ^ n * hashPrime (2 ^ n) id := by
      ring
    rw [this, Nat.add_mul_mod_self_left]

/-- Witness of C15: eight slots and the signature `0x300000002` (start 2, step 3). -/
theorem C15_witness :
    hashPrime (2 ^ 3) 12884901890 % 2 = 1
      ∧ hashPrime (2 ^ 3) 12884901890 = ((12884901890 >>> 32) &&& (2 ^ 3 - 1)) ||| 1
      ∧ probeSeq (2 ^ 3) 12884901890 0 = 12884901890 &&& (2 ^ 3 - 1)
      ∧ (∀ i j, i < 2 ^ 3 → j < 2 ^ 3 →
          probeSeq (2 ^ 3) 12884901890 i = probeSeq (2 ^ 3) 12884901890 j → i = j)
      ∧ (∀ e, e < 2 ^ 3 → ∃ j, j < 2 ^ 3 ∧ probeSeq (2 ^ 3) 12884901890 j = e)
      ∧ (∀ j, probeSeq (2 ^ 3) 12884901890 j < 2 ^ 3)
      ∧ (∀ j, probeSeq (2 ^ 3) 12884901890 (j + 2 ^ 3) = probeSeq (2 ^ 3) 12884901890 j) :=
  C15_probe_sequence_visits_every_slot_once 3 12884901890 (by decide)

/-! ## The found branch of the lookup -/

theorem probeLoop_exit (b : Buf) (slots id : Nat) :
    ∀ (fuel pos h : Nat), probeLoop b slots id fuel pos = Run.ok h →
      ∃ v, hts b h = some v ∧ (v = 0 ∨ v = id) := by
  intro fuel
  induction fuel with
  | zero => intro pos h hrun; cases hrun
  | succ f ih =>
    intro pos h hrun
    simp only [probeLoop] at hrun
    split at hrun
    · cases hrun
    · rename_i v hv
      split at hrun
      · rename_i hhit
        injection hrun with hrun
        subst hrun
        exact ⟨v, hv, hhit⟩
      · split at hrun
        · cases hrun
        · exact ih _ h hrun

theorem offsetsRowBase_wrapped (columns slots : Nat) :
    rowIndexOf 0 = 4294967295 ∧ offsetsRowBase columns slots (rowIndexOf 0) = tsoBase slots := by
  refine ⟨by decide, ?_⟩
  have h : rowIndexOf 0 = 4294967295 := by decide
  unfold offsetsRowBase
  rw [h]
  have h2 : (4294967295 + 1) % W32 = 0 := by decide
  rw [h2, Nat.mul_zero, Nat.zero_mod]
  rfl

/-- C19: the lookup takes its found branch at the slot the probe loop ends at exactly when
the value of that slot equals the signature; it has no test for emptiness.  So for the
signature 0 the slot reached is an empty one and is reported as a match: in a table of
`2 ^ n` readable slots with an empty slot, the first empty slot of the probe path.  When the
row-index entry of that slot is 0, `row_index` is `2^32 - 1` and the offsets row used is
row 0, the row of the column tags.  For a non-zero signature no match is reported at an
empty slot. -/
theorem C19_found_branch_tests_equality_only (k : Consts) (b : Buf)
    (ver columns units slots : Nat)
    (hv : rd32 b 0 = some ver) (hc : rd32 b 4 = some columns) (hu : rd32 b 8 = some units)
    (hs : rd32 b 12 = some slots) :
    (∀ id fuel h v, probeLoop b slots id fuel (hashStart slots id) = Run.ok h →
        hts b h = some v →
        lookupIndex k b id fuel
          = if v = id then decodeRow k b columns units slots h else Run.ok none)
    ∧ (∀ fuel h, probeLoop b slots 0 fuel (hashStart slots 0) = Run.ok h →
        hts b h = some 0 ∧ lookupIndex k b 0 fuel = decodeRow k b columns units slots h)
    ∧ (∀ n, slots = 2 ^ n → (∀ h, h < 2 ^ n → (hts b h).isSome) →
        (∃ e, e < 2 ^ n ∧ hts b e = some 0) →
        ∃ m, m < 2 ^ n ∧ (∀ j, j < m → hts b (pathPos (2 ^ n) 0 j) ≠ some 0)
          ∧ hts b (pathPos (2 ^ n) 0 m) = some 0
          ∧ ∀ fuel, 2 ^ n ≤ fuel →
              lookupIndex k b 0 fuel = decodeRow k b columns units slots (pathPos (2 ^ n) 0 m))
    ∧ (rowIndexOf 0 = 4294967295
        ∧ offsetsRowBase columns slots (rowIndexOf 0) = tsoBase slots)
    ∧ (∀ id fuel h, id ≠ 0 → probeLoop b slots id fuel (hashStart slots id) = Run.ok h →
        hts b h = some 0 → lookupIndex k b id fuel = Run.ok none) := by
  refine ⟨?_, ?_, ?_, offsetsRowBase_wrapped columns slots, ?_⟩
  · intro id fuel h v hp hh
    exact lookupIndex_of_probe k b id fuel ver columns units slots h v hv hc hu hs hp hh
  · intro fuel h hp
    obtain ⟨v, hh, hv0⟩ := probeLoop_exit b slots 0 fuel _ h hp
    have hv0' : v = 0 := by rcases hv0 with h | h <;> exact h
    subst hv0'
    refine ⟨hh, ?_⟩
    rw [lookupIndex_of_probe k b 0 fuel ver columns units slots h 0 hv hc hu hs hp hh,
      if_pos rfl]
  · intro n hn hread hempty
    subst hn
    have hslots : 2 ^ n < W32 := rd32_lt hs
    have hT : ∀ h, h < 2 ^ n → hts b h = some ((hts b h).getD 0) := by
      intro h hh
      have := hread h hh
      cases hx : hts b h with
      | none => rw [hx] at this; cases this
      | some v => rfl
    obtain ⟨e, he, hte⟩ := hempty
    obtain ⟨m, hm, hhit, hmin, hrun⟩ := probeLoop_finds b n 0 (fun h => (hts b h).getD 0)
      hslots hT ⟨e, he, by left; simp [hte]⟩
    have hlt := pathPos_lt n 0 m
    have hval : hts b (pathPos (2 ^ n) 0 m) = some 0 := by
      rw [hT _ hlt]
      rcases hhit with h | h <;> exact congrArg some h
    refine ⟨m, hm, ?_, hval, ?_⟩
    · intro j hj h0
      apply hmin j hj
      left
      show (hts b (pathPos (2 ^ n) 0 j)).getD 0 = 0
      rw [h0]; rfl
    · intro fuel hfuel
      rw [lookupIndex_of_probe k b 0 fuel ver columns units (2 ^ n) _ 0 hv hc hu hs
        (hrun fuel hfuel) hval, if_pos rfl]
  · intro id fuel h hid hp hh
    rw [lookupIndex_of_probe k b id fuel ver columns units slots h 0 hv hc hu hs hp hh,
      if_neg (fun h => hid h.symm)]
/-! ## One candidate, step by step -/

theorem try_split_file_begun (env : Env) (k : Consts) (fuel cu : Nat) (path : String)
    (s : State) (d : Container) (hopen : env.openFile s.trace.length path = true)
    (hbegin : env.dwarfBegin (openedState s path).trace.length path = some d) :
    try_split_file env k fuel cu path s =
      (candidateOffsets k fuel cu d (begunState s path)).bind fun offs =>
      (unitLoop env k cu s.next_dbg offs.2 (d.units offs.1) (begunState s path)).bind fun s3 =>
      (s3.readCU cu).bind fun c3 =>
      Run.ok (finishCandidate s3 c3 s.next_dbg s.next_fd) := by
  unfold try_split_file
  rw [if_pos hopen]
  show (match env.dwarfBegin (openedState s path).trace.length path with
    | none => _
    | some split_dwarf => _) = _
  rw [hbegin]
  rfl

theorem try_split_file_not_opened (env : Env) (k : Consts) (fuel cu : Nat) (path : String)
    (s : State) (hopen : env.openFile s.trace.length path = false) :
    try_split_file env k fuel cu path s = Run.ok (s.log (Event.openFile path none)) := by
  unfold try_split_file
  rw [if_neg (by rw [hopen]; simp)]

theorem try_split_file_not_begun (env : Env) (k : Consts) (fuel cu : Nat) (path : String)
    (s : State) (hopen : env.openFile s.trace.length path = true)
    (hbegin : env.dwarfBegin (openedState s path).trace.length path = none) :
    try_split_file env k fuel cu path s =
      Run.ok (((openedState s path).log (Event.dwarfBegin s.next_fd none)).log
        (Event.closeFd s.next_fd)) := by
  unfold try_split_file
  rw [if_pos hopen]
  show (match env.dwarfBegin (openedState s path).trace.length path with
    | none => _
    | some split_dwarf => _) = _
  rw [hbegin]
  rfl

theorem yieldedState_cons (s : State) (dbg str_offset : Nat) (u : UnitInfo)
    (us : List UnitInfo) :
    yieldedState (yieldedState s dbg str_offset [u]) dbg str_offset us
      = yieldedState s dbg str_offset (u :: us) := by
  unfold yieldedState
  simp [List.append_assoc]

theorem unitLoop_step_state (s : State) (dbg str_offset : Nat) (u : UnitInfo) :
    (({ s with cus := s.cus ++ [newUnit dbg u] } : State).setStrOffBase s.cus.length
        str_offset) = yieldedState s dbg str_offset [u] := by
  unfold State.setStrOffBase yieldedState
  simp only [modify_append_length, List.map_cons, List.map_nil]
  rfl

/-- The unit loop when no unit passes the test: all units are yielded, nothing else. -/
theorem unitLoop_nomatch (env : Env) (k : Consts) (cu dbg str_offset : Nat) :
    ∀ (us : List UnitInfo) (s : State) (c : CU), s.cus[cu]? = some c →
      (∀ u, u ∈ us → ¬ passes k c.unit_id8 u) →
      unitLoop env k cu dbg str_offset us s = Run.ok (yieldedState s dbg str_offset us) := by
  intro us
  induction us with
  | nil =>
    intro s c _ _
    simp [unitLoop, yieldedState]
  | cons u rest ih =>
    intro s c hc hno
    have hlt := lt_of_getElem?_some _ _ _ hc
    simp only [unitLoop]
    rw [unitLoop_step_state]
    have hsp : (yieldedState s dbg str_offset [u]).cus[s.cus.length]?
        = some (yieldedUnit dbg str_offset u) := by
      simp [yieldedState]
    have hc1 : (yieldedState s dbg str_offset [u]).cus[cu]? = some c := by
      show (s.cus ++ _)[cu]? = _
      rw [List.getElem?_append_left hlt]; exact hc
    rw [readCU_of_getElem? _ _ _ hsp, readCU_of_getElem? _ _ _ hc1]
    simp only [Run.bind]
    have hnp : ¬ ((yieldedUnit dbg str_offset u).unit_type = k.DW_UT_split_compile
        ∧ c.unit_id8 = (yieldedUnit dbg str_offset u).unit_id8) :=
      hno u (List.mem_cons_self _ _)
    rw [if_neg hnp, ih _ c hc1 (fun w hw => hno w (List.mem_cons_of_mem _ hw)),
      yieldedState_cons]

/-- The unit loop when unit `j` is the first to pass the test: the units up to it are
yielded, the container is searched in the tree, and the link is made unless that fails. -/
theorem unitLoop_match (env : Env) (k : Consts) (cu dbg str_offset : Nat) :
    ∀ (us : List UnitInfo) (s : State) (c : CU) (j : Nat) (u : UnitInfo),
      s.cus[cu]? = some c → us[j]? = some u → passes k c.unit_id8 u →
      (∀ i v, i < j → us[i]? = some v → ¬ passes k c.unit_id8 v) →
      unitLoop env k cu dbg str_offset us s =
        if (tsearch env c.dbg dbg (yieldedState s dbg str_offset (us.take (j + 1)))).1 then
          Run.ok ((link_skel_split
            (tsearch env c.dbg dbg (yieldedState s dbg str_offset (us.take (j + 1)))).2
            cu (s.cus.length + j)).log (Event.fdDone dbg))
        else
          Run.ok { (tsearch env c.dbg dbg
            (yieldedState s dbg str_offset (us.take (j + 1)))).2.log Event.setErrnoNomem with
            errno_nomem := true } := by
  intro us
  induction us with
  | nil => intro s c j u _ hj; simp at hj
  | cons w rest ih =>
    intro s c j u hc hj hp hbefore
    have hlt := lt_of_getElem?_some _ _ _ hc
    simp only [unitLoop]
    rw [unitLoop_step_state]
    have hsp : (yieldedState s dbg str_offset [w]).cus[s.cus.length]?
        = some (yieldedUnit dbg str_offset w) := by
      simp [yieldedState]
    have hc1 : (yieldedState s dbg str_offset [w]).cus[cu]? = some c := by
      show (s.cus ++ _)[cu]? = _
      rw [List.getElem?_append_left hlt]; exact hc
    rw [readCU_of_getElem? _ _ _ hsp, readCU_of_getElem? _ _ _ hc1]
    simp only [Run.bind]
    cases j with
    | zero =>
      simp only [List.getElem?_cons_zero, Option.some.injEq] at hj
      subst hj
      have hpw : (yieldedUnit dbg str_offset w).unit_type = k.DW_UT_split_compile
          ∧ c.unit_id8 = (yieldedUnit dbg str_offset w).unit_id8 := hp
      rw [if_pos hpw]
      have htake : List.take (0 + 1) (w :: rest) = [w] := by simp
      rw [htake]
      show (match tsearch env c.dbg dbg (yieldedState s dbg str_offset [w]) with
        | (false, s2) => _
        | (true, s2) => _) = _
      cases tsearch env c.dbg dbg (yieldedState s dbg str_offset [w]) with
      | mk fl st =>
        cases fl with
        | false => rfl
        | true => rfl
    | succ j =>
      simp only [List.getElem?_cons_succ] at hj
      have hnp : ¬ ((yieldedUnit dbg str_offset w).unit_type = k.DW_UT_split_compile
          ∧ c.unit_id8 = (yieldedUnit dbg str_offset w).unit_id8) :=
        hbefore 0 w (by omega) (by simp)
      rw [if_neg hnp, ih _ c j u hc1 hj hp
        (fun i v hi hv => hbefore (i + 1) v (by omega) (by simpa using hv))]
      have htake : List.take (j + 1 + 1) (w :: rest) = w :: List.take (j + 1) rest := by simp
      have hlen : (yieldedState s dbg str_offset [w]).cus.length + j = s.cus.length + (j + 1) := by
        simp [yieldedState]; omega
      rw [htake, yieldedState_cons, hlen]
/-! ## A failing insertion into the search tree -/

theorem tsearch_fails (env : Env) (owner key : Nat) (s : State)
    (hnew : ∀ e, e ∈ s.split_tree → ¬ (e.1 = owner ∧ env.sameDbg e.2 key = true))
    (halloc : env.allocOk s.trace.length = false) :
    tsearch env owner key s = (false, s.log (Event.treeSearch key false)) := by
  unfold tsearch
  have h1 : (s.split_tree.any fun e => decide (e.1 = owner) && env.sameDbg e.2 key) = false := by
    rw [List.any_eq_false]
    intro e he
    have := hnew e he
    simp only [Bool.and_eq_true, decide_eq_true_eq]
    exact this
  rw [h1, halloc]
  simp

theorem searchCandidates_sibling_unlinked (env : Env) (k : Consts) (fuel cu : Nat)
    (f : Option String) (p : String) (s0 s1 : State) (c c1 : CU)
    (hc : s0.cus[cu]? = some c)
    (hpath : env.filepath s0.trace.length (env.debugdir c.dbg) none f = some p)
    (hsib : try_split_file env k fuel cu p
      (s0.log (Event.filePath (env.debugdir c.dbg) none f)) = Run.ok s1)
    (hc1 : s1.cus[cu]? = some c1) (hun1 : c1.split = SplitLink.untried) :
    searchCandidates env k fuel cu f s0 =
      (globSearch env k fuel cu (env.debugdir c.dbg) s1).bind fun s3 =>
      (s3.readCU cu).bind fun c3 =>
      if c3.split = SplitLink.untried then
        compDirSearch env k fuel cu (env.debugdir c.dbg) f s3
      else Run.ok s3 := by
  unfold searchCandidates
  rw [readCU_of_getElem? s0 cu c hc]
  simp only [Run.bind, hpath, hsib]
  rw [readCU_of_getElem? s1 cu c1 hc1]
  simp only [Run.bind, if_pos hun1]

/-- C12: when, for an unresolved unit `cu`, the first unit of a candidate that passes the
test cannot be inserted into the search tree (no equal key is there and `tsearch` cannot
allocate), `try_split_file` returns with the last error set to out-of-memory, `cu` still
unresolved and the tree unchanged; it has yielded no unit behind the matching one, and it
has ended the container and closed the descriptor.  In `__libdw_find_split_unit` a sibling
candidate that leaves the skeleton unresolved is followed by the search of the package
files and of the `comp_dir` candidate, and a call that returns has either linked the unit or
returns `NULL`. -/
theorem C12_failed_insertion_makes_no_link (env : Env) (k : Consts) (fuel cu : Nat)
    (s : State) (c : CU) (hc : s.cus[cu]? = some c) (hun : c.split = SplitLink.untried) :
    (∀ path d ao so j u,
        env.openFile s.trace.length path = true →
        env.dwarfBegin (openedState s path).trace.length path = some d →
        candidateOffsets k fuel cu d (begunState s path) = Run.ok (ao, so) →
        (d.units ao)[j]? = some u → passes k c.unit_id8 u →
        (∀ i v, i < j → (d.units ao)[i]? = some v → ¬ passes k c.unit_id8 v) →
        (∀ e, e ∈ s.split_tree → ¬ (e.1 = c.dbg ∧ env.sameDbg e.2 s.next_dbg = true)) →
        env.allocOk (s.trace.length + 2) = false →
        ∃ s2, try_split_file env k fuel cu path s = Run.ok s2
          ∧ s2.errno_nomem = true
          ∧ s2.cus[cu]? = some c
          ∧ s2.cus = s.cus ++ ((d.units ao).take (j + 1)).map (yieldedUnit s.next_dbg so)
          ∧ s2.split_tree = s.split_tree
          ∧ s2.trace = s.trace ++ [Event.openFile path (some s.next_fd),
              Event.dwarfBegin s.next_fd (some s.next_dbg),
              Event.treeSearch s.next_dbg false, Event.setErrnoNomem,
              Event.dwarfEnd s.next_dbg, Event.closeFd s.next_fd])
    ∧ (∀ f p s1 c1, c.unit_type = k.DW_UT_skeleton →
        (env.dwoName cu = some f ∨ (env.dwoName cu = none ∧ env.gnuDwoName cu = some f)) →
        env.filepath (afterNameLookup env cu s).trace.length (env.debugdir c.dbg) none f
          = some p →
        try_split_file env k fuel cu p
          ((afterNameLookup env cu s).log (Event.filePath (env.debugdir c.dbg) none f))
            = Run.ok s1 →
        s1.cus[cu]? = some c1 → c1.split = SplitLink.untried →
        find_split_unit env k fuel cu s =
          (globSearch env k fuel cu (env.debugdir c.dbg) s1).bind fun s3 =>
          (s3.readCU cu).bind fun c3 =>
          (if c3.split = SplitLink.untried then
              compDirSearch env k fuel cu (env.debugdir c.dbg) f s3
            else Run.ok s3).bind fun s4 =>
          (s4.readCU cu).bind fun c4 =>
          if c4.split = SplitLink.untried then
            Run.ok (SplitLink.null, s4.setSplit cu SplitLink.null)
          else Run.ok (c4.split, s4))
    ∧ (∀ r s2, find_split_unit env k fuel cu s = Run.ok (r, s2) →
        ∃ c2, s2.cus[cu]? = some c2 ∧ c2.split = r
          ∧ (r = SplitLink.null ∨ ∃ a, r = SplitLink.unit a)) := by
  have hlt := lt_of_getElem?_some _ _ _ hc
  refine ⟨?_, ?_, ?_⟩
  · intro path d ao so j u hopen hbegin hoffs hj hp hbefore hnew halloc
    have hcB : (begunState s path).cus[cu]? = some c := hc
    have hts := tsearch_fails env c.dbg s.next_dbg
      (yieldedState (begunState s path) s.next_dbg so ((d.units ao).take (j + 1))) hnew
      (by
        show env.allocOk ((s.trace ++ [_]) ++ [_]).length = false
        simpa using halloc)
    have hloop := unitLoop_match env k cu s.next_dbg so (d.units ao) (begunState s path) c j u
      hcB hj hp hbefore
    rw [hts] at hloop
    simp only [Bool.false_eq_true, if_false] at hloop
    rw [try_split_file_begun env k fuel cu path s d hopen hbegin, hoffs]
    simp only [Run.bind, hloop]
    have hcu : (s.cus ++ ((d.units ao).take (j + 1)).map (yieldedUnit s.next_dbg so))[cu]?
        = some c := by
      rw [List.getElem?_append_left hlt]; exact hc
    rw [readCU_of_getElem? _ cu c hcu]
    simp only [Run.bind]
    have hfin : ∀ X : State, finishCandidate X c s.next_dbg s.next_fd
        = (X.log (Event.dwarfEnd s.next_dbg)).log (Event.closeFd s.next_fd) := by
      intro X
      unfold finishCandidate
      rw [if_pos hun]
    rw [hfin]
    refine ⟨_, rfl, rfl, hcu, rfl, rfl, ?_⟩
    show ((((((s.trace ++ [_]) ++ [_]) ++ [_]) ++ [_]) ++ [_]) ++ [_]) = _
    simp
  · intro f p s1 c1 hsk hname hpath hsib hc1 hun1
    have hc0 : (afterNameLookup env cu s).cus[cu]? = some c := by
      rw [afterNameLookup_cus]; exact hc
    unfold find_split_unit
    rw [readCU_of_getElem? s cu c hc]
    simp only [Run.bind]
    rw [if_neg (by rw [hun]; simp), if_pos hsk, searchSkeleton_named env k fuel cu s f hname,
      searchCandidates_sibling_unlinked env k fuel cu f p _ s1 c c1 hc0 hpath hsib hc1 hun1]
    cases globSearch env k fuel cu (env.debugdir c.dbg) s1 with
    | fault => rfl
    | timeout => rfl
    | ok s3 =>
      simp only [Run.bind]
      cases s3.readCU cu with
      | fault => rfl
      | timeout => rfl
      | ok c3 => rfl
  · intro r s2 h
    obtain ⟨c2, hc2, hr, hne⟩ := find_split_unit_end env k fuel cu s s2 r h
    refine ⟨c2, hc2, hr, ?_⟩
    cases r with
    | untried => exact absurd rfl hne
    | null => exact Or.inl rfl
    | unit a => exact Or.inr ⟨a, rfl⟩
/-! ## A search without a match -/

theorem Released_of_trace (s s2 : State) (evs : List Event) (h : s2.trace = s.trace ++ evs)
    (hfd : closedFds evs = openedFds evs) (hdbg : endedDbgs evs = begunDbgs evs) :
    Released s s2 := by
  refine ⟨openedFds evs, begunDbgs evs, ?_, ?_, ?_, ?_⟩
  · rw [h]; unfold openedFds; exact List.filterMap_append _ _ _
  · rw [h, ← hfd]; unfold closedFds; exact List.filterMap_append _ _ _
  · rw [h]; unfold begunDbgs; exact List.filterMap_append _ _ _
  · rw [h, ← hdbg]; unfold endedDbgs; exact List.filterMap_append _ _ _

theorem Released_trans (s s2 s3 : State) (h1 : Released s s2) (h2 : Released s2 s3) :
    Released s s3 := by
  obtain ⟨f1, d1, a1, b1, c1, e1⟩ := h1
  obtain ⟨f2, d2, a2, b2, c2, e2⟩ := h2
  exact ⟨f1 ++ f2, d1 ++ d2, by rw [a2, a1, List.append_assoc],
    by rw [b2, b1, List.append_assoc], by rw [c2, c1, List.append_assoc],
    by rw [e2, e1, List.append_assoc]⟩

theorem Quiet_trans (cu : Nat) (c : CU) (s s2 s3 : State) (h1 : Quiet cu c s s2)
    (h2 : Quiet cu c s2 s3) : Quiet cu c s s3 :=
  ⟨h2.1, by rw [h2.2.1, h1.2.1], by rw [h2.2.2.1, h1.2.2.1],
    Released_trans s s2 s3 h1.2.2.2 h2.2.2.2⟩

theorem Quiet_refl (cu : Nat) (c : CU) (s : State) (hc : s.cus[cu]? = some c) :
    Quiet cu c s s :=
  ⟨hc, rfl, rfl, Released_of_trace s s [] (by simp) rfl rfl⟩

/-- Recording a call that neither yields nor releases a descriptor or a container. -/
theorem Quiet_log (cu : Nat) (c : CU) (s : State) (e : Event) (hc : s.cus[cu]? = some c)
    (h1 : openedFds [e] = []) (h2 : closedFds [e] = []) (h3 : begunDbgs [e] = [])
    (h4 : endedDbgs [e] = []) : Quiet cu c s (s.log e) :=
  ⟨hc, rfl, rfl, Released_of_trace s (s.log e) [e] rfl (by rw [h1, h2]) (by rw [h3, h4])⟩

theorem candidateOffsets_total (k : Consts) (fuel cu : Nat) (d : Container) (s : State)
    (c : CU) (hc : s.cus[cu]? = some c)
    (hidx : ∀ b, d.cu_index = some b → ∃ r, indexOffsets k (some b) c.unit_id8 fuel = Run.ok r) :
    ∃ r, candidateOffsets k fuel cu d s = Run.ok r := by
  unfold candidateOffsets
  cases hb : d.cu_index with
  | none => exact ⟨(0, 0), rfl⟩
  | some b =>
    obtain ⟨r, hr⟩ := hidx b hb
    refine ⟨r, ?_⟩
    simp only [readCU_of_getElem? s cu c hc, Run.bind, hr]

/-- A candidate that holds no unit passing the test, tried for an unresolved unit. -/
theorem try_split_file_quiet (env : Env) (k : Consts) (fuel cu : Nat) (path : String)
    (s : State) (c : CU) (hc : s.cus[cu]? = some c) (hun : c.split = SplitLink.untried)
    (hidx : ∀ t p d b, env.dwarfBegin t p = some d → d.cu_index = some b →
      ∃ r, indexOffsets k (some b) c.unit_id8 fuel = Run.ok r)
    (hno : ∀ t p d ao u, env.dwarfBegin t p = some d → u ∈ d.units ao →
      ¬ passes k c.unit_id8 u) :
    ∃ s2, try_split_file env k fuel cu path s = Run.ok s2 ∧ Quiet cu c s s2 := by
  have hlt := lt_of_getElem?_some _ _ _ hc
  cases hopen : env.openFile s.trace.length path with
  | false =>
    rw [try_split_file_not_opened env k fuel cu path s hopen]
    exact ⟨_, rfl, Quiet_log cu c s _ hc rfl rfl rfl rfl⟩
  | true =>
    cases hbegin : env.dwarfBegin (openedState s path).trace.length path with
    | none =>
      rw [try_split_file_not_begun env k fuel cu path s hopen hbegin]
      refine ⟨_, rfl, hc, rfl, rfl, ?_⟩
      refine Released_of_trace s _ [Event.openFile path (some s.next_fd),
        Event.dwarfBegin s.next_fd none, Event.closeFd s.next_fd] ?_ rfl rfl
      show ((s.trace ++ [_]) ++ [_]) ++ [_] = _
      simp
    | some d =>
      have hcB : (begunState s path).cus[cu]? = some c := hc
      obtain ⟨offs, hoffs⟩ := candidateOffsets_total k fuel cu d (begunState s path) c hcB
        (fun b hb => hidx _ _ d b hbegin hb)
      have hloop := unitLoop_nomatch env k cu s.next_dbg offs.2 (d.units offs.1)
        (begunState s path) c hcB (fun u hu => hno _ _ d offs.1 u hbegin hu)
      have hcu : (yieldedState (begunState s path) s.next_dbg offs.2 (d.units offs.1)).cus[cu]?
          = some c := by
        show (s.cus ++ _)[cu]? = _
        rw [List.getElem?_append_left hlt]; exact hc
      rw [try_split_file_begun env k fuel cu path s d hopen hbegin, hoffs]
      simp only [Run.bind, hloop]
      rw [readCU_of_getElem? _ cu c hcu]
      simp only [Run.bind]
      have hfin : ∀ X : State, finishCandidate X c s.next_dbg s.next_fd
          = (X.log (Event.dwarfEnd s.next_dbg)).log (Event.closeFd s.next_fd) := by
        intro X
        unfold finishCandidate
        rw [if_pos hun]
      rw [hfin]
      refine ⟨_, rfl, hcu, rfl, rfl, ?_⟩
      refine Released_of_trace s _ [Event.openFile path (some s.next_fd),
        Event.dwarfBegin s.next_fd (some s.next_dbg), Event.dwarfEnd s.next_dbg,
        Event.closeFd s.next_fd] ?_ rfl rfl
      show (((s.trace ++ [_]) ++ [_]) ++ [_]) ++ [_] = _
      simp

theorem globLoop_quiet (env : Env) (k : Consts) (fuel cu : Nat) (c : CU)
    (hun : c.split = SplitLink.untried)
    (hidx : ∀ t p d b, env.dwarfBegin t p = some d → d.cu_index = some b →
      ∃ r, indexOffsets k (some b) c.unit_id8 fuel = Run.ok r)
    (hno : ∀ t p d ao u, env.dwarfBegin t p = some d → u ∈ d.units ao →
      ¬ passes k c.unit_id8 u) :
    ∀ (paths : List String) (s : State), s.cus[cu]? = some c →
      ∃ s2, globLoop env k fuel cu paths s = Run.ok s2 ∧ Quiet cu c s s2 := by
  intro paths
  induction paths with
  | nil => intro s hc; exact ⟨s, rfl, Quiet_refl cu c s hc⟩
  | cons p ps ih =>
    intro s hc
    obtain ⟨s1, h1, q1⟩ := try_split_file_quiet env k fuel cu p s c hc hun hidx hno
    obtain ⟨s2, h2, q2⟩ := ih s1 q1.1
    refine ⟨s2, ?_, Quiet_trans cu c s s1 s2 q1 q2⟩
    simp only [globLoop, h1, Run.bind]
    exact h2

theorem globSearch_quiet (env : Env) (k : Consts) (fuel cu : Nat) (c : CU) (dir : String)
    (hun : c.split = SplitLink.untried) (hdir : dir.utf8ByteSize + 6 ≤ k.PATH_MAX)
    (hidx : ∀ t p d b, env.dwarfBegin t p = some d → d.cu_index = some b →
      ∃ r, indexOffsets k (some b) c.unit_id8 fuel = Run.ok r)
    (hno : ∀ t p d ao u, env.dwarfBegin t p = some d → u ∈ d.units ao →
      ¬ passes k c.unit_id8 u)
    (s : State) (hc : s.cus[cu]? = some c) :
    ∃ s2, globSearch env k fuel cu (some dir) s = Run.ok s2 ∧ Quiet cu c s s2 := by
  unfold globSearch
  simp only [if_pos hdir]
  have q0 : Quiet cu c s (s.log (Event.globRun (dir ++ "*.dwp"))) :=
    Quiet_log cu c s _ hc rfl rfl rfl rfl
  cases hg : env.glob s.trace.length (dir ++ "*.dwp") with
  | none =>
    simp only [Run.bind]
    exact ⟨_, rfl, Quiet_trans cu c _ _ _ q0 (Quiet_log cu c _ _ q0.1 rfl rfl rfl rfl)⟩
  | some paths =>
    obtain ⟨s2, h2, q2⟩ := globLoop_quiet env k fuel cu c hun hidx hno paths _ q0.1
    simp only [h2, Run.bind]
    exact ⟨_, rfl, Quiet_trans cu c _ _ _ q0
      (Quiet_trans cu c _ _ _ q2 (Quiet_log cu c _ _ q2.1 rfl rfl rfl rfl))⟩

theorem compDirSearch_quiet (env : Env) (k : Consts) (fuel cu : Nat) (c : CU)
    (debugdir dwo_file : Option String)
    (hun : c.split = SplitLink.untried)
    (hidx : ∀ t p d b, env.dwarfBegin t p = some d → d.cu_index = some b →
      ∃ r, indexOffsets k (some b) c.unit_id8 fuel = Run.ok r)
    (hno : ∀ t p d ao u, env.dwarfBegin t p = some d → u ∈ d.units ao →
      ¬ passes k c.unit_id8 u)
    (s : State) (hc : s.cus[cu]? = some c) :
    ∃ s2, compDirSearch env k fuel cu debugdir dwo_file s = Run.ok s2 ∧ Quiet cu c s s2 := by
  unfold compDirSearch
  have q0 : Quiet cu c s (s.log (Event.attrRead cu AttrName.comp_dir)) :=
    Quiet_log cu c s _ hc rfl rfl rfl rfl
  cases env.compDir cu with
  | none => exact ⟨_, rfl, q0⟩
  | some dwo_dir =>
    have q1 : Quiet cu c (s.log (Event.attrRead cu AttrName.comp_dir))
        ((s.log (Event.attrRead cu AttrName.comp_dir)).log
          (Event.filePath debugdir (some dwo_dir) dwo_file)) :=
      Quiet_log cu c _ _ q0.1 rfl rfl rfl rfl
    simp only
    cases env.filepath (s.log (Event.attrRead cu AttrName.comp_dir)).trace.length debugdir
        (some dwo_dir) dwo_file with
    | none => exact ⟨_, rfl, Quiet_trans cu c _ _ _ q0 q1⟩
    | some p =>
      obtain ⟨s2, h2, q2⟩ := try_split_file_quiet env k fuel cu p _ c q1.1 hun hidx hno
      exact ⟨s2, h2, Quiet_trans cu c _ _ _ q0 (Quiet_trans cu c _ _ _ q1 q2)⟩
theorem searchCandidates_quiet (env : Env) (k : Consts) (fuel cu : Nat) (c : CU)
    (dwo_file : Option String) (dir : String)
    (hun : c.split = SplitLink.untried) (hd : env.debugdir c.dbg = some dir)
    (hdir : dir.utf8ByteSize + 6 ≤ k.PATH_MAX)
    (hidx : ∀ t p d b, env.dwarfBegin t p = some d → d.cu_index = some b →
      ∃ r, indexOffsets k (some b) c.unit_id8 fuel = Run.ok r)
    (hno : ∀ t p d ao u, env.dwarfBegin t p = some d → u ∈ d.units ao →
      ¬ passes k c.unit_id8 u)
    (s : State) (hc : s.cus[cu]? = some c) :
    ∃ s2, searchCandidates env k fuel cu dwo_file s = Run.ok s2 ∧ Quiet cu c s s2 := by
  have q0 : Quiet cu c s (s.log (Event.filePath (some dir) none dwo_file)) :=
    Quiet_log cu c s _ hc rfl rfl rfl rfl
  have h1 : ∃ s1, (match env.filepath s.trace.length (some dir) none dwo_file with
      | none => Run.ok (s.log (Event.filePath (some dir) none dwo_file))
      | some dwo_path => try_split_file env k fuel cu dwo_path
          (s.log (Event.filePath (some dir) none dwo_file))) = Run.ok s1 ∧ Quiet cu c s s1 := by
    cases env.filepath s.trace.length (some dir) none dwo_file with
    | none => exact ⟨_, rfl, q0⟩
    | some p =>
      obtain ⟨s1, e1, q1⟩ := try_split_file_quiet env k fuel cu p _ c q0.1 hun hidx hno
      exact ⟨s1, e1, Quiet_trans cu c _ _ _ q0 q1⟩
  obtain ⟨s1, e1, q1⟩ := h1
  obtain ⟨s2, e2, q2⟩ := globSearch_quiet env k fuel cu c dir hun hdir hidx hno s1 q1.1
  obtain ⟨s3, e3, q3⟩ := compDirSearch_quiet env k fuel cu c (some dir) dwo_file hun hidx hno
    s2 q2.1
  refine ⟨s3, ?_, Quiet_trans cu c _ _ _ q1 (Quiet_trans cu c _ _ _ q2 q3)⟩
  unfold searchCandidates
  rw [readCU_of_getElem? s cu c hc]
  simp only [Run.bind, hd, e1]
  rw [readCU_of_getElem? s1 cu c q1.1]
  simp only [Run.bind, if_pos hun, e2]
  rw [readCU_of_getElem? s2 cu c q2.1]
  simp only [Run.bind, if_pos hun, e3]

theorem searchSkeleton_quiet (env : Env) (k : Consts) (fuel cu : Nat) (c : CU) (dir : String)
    (hun : c.split = SplitLink.untried) (hd : env.debugdir c.dbg = some dir)
    (hdir : dir.utf8ByteSize + 6 ≤ k.PATH_MAX)
    (hidx : ∀ t p d b, env.dwarfBegin t p = some d → d.cu_index = some b →
      ∃ r, indexOffsets k (some b) c.unit_id8 fuel = Run.ok r)
    (hno : ∀ t p d ao u, env.dwarfBegin t p = some d → u ∈ d.units ao →
      ¬ passes k c.unit_id8 u)
    (s : State) (hc : s.cus[cu]? = some c) :
    ∃ s2, searchSkeleton env k fuel cu s = Run.ok s2 ∧ Quiet cu c s s2 := by
  have q0 : Quiet cu c s (s.log (Event.attrRead cu AttrName.dwo_name)) :=
    Quiet_log cu c s _ hc rfl rfl rfl rfl
  have q1 : Quiet cu c (s.log (Event.attrRead cu AttrName.dwo_name))
      ((s.log (Event.attrRead cu AttrName.dwo_name)).log
        (Event.attrRead cu AttrName.GNU_dwo_name)) :=
    Quiet_log cu c _ _ q0.1 rfl rfl rfl rfl
  unfold searchSkeleton
  cases env.dwoName cu with
  | some f =>
    obtain ⟨s2, e2, q2⟩ := searchCandidates_quiet env k fuel cu c f dir hun hd hdir hidx hno
      _ q0.1
    exact ⟨s2, e2, Quiet_trans cu c _ _ _ q0 q2⟩
  | none =>
    cases env.gnuDwoName cu with
    | some f =>
      obtain ⟨s2, e2, q2⟩ := searchCandidates_quiet env k fuel cu c f dir hun hd hdir hidx hno
        _ q1.1
      exact ⟨s2, e2, Quiet_trans cu c _ _ _ q0 (Quiet_trans cu c _ _ _ q1 q2)⟩
    | none => exact ⟨_, rfl, Quiet_trans cu c _ _ _ q0 q1⟩

theorem find_split_unit_quiet (env : Env) (k : Consts) (fuel cu : Nat) (s : State)
    (c : CU) (dir : String)
    (hc : s.cus[cu]? = some c) (hun : c.split = SplitLink.untried)
    (hd : env.debugdir c.dbg = some dir) (hdir : dir.utf8ByteSize + 6 ≤ k.PATH_MAX)
    (hidx : ∀ t p d b, env.dwarfBegin t p = some d → d.cu_index = some b →
      ∃ r, indexOffsets k (some b) c.unit_id8 fuel = Run.ok r)
    (hno : ∀ t p d ao u, env.dwarfBegin t p = some d → u ∈ d.units ao →
      ¬ passes k c.unit_id8 u) :
    ∃ s2, find_split_unit env k fuel cu s = Run.ok (SplitLink.null, s2)
      ∧ s2.cus[cu]? = some { c with split := SplitLink.null }
      ∧ s2.errno_nomem = s.errno_nomem
      ∧ s2.split_tree = s.split_tree
      ∧ Released s s2 := by
  have h1 : ∃ s1, (if c.unit_type = k.DW_UT_skeleton then searchSkeleton env k fuel cu s
      else Run.ok s) = Run.ok s1 ∧ Quiet cu c s s1 := by
    by_cases hsk : c.unit_type = k.DW_UT_skeleton
    · rw [if_pos hsk]
      exact searchSkeleton_quiet env k fuel cu c dir hun hd hdir hidx hno s hc
    · rw [if_neg hsk]
      exact ⟨s, rfl, Quiet_refl cu c s hc⟩
  obtain ⟨s1, e1, q1⟩ := h1
  have hlt := lt_of_getElem?_some _ _ _ q1.1
  refine ⟨s1.setSplit cu SplitLink.null, ?_, ?_, q1.2.1, q1.2.2.1, ?_⟩
  · unfold find_split_unit
    rw [readCU_of_getElem? s cu c hc]
    have hnn : ¬ c.split ≠ SplitLink.untried := fun h => h hun
    simp only [Run.bind, if_neg hnn, e1]
    rw [readCU_of_getElem? s1 cu c q1.1]
    simp only [Run.bind, if_pos hun]
  · show (s1.cus.modify _ cu)[cu]? = _
    rw [List.getElem?_modify_eq, q1.1]
    rfl
  · obtain ⟨f, d, a1, a2, a3, a4⟩ := q1.2.2.2
    exact ⟨f, d, a1, a2, a3, a4⟩

/-! ## Instances -/

/-- Witness of C11: the skeleton of `sEx` when its root entry names no split file. -/
theorem C11_witness :
    ∃ s2, find_split_unit envNoName kEx 8 0 sEx = Run.ok (SplitLink.null, s2)
      ∧ s2.cus[0]? = some { cuSkelEx with split := SplitLink.null }
      ∧ s2.trace = sEx.trace ++ [Event.attrRead 0 AttrName.dwo_name,
          Event.attrRead 0 AttrName.GNU_dwo_name]
      ∧ opens s2.trace = opens sEx.trace ∧ globs s2.trace = globs sEx.trace :=
  C11_no_dwo_name_resolves_to_none envNoName kEx 8 0 sEx cuSkelEx (by decide) (by decide)
    (by decide) (by decide) (by decide)

/-- Witness of C20: a compile unit is resolved to none without a call. -/
theorem C20_witness :
    find_split_unit envSib kEx 8 0 sPlain
        = Run.ok (SplitLink.null, sPlain.setSplit 0 SplitLink.null)
      ∧ (sPlain.setSplit 0 SplitLink.null).cus[0]?
          = some { cuPlainEx with split := SplitLink.null }
      ∧ (sPlain.setSplit 0 SplitLink.null).trace = sPlain.trace :=
  C20_non_skeleton_resolves_to_none envSib kEx 8 0 sPlain cuPlainEx (by decide) (by decide)
    (by decide)

/-- Witness of C12: the split file beside the skeleton of `sEx` when `tsearch` cannot
allocate; and the whole search in that environment, which tries all three candidates, links
none and returns `NULL` with the error set. -/
theorem C12_witness :
    (∃ s2, try_split_file envNoMem kEx 8 0 sibPath sEx = Run.ok s2
      ∧ s2.errno_nomem = true
      ∧ s2.cus[0]? = some cuSkelEx
      ∧ s2.cus = sEx.cus ++ ((dwoFile.units 0).take (0 + 1)).map (yieldedUnit sEx.next_dbg 0)
      ∧ s2.split_tree = sEx.split_tree
      ∧ s2.trace = sEx.trace ++ [Event.openFile sibPath (some sEx.next_fd),
          Event.dwarfBegin sEx.next_fd (some sEx.next_dbg),
          Event.treeSearch sEx.next_dbg false, Event.setErrnoNomem,
          Event.dwarfEnd sEx.next_dbg, Event.closeFd sEx.next_fd])
    ∧ ((find_split_unit envNoMem kEx 8 0 sEx).bind fun r =>
        Run.ok (r.1, r.2.errno_nomem, opens r.2.trace, links r.2.trace))
      = Run.ok (SplitLink.null, true, [sibPath, pkgPath, compPath], []) :=
  ⟨(C12_failed_insertion_makes_no_link envNoMem kEx 8 0 sEx cuSkelEx (by decide)
      (by decide)).1 sibPath dwoFile 0 0 0 ⟨5, 41394⟩ rfl rfl rfl rfl ⟨by decide, by decide⟩
      (fun i v hi => absurd hi (Nat.not_lt_zero i)) (fun e he => by cases he) rfl,
    by decide⟩

/-- Witness of C19: in the index `bufPkg` the probe for the signature 0 ends at once at
slot 0, an empty slot, and the lookup goes on to decode a row for it. -/
theorem C19_witness :
    hts bufPkg 0 = some 0
      ∧ lookupIndex kEx bufPkg 0 8 = decodeRow kEx bufPkg 3 3 8 0 :=
  (C19_found_branch_tests_equality_only kEx bufPkg 2 3 3 8 (by decide) (by decide)
    (by decide) (by decide)).2.1 8 0 (by decide)

/-! ## The offsets a candidate is iterated with -/

theorem hashStart_lt (slots id : Nat) (h0 : 0 < slots) (hs : slots < W32) :
    hashStart slots id < slots := by
  unfold hashStart
  have hm : maskOf slots = slots - 1 := by
    unfold maskOf
    have : slots + W32 - 1 = (slots - 1) + W32 := by omega
    rw [this, Nat.add_mod_right, Nat.mod_eq_of_lt (by omega)]
  rw [hm]
  have := @Nat.and_le_right id (slots - 1)
  omega

theorem probeLoop_lt (b : Buf) (slots id : Nat) (h0 : 0 < slots) :
    ∀ (fuel pos h : Nat), pos < slots → probeLoop b slots id fuel pos = Run.ok h →
      h < slots := by
  intro fuel
  induction fuel with
  | zero => intro pos h _ hrun; cases hrun
  | succ f ih =>
    intro pos h hpos hrun
    simp only [probeLoop] at hrun
    split at hrun
    · cases hrun
    · split at hrun
      · injection hrun with hrun
        subst hrun
        exact hpos
      · split at hrun
        · cases hrun
        · exact ih _ h (Nat.mod_lt _ h0) hrun

theorem candidateOffsets_of_nomatch (k : Consts) (fuel cu : Nat) (d : Container) (s : State)
    (c : CU) (b : Buf) (hc : s.cus[cu]? = some c)
    (hb : d.cu_index = some b) (hl : lookupIndex k b c.unit_id8 fuel = Run.ok none) :
    candidateOffsets k fuel cu d s = Run.ok (0, 0) := by
  unfold candidateOffsets
  rw [hb]
  simp only [readCU_of_getElem? s cu c hc, Run.bind]
  exact indexOffsets_of_lookup k b c.unit_id8 fuel none hl

theorem getElem?_yielded (l : List CU) (us : List UnitInfo) (dbg so i : Nat) (u : UnitInfo)
    (h : us[i]? = some u) :
    (l ++ us.map (yieldedUnit dbg so))[l.length + i]? = some (yieldedUnit dbg so u) := by
  rw [List.getElem?_append_right (Nat.le_add_right _ _), Nat.add_sub_cancel_left,
    List.getElem?_map, h]
  rfl

theorem getElem?_linked_fields (l : List CU) (cu a p : Nat) (x : CU) (h : l[p]? = some x) :
    ∃ y, (linkedCus l cu a)[p]? = some y ∧ y.dbg = x.dbg ∧ y.unit_type = x.unit_type
      ∧ y.unit_id8 = x.unit_id8 ∧ y.str_off_base = x.str_off_base := by
  rw [getElem?_linkedCus, h]
  by_cases h1 : cu = p <;> by_cases h2 : a = p <;> simp [h1, h2]

theorem linkedCus_length (l : List CU) (cu a : Nat) : (linkedCus l cu a).length = l.length := by
  unfold linkedCus
  rw [List.length_modify, List.length_modify]

/-- C17: a candidate that has been opened and begun is iterated from the decoded
abbreviation offset, and every object made of a unit the iterator yields, up to and
including the matching one, carries the decoded string-offset base, those failing the test
included.  Both values are 0 when the candidate has no package index section and when the
lookup reports no match, which it does when no slot of the table holds the signature. -/
theorem C17_units_iterated_with_decoded_offsets (env : Env) (k : Consts) (fuel cu : Nat)
    (path : String) (s : State) (c : CU) (d : Container)
    (hc : s.cus[cu]? = some c)
    (hopen : env.openFile s.trace.length path = true)
    (hbegin : env.dwarfBegin (openedState s path).trace.length path = some d) :
    (try_split_file env k fuel cu path s =
      (candidateOffsets k fuel cu d (begunState s path)).bind fun offs =>
      (unitLoop env k cu s.next_dbg offs.2 (d.units offs.1) (begunState s path)).bind fun s3 =>
      (s3.readCU cu).bind fun c3 =>
      Run.ok (finishCandidate s3 c3 s.next_dbg s.next_fd))
    ∧ (∀ ao so, candidateOffsets k fuel cu d (begunState s path) = Run.ok (ao, so) →
        ∃ s3 n, unitLoop env k cu s.next_dbg so (d.units ao) (begunState s path) = Run.ok s3
          ∧ n ≤ (d.units ao).length ∧ s3.cus.length = s.cus.length + n
          ∧ (∀ i, i < n → ∃ u x, (d.units ao)[i]? = some u
              ∧ s3.cus[s.cus.length + i]? = some x
              ∧ x.dbg = s.next_dbg ∧ x.unit_type = u.unit_type ∧ x.unit_id8 = u.unit_id8
              ∧ x.str_off_base = so)
          ∧ (∀ i u, i + 1 < n → (d.units ao)[i]? = some u → ¬ passes k c.unit_id8 u)
          ∧ (n < (d.units ao).length →
              ∃ j u, n = j + 1 ∧ (d.units ao)[j]? = some u ∧ passes k c.unit_id8 u))
    ∧ (d.cu_index = none → candidateOffsets k fuel cu d (begunState s path) = Run.ok (0, 0))
    ∧ (∀ b, d.cu_index = some b → lookupIndex k b c.unit_id8 fuel = Run.ok none →
        candidateOffsets k fuel cu d (begunState s path) = Run.ok (0, 0))
    ∧ (∀ b ver columns units slots h, d.cu_index = some b →
        rd32 b 0 = some ver → rd32 b 4 = some columns → rd32 b 8 = some units →
        rd32 b 12 = some slots → 0 < slots →
        (∀ e, e < slots → hts b e ≠ some c.unit_id8) →
        probeLoop b slots c.unit_id8 fuel (hashStart slots c.unit_id8) = Run.ok h →
        candidateOffsets k fuel cu d (begunState s path) = Run.ok (0, 0))
    ∧ (∀ b n ver columns units, d.cu_index = some b →
        rd32 b 0 = some ver → rd32 b 4 = some columns → rd32 b 8 = some units →
        rd32 b 12 = some (2 ^ n) →
        (∀ e, e < 2 ^ n → (hts b e).isSome) → (∃ e, e < 2 ^ n ∧ hts b e = some 0) →
        (∀ e, e < 2 ^ n → hts b e ≠ some c.unit_id8) → 2 ^ n ≤ fuel →
        candidateOffsets k fuel cu d (begunState s path) = Run.ok (0, 0)) := by
  have hcB : (begunState s path).cus[cu]? = some c := hc
  have hnone : ∀ b ver columns units slots h, d.cu_index = some b →
      rd32 b 0 = some ver → rd32 b 4 = some columns → rd32 b 8 = some units →
      rd32 b 12 = some slots → 0 < slots →
      (∀ e, e < slots → hts b e ≠ some c.unit_id8) →
      probeLoop b slots c.unit_id8 fuel (hashStart slots c.unit_id8) = Run.ok h →
      candidateOffsets k fuel cu d (begunState s path) = Run.ok (0, 0) := by
    intro b ver columns units slots h hb hv hco hu hs h0 habs hp
    have hlt := probeLoop_lt b slots c.unit_id8 h0 fuel _ h
      (hashStart_lt slots c.unit_id8 h0 (rd32_lt hs)) hp
    obtain ⟨v, hh, hv0⟩ := probeLoop_exit b slots c.unit_id8 fuel _ h hp
    have hne : v ≠ c.unit_id8 := by
      intro e
      apply habs h hlt
      rw [hh, e]
    have hl : lookupIndex k b c.unit_id8 fuel = Run.ok none := by
      rw [lookupIndex_of_probe k b c.unit_id8 fuel ver columns units slots h v hv hco hu hs
        hp hh, if_neg hne]
    exact candidateOffsets_of_nomatch k fuel cu d _ c b hcB hb hl
  refine ⟨try_split_file_begun env k fuel cu path s d hopen hbegin, ?_, ?_, ?_, hnone, ?_⟩
  · intro ao so _
    obtain ⟨s3, hrun⟩ := unitLoop_total env k cu s.next_dbg so (d.units ao)
      (begunState s path) c hcB
    obtain ⟨_, _, _, _, hsp⟩ := unitLoop_spec env k cu s.next_dbg so (d.units ao)
      (begunState s path) s3 c hcB hrun
    have hcus : (begunState s path).cus = s.cus := rfl
    rw [hcus] at hsp
    rcases hsp with ⟨hno, hcs⟩ | ⟨j, u, hj, hp, hbefore, hcs⟩
    · refine ⟨s3, (d.units ao).length, hrun, Nat.le_refl _, ?_, ?_, ?_, ?_⟩
      · rw [hcs, List.length_append, List.length_map]
      · intro i hi
        have hu : (d.units ao)[i]? = some ((d.units ao)[i]) := List.getElem?_eq_getElem hi
        refine ⟨_, yieldedUnit s.next_dbg so _, hu, ?_, rfl, rfl, rfl, rfl⟩
        rw [hcs]
        exact getElem?_yielded s.cus (d.units ao) s.next_dbg so i _ hu
      · intro i u _ hu
        exact hno u (List.getElem?_mem hu)
      · intro h
        exact absurd h (Nat.lt_irrefl _)
    · have hjl : j < (d.units ao).length := lt_of_getElem?_some _ _ _ hj
      have hlen : ((d.units ao).take (j + 1)).length = j + 1 := by
        rw [List.length_take]; omega
      have hget : ∀ i, i < j + 1 → ∃ u2, (d.units ao)[i]? = some u2
          ∧ (s.cus ++ ((d.units ao).take (j + 1)).map (yieldedUnit s.next_dbg so))[
              s.cus.length + i]? = some (yieldedUnit s.next_dbg so u2) := by
        intro i hi
        have hil : i < (d.units ao).length := by omega
        have hu : (d.units ao)[i]? = some ((d.units ao)[i]) := List.getElem?_eq_getElem hil
        refine ⟨_, hu, ?_⟩
        apply getElem?_yielded
        rw [List.getElem?_take_of_lt hi]
        exact hu
      refine ⟨s3, j + 1, hrun, hjl, ?_, ?_, ?_, ?_⟩
      · rcases hcs with ⟨hcs, _⟩ | hcs
        · rw [hcs, List.length_append, List.length_map, hlen]
        · rw [hcs, linkedCus_length, List.length_append, List.length_map, hlen]
      · intro i hi
        obtain ⟨u2, hu2, hx⟩ := hget i hi
        rcases hcs with ⟨hcs, _⟩ | hcs
        · refine ⟨u2, yieldedUnit s.next_dbg so u2, hu2, ?_, rfl, rfl, rfl, rfl⟩
          rw [hcs]; exact hx
        · obtain ⟨y, hy, h1, h2, h3, h4⟩ := getElem?_linked_fields _ cu (s.cus.length + j)
            _ _ hx
          refine ⟨u2, y, hu2, ?_, h1, h2, h3, h4⟩
          rw [hcs]; exact hy
      · intro i v hi hv
        exact hbefore i v (by omega) hv
      · intro _
        exact ⟨j, u, rfl, hj, hp⟩
  · intro hn
    unfold candidateOffsets
    rw [hn]
  · intro b hb hl
    exact candidateOffsets_of_nomatch k fuel cu d _ c b hcB hb hl
  · intro b n ver columns units hb hv hco hu hs hread hempty habs hfuel
    have hslots : 2 ^ n < W32 := rd32_lt hs
    have hT : ∀ h, h < 2 ^ n → hts b h = some ((hts b h).getD 0) := by
      intro h hh
      have := hread h hh
      cases hx : hts b h with
      | none => rw [hx] at this; cases this
      | some v => rfl
    obtain ⟨e, he, hte⟩ := hempty
    obtain ⟨m, _, _, _, hrun⟩ := probeLoop_finds b n c.unit_id8 (fun h => (hts b h).getD 0)
      hslots hT ⟨e, he, by left; simp [hte]⟩
    exact hnone b ver columns units (2 ^ n) _ hb hv hco hu hs (Nat.two_pow_pos n) habs
      (hrun fuel hfuel)

/-- Witness of C17: the package file of `envSib`, tried for the skeleton of `sEx`, is
iterated from the abbreviation offset 21 with the string-offset base 31 of the row of the
signature; the split file, which has no index, from 0 with the base 0. -/
theorem C17_witness :
    (try_split_file envSib kEx 8 0 pkgPath sEx =
      (candidateOffsets kEx 8 0 pkgFile (begunState sEx pkgPath)).bind fun offs =>
      (unitLoop envSib kEx 0 sEx.next_dbg offs.2 (pkgFile.units offs.1)
        (begunState sEx pkgPath)).bind fun s3 =>
      (s3.readCU 0).bind fun c3 =>
      Run.ok (finishCandidate s3 c3 sEx.next_dbg sEx.next_fd))
    ∧ candidateOffsets kEx 8 0 pkgFile (begunState sEx pkgPath) = Run.ok (21, 31)
    ∧ candidateOffsets kEx 8 0 dwoFile (begunState sEx sibPath) = Run.ok (0, 0) :=
  ⟨(C17_units_iterated_with_decoded_offsets envSib kEx 8 0 pkgPath sEx cuSkelEx pkgFile
      (by decide) rfl rfl).1, by decide,
    (C17_units_iterated_with_decoded_offsets envSib kEx 8 0 sibPath sEx cuSkelEx dwoFile
      (by decide) rfl rfl).2.2.1 rfl⟩

/-! ## Accesses of the lookup on a well-formed index -/

theorem rd8_of_lt (b : Buf) (off : Nat) (h : off < b.length) : ∃ v, rd8 b off = some v := by
  unfold rd8
  rw [List.get?_eq_getElem?, List.getElem?_eq_getElem h]
  exact ⟨_, rfl⟩

theorem rd32_of_le (b : Buf) (off : Nat) (h : off + 4 ≤ b.length) :
    ∃ v, rd32 b off = some v := by
  obtain ⟨v0, h0⟩ := rd8_of_lt b off (by omega)
  obtain ⟨v1, h1⟩ := rd8_of_lt b (off + 1) (by omega)
  obtain ⟨v2, h2⟩ := rd8_of_lt b (off + 2) (by omega)
  obtain ⟨v3, h3⟩ := rd8_of_lt b (off + 3) (by omega)
  unfold rd32
  rw [h0, h1, h2, h3]
  exact ⟨_, rfl⟩

theorem rd64_of_le (b : Buf) (off : Nat) (h : off + 8 ≤ b.length) :
    ∃ v, rd64 b off = some v := by
  obtain ⟨v0, h0⟩ := rd32_of_le b off (by omega)
  obtain ⟨v1, h1⟩ := rd32_of_le b (off + 4) (by omega)
  unfold rd64
  rw [h0, h1]
  exact ⟨_, rfl⟩

theorem rowIndexOf_pos (p : Nat) (h1 : 1 ≤ p) (h2 : p < W32) : rowIndexOf p = p - 1 := by
  unfold rowIndexOf
  have : p + W32 - 1 = (p - 1) + W32 := by omega
  rw [this, Nat.add_mod_right, Nat.mod_eq_of_lt (by omega)]

/-- C18, for a buffer shorter than `2 ^ 32` bytes: on a well-formed index and for a
non-zero signature no product of the lookup wraps and every access is in range.  The probe
positions are below `slots` and the slots inside the buffer; the loop stops within `slots`
probes; when the slot reached holds the signature, the row-index entry is read from the
row-index array and is in `1..units`, every tag written to is below 9 (the mapping is
filled without a fault) and a mapped column is below `columns`, and for every column the
reads of the offsets row and of the sizes row lie inside their tables and inside the
buffer.  The lookup returns. -/
theorem C18_accesses_in_range_below_4GiB (k : Consts) (b : Buf) (id columns units slots : Nat)
    (hwf : WellFormedIndex b columns units slots) (hlen : b.length < W32) (hid : id ≠ 0) :
    (tsoBase slots = 16 + 12 * slots ∧ ∀ h, pti b slots h = rd32 b (16 + 8 * slots + 4 * h))
    ∧ (∀ j, probeSeq slots id j < slots)
    ∧ (∀ h, h < slots → (hts b h).isSome)
    ∧ ∃ h, h < slots
        ∧ (∀ fuel, slots ≤ fuel → probeLoop b slots id fuel (hashStart slots id) = Run.ok h)
        ∧ (hts b h = some 0 ∨ hts b h = some id)
        ∧ (hts b h = some id →
            ∃ p m, pti b slots h = some p ∧ 1 ≤ p ∧ p ≤ units
              ∧ rowIndexOf p = p - 1
              ∧ columns * (rowIndexOf p + 1) < W32 ∧ columns * rowIndexOf p < W32
              ∧ fillMapping b (tsoBase slots) columns 0 secMappingInit = Run.ok m
              ∧ (∀ K, K < 9 → m.getD K 0 ≠ UINT32_MAX → m.getD K 0 < columns)
              ∧ ∀ c, c < columns →
                  offsetsRowBase columns slots (rowIndexOf p) + 4 * c
                      = 16 + 12 * slots + 4 * (columns * p + c)
                  ∧ columns ≤ columns * p + c
                  ∧ columns * p + c < columns * (units + 1)
                  ∧ (rd32 b (offsetsRowBase columns slots (rowIndexOf p) + 4 * c)).isSome
                  ∧ sizesRowBase columns units slots (rowIndexOf p) + 4 * c
                      = 16 + 12 * slots + 4 * (columns * (units + 1) + (columns * (p - 1) + c))
                  ∧ columns * (p - 1) + c < columns * units
                  ∧ (rd32 b (sizesRowBase columns units slots (rowIndexOf p) + 4 * c)).isSome)
        ∧ ∀ fuel, slots ≤ fuel → ∃ r, lookupIndex k b id fuel = Run.ok r := by
  obtain ⟨hc, hu, hs, ⟨n, hn⟩, hempty, hL, htags, hrows⟩ := hwf
  subst hn
  have hW : W32 = 4294967296 := rfl
  have hpos : 0 < 2 ^ n := Nat.two_pow_pos n
  have hslots : 2 ^ n < W32 := rd32_lt hs
  have hcol : columns < W32 := rd32_lt hc
  have hA : 4 * columns * (2 * units + 1) = 8 * (columns * units) + 4 * columns := by ring
  rw [hA] at hL
  have h8 : (8 * 2 ^ n) % W32 = 8 * 2 ^ n := Nat.mod_eq_of_lt (by omega)
  have h12 : (12 * 2 ^ n) % W32 = 12 * 2 ^ n := Nat.mod_eq_of_lt (by omega)
  have htso : tsoBase (2 ^ n) = 16 + 12 * 2 ^ n := by unfold tsoBase; rw [h12]
  have hpti : ∀ h, pti b (2 ^ n) h = rd32 b (16 + 8 * 2 ^ n + 4 * h) := by
    intro h; unfold pti; rw [h8]
  have hread : ∀ h, h < 2 ^ n → (hts b h).isSome := by
    intro h hh
    obtain ⟨v, hv⟩ := rd64_of_le b (16 + 8 * h) (by omega)
    unfold hts
    rw [hv]; rfl
  have hT : ∀ h, h < 2 ^ n → hts b h = some ((hts b h).getD 0) := by
    intro h hh
    have := hread h hh
    cases hx : hts b h with
    | none => rw [hx] at this; cases this
    | some v => rfl
  obtain ⟨e, he, hte⟩ := hempty
  obtain ⟨m, _, hhit, _, hrun⟩ := probeLoop_finds b n id (fun h => (hts b h).getD 0)
    hslots hT ⟨e, he, by left; simp [hte]⟩
  have hlt := pathPos_lt n id m
  have hval : hts b (pathPos (2 ^ n) id m) = some 0 ∨ hts b (pathPos (2 ^ n) id m) = some id := by
    rw [hT _ hlt]
    rcases hhit with h | h
    · left; exact congrArg some h
    · right; exact congrArg some h
  have htags2 : ∀ i, i < columns → ∃ t, rd32 b (tsoBase (2 ^ n) + 4 * i) = some t ∧ t < 9 := by
    intro i hi; rw [htso]; exact htags i hi
  obtain ⟨mp, hmp, hmcols⟩ := fillMapping_columns b (2 ^ n) columns hcol htags2
  obtain ⟨ver, hv⟩ := rd32_of_le b 0 (by omega)
  -- the facts of a slot that holds the signature
  have hfound : hts b (pathPos (2 ^ n) id m) = some id →
      ∃ q, pti b (2 ^ n) (pathPos (2 ^ n) id m) = some (q + 1) ∧ q + 1 ≤ units
        ∧ rowIndexOf (q + 1) = q
        ∧ ∀ c, c < columns →
            offsetsRowBase columns (2 ^ n) q + 4 * c
                = 16 + 12 * 2 ^ n + 4 * (columns * (q + 1) + c)
            ∧ columns * (q + 1) + c < columns * (units + 1)
            ∧ (rd32 b (offsetsRowBase columns (2 ^ n) q + 4 * c)).isSome
            ∧ sizesRowBase columns units (2 ^ n) q + 4 * c
                = 16 + 12 * 2 ^ n + 4 * (columns * (units + 1) + (columns * q + c))
            ∧ columns * q + c < columns * units
            ∧ (rd32 b (sizesRowBase columns units (2 ^ n) q + 4 * c)).isSome := by
    intro hh
    have hne : hts b (pathPos (2 ^ n) id m) ≠ some 0 := by
      rw [hh]; intro h0; injection h0 with h0; exact hid h0
    obtain ⟨p, hp, hp1, hpu⟩ := hrows _ hlt hne
    obtain ⟨q, rfl⟩ : ∃ q, p = q + 1 := ⟨p - 1, by omega⟩
    have hpW : q + 1 < W32 := rd32_lt hp
    have hrow : rowIndexOf (q + 1) = q := by
      rw [rowIndexOf_pos (q + 1) (by omega) hpW]; rfl
    refine ⟨q, by rw [hpti]; exact hp, hpu, hrow, ?_⟩
    intro c hcc
    have hB : columns * (q + 1) ≤ columns * units := Nat.mul_le_mul_left _ hpu
    have hB2 : columns * (q + 1) = columns * q + columns := Nat.mul_succ _ _
    have hU : columns * (units + 1) = columns * units + columns := Nat.mul_succ _ _
    have hu1 : units ≤ columns * units := Nat.le_mul_of_pos_left _ (by omega)
    have e1 : (q + 1) % W32 = q + 1 := Nat.mod_eq_of_lt hpW
    have e2 : (columns * (q + 1)) % W32 = columns * (q + 1) := Nat.mod_eq_of_lt (by omega)
    have e3 : (units + 1) % W32 = units + 1 := Nat.mod_eq_of_lt (by omega)
    have e4 : ((units + 1) * columns) % W32 = columns * (units + 1) := by
      rw [Nat.mul_comm]; exact Nat.mod_eq_of_lt (by omega)
    have e5 : (columns * q) % W32 = columns * q := Nat.mod_eq_of_lt (by omega)
    have o1 : offsetsRowBase columns (2 ^ n) q + 4 * c
        = 16 + 12 * 2 ^ n + 4 * (columns * (q + 1) + c) := by
      unfold offsetsRowBase
      rw [e1, e2, htso]; omega
    have o2 : sizesRowBase columns units (2 ^ n) q + 4 * c
        = 16 + 12 * 2 ^ n + 4 * (columns * (units + 1) + (columns * q + c)) := by
      unfold sizesRowBase
      rw [e3, e4, e5, htso]; omega
    refine ⟨o1, by omega, ?_, o2, by omega, ?_⟩
    · obtain ⟨v, hv⟩ := rd32_of_le b (offsetsRowBase columns (2 ^ n) q + 4 * c)
        (by rw [o1]; omega)
      rw [hv]; rfl
    · obtain ⟨v, hv⟩ := rd32_of_le b (sizesRowBase columns units (2 ^ n) q + 4 * c)
        (by rw [o2]; omega)
      rw [hv]; rfl
  have hmapped : ∀ K, K < 9 → mp.getD K 0 ≠ UINT32_MAX → mp.getD K 0 < columns := by
    intro K hK hne
    rcases hmcols K hK with ⟨i, hi, hmi, _⟩ | ⟨_, hmax⟩
    · rw [hmi]; exact hi.1
    · exact absurd hmax hne
  refine ⟨⟨htso, hpti⟩, ?_, hread, pathPos (2 ^ n) id m, hlt, hrun, hval, ?_, ?_⟩
  · intro j
    rw [probeSeq_eq_pathPos n id hslots j]
    exact pathPos_lt n id j
  · intro hh
    obtain ⟨q, hq, hqu, hrow, hall⟩ := hfound hh
    have hB : columns * (q + 1) ≤ columns * units := Nat.mul_le_mul_left _ hqu
    have hB2 : columns * (q + 1) = columns * q + columns := Nat.mul_succ _ _
    refine ⟨q + 1, mp, hq, by omega, hqu, by rw [hrow]; rfl, by rw [hrow]; omega,
      by rw [hrow]; omega, hmp, hmapped, ?_⟩
    intro c hcc
    obtain ⟨o1, o1b, o1r, o2, o2b, o2r⟩ := hall c hcc
    rw [hrow]
    exact ⟨o1, by omega, o1b, o1r, o2, o2b, o2r⟩
  · intro fuel hfuel
    have hp := hrun fuel hfuel
    rcases hval with h0 | hh
    · refine ⟨none, ?_⟩
      rw [lookupIndex_of_probe k b id fuel ver columns units (2 ^ n) _ 0 hv hc hu hs hp h0,
        if_neg (fun h => hid h.symm)]
    · obtain ⟨q, hq, hqu, hrow, hall⟩ := hfound hh
      have hlook : lookupIndex k b id fuel
          = decodeRow k b columns units (2 ^ n) (pathPos (2 ^ n) id m) := by
        rw [lookupIndex_of_probe k b id fuel ver columns units (2 ^ n) _ id hv hc hu hs hp hh,
          if_pos rfl]
      have hsome : ∀ {o : Option Nat}, o.isSome → ∃ v, o = some v := by
        intro o ho
        cases o with
        | none => cases ho
        | some v => exact ⟨v, rfl⟩
      rw [hlook]
      by_cases hmiss : (¬ hasColumn b (2 ^ n) columns k.DW_SECT_INFO.val
          ∨ ¬ hasColumn b (2 ^ n) columns k.DW_SECT_ABBREV.val
          ∨ ¬ hasColumn b (2 ^ n) columns k.DW_SECT_STR_OFFSETS.val)
      · exact ⟨none, decodeRow_unmapped k b columns units (2 ^ n) _ (q + 1) hcol hq htags2
          hmiss⟩
      · push_neg at hmiss
        obtain ⟨ci, hci⟩ := hasColumn_mapped b (2 ^ n) columns _ hmiss.1
        obtain ⟨ca, hca⟩ := hasColumn_mapped b (2 ^ n) columns _ hmiss.2.1
        obtain ⟨cs, hcs⟩ := hasColumn_mapped b (2 ^ n) columns _ hmiss.2.2
        obtain ⟨ei, hei⟩ := hsome (hall ci hci.1).2.2.1
        obtain ⟨ea, hea⟩ := hsome (hall ca hca.1).2.2.1
        obtain ⟨es, hes⟩ := hsome (hall cs hcs.1).2.2.1
        obtain ⟨si, hsi⟩ := hsome (hall ci hci.1).2.2.2.2.2
        obtain ⟨sa, hsa⟩ := hsome (hall ca hca.1).2.2.2.2.2
        rw [← hrow] at hei hea hes hsi hsa
        exact ⟨some ⟨ei, ea, es⟩, decodeRow_mapped k b columns units (2 ^ n) _ (q + 1)
          ci ca cs ei ea es si sa hcol hq htags2 hci hca hcs hei hea hes hsi hsa⟩

/-! ## An index of more than `2 ^ 32` bytes -/

theorem rd8_append_left (a c : Buf) (off : Nat) (h : off < a.length) :
    rd8 (a ++ c) off = rd8 a off := by
  unfold rd8
  rw [List.get?_eq_getElem?, List.get?_eq_getElem?, List.getElem?_append_left h]

theorem rd8_append_right (a c : Buf) (off n : Nat) (hn : a.length = n) (h : n ≤ off) :
    rd8 (a ++ c) off = rd8 c (off - n) := by
  unfold rd8
  rw [List.get?_eq_getElem?, List.get?_eq_getElem?, List.getElem?_append_right (by omega), hn]

theorem rd8_replicate_zero (n off : Nat) (h : off < n) :
    rd8 (List.replicate n 0) off = some 0 := by
  unfold rd8
  rw [List.get?_eq_getElem?, List.getElem?_replicate, if_pos h]

theorem rd32_append_left (a c : Buf) (off : Nat) (h : off + 4 ≤ a.length) :
    rd32 (a ++ c) off = rd32 a off := by
  unfold rd32
  rw [rd8_append_left a c off (by omega), rd8_append_left a c (off + 1) (by omega),
    rd8_append_left a c (off + 2) (by omega), rd8_append_left a c (off + 3) (by omega)]

theorem rd32_append_right (a c : Buf) (off n : Nat) (hn : a.length = n) (h : n ≤ off) :
    rd32 (a ++ c) off = rd32 c (off - n) := by
  have e1 : off + 1 - n = off - n + 1 := by omega
  have e2 : off + 2 - n = off - n + 2 := by omega
  have e3 : off + 3 - n = off - n + 3 := by omega
  unfold rd32
  rw [rd8_append_right a c off n hn h, rd8_append_right a c (off + 1) n hn (by omega),
    rd8_append_right a c (off + 2) n hn (by omega),
    rd8_append_right a c (off + 3) n hn (by omega), e1, e2, e3]

theorem rd32_replicate_zero (n off : Nat) (h : off + 4 ≤ n) :
    rd32 (List.replicate n 0) off = some 0 := by
  unfold rd32
  rw [rd8_replicate_zero n off (by omega), rd8_replicate_zero n (off + 1) (by omega),
    rd8_replicate_zero n (off + 2) (by omega), rd8_replicate_zero n (off + 3) (by omega)]

theorem rd64_append_left (a c : Buf) (off : Nat) (h : off + 8 ≤ a.length) :
    rd64 (a ++ c) off = rd64 a off := by
  unfold rd64
  rw [rd32_append_left a c off (by omega), rd32_append_left a c (off + 4) (by omega)]

theorem rd64_append_right (a c : Buf) (off n : Nat) (hn : a.length = n) (h : n ≤ off) :
    rd64 (a ++ c) off = rd64 c (off - n) := by
  have e1 : off + 4 - n = off - n + 4 := by omega
  unfold rd64
  rw [rd32_append_right a c off n hn h, rd32_append_right a c (off + 4) n hn (by omega), e1]

theorem rd64_replicate_zero (n off : Nat) (h : off + 8 ≤ n) :
    rd64 (List.replicate n 0) off = some 0 := by
  unfold rd64
  rw [rd32_replicate_zero n off (by omega), rd32_replicate_zero n (off + 4) (by omega)]
  rfl

theorem giantHead_length : giantHead.length = 16 := by decide

theorem giantTable_length : giantTable.length = 4294967296 := by
  unfold giantTable
  rw [List.length_append, List.length_replicate]
  rfl

theorem giantRows_length : giantRows.length = 2147483648 := by
  unfold giantRows
  rw [List.length_append, List.length_replicate]
  rfl

theorem giantFront_length : (giantHead ++ giantTable).length = 4294967312 := by
  rw [List.length_append, giantHead_length, giantTable_length]

theorem bufGiant_length : bufGiant.length = 6442450960 := by
  unfold bufGiant
  rw [List.length_append, giantFront_length, giantRows_length]

/-- A read in the header of `bufGiant`. -/
theorem bufGiant_head (off : Nat) (h : off + 4 ≤ 16) :
    rd32 bufGiant off = rd32 giantHead off := by
  unfold bufGiant
  rw [rd32_append_left _ _ off (by rw [giantFront_length]; omega),
    rd32_append_left _ _ off (by rw [giantHead_length]; omega)]

/-- A slot of `bufGiant`. -/
theorem bufGiant_slot (h : Nat) (hh : h < 536870912) :
    hts bufGiant h = rd64 giantTable (8 * h) := by
  unfold hts bufGiant
  rw [rd64_append_left _ _ _ (by rw [giantFront_length]; omega),
    rd64_append_right _ _ _ 16 giantHead_length (by omega)]
  congr 1
  omega

theorem bufGiant_slot_zero : hts bufGiant 0 = some 536870912 := by
  rw [bufGiant_slot 0 (by decide)]
  unfold giantTable
  rw [rd64_append_left _ _ _ (by decide)]
  decide

theorem bufGiant_slot_empty (h : Nat) (h1 : 1 ≤ h) (hh : h < 536870912) :
    hts bufGiant h = some 0 := by
  rw [bufGiant_slot h hh]
  unfold giantTable
  rw [rd64_append_right _ _ _ 8 (by decide) (by omega)]
  exact rd64_replicate_zero _ _ (by omega)

/-- The entry of slot 0 in the row-index array of `bufGiant`, at byte `16 + 8 * slots`. -/
theorem bufGiant_row_zero : rd32 bufGiant (16 + 8 * 536870912 + 4 * 0) = some 1 := by
  unfold bufGiant
  rw [rd32_append_right _ _ _ 4294967312 giantFront_length (by omega)]
  unfold giantRows
  rw [rd32_append_left _ _ _ (by decide)]
  decide

theorem bufGiant_first_word : rd32 bufGiant 16 = some 536870912 := by
  unfold bufGiant
  rw [rd32_append_left _ _ _ (by rw [giantFront_length]; omega),
    rd32_append_right _ _ _ 16 giantHead_length (by omega)]
  unfold giantTable
  rw [rd32_append_left _ _ _ (by decide)]
  decide

/-- C18, counterexample: `bufGiant` is well formed in the listed sense, with `2 ^ 29`
slots, and the signature `2 ^ 29` is found at slot 0 by the first probe.  The product
`8 * slots` is 0 in `uint32_t`, so `pti[0]` is read at byte 16, in the slot array, and not
at byte `16 + 8 * slots` of the row-index array; the value read, `2 ^ 29`, is not the entry
1 of the row-index array and is outside `1..units`.  Likewise `tso` is not at byte
`16 + 12 * slots`. -/
theorem C18_counterexample_slot_count_wraps :
    WellFormedIndex bufGiant 0 1 536870912
      ∧ (536870912 : Nat) ≠ 0
      ∧ probeLoop bufGiant 536870912 536870912 1 (hashStart 536870912 536870912) = Run.ok 0
      ∧ hts bufGiant 0 = some 536870912
      ∧ pti bufGiant 536870912 0 = rd32 bufGiant 16
      ∧ pti bufGiant 536870912 0 = some 536870912
      ∧ rd32 bufGiant (16 + 8 * 536870912 + 4 * 0) = some 1
      ∧ tsoBase 536870912 = 16 + 2147483648 := by
  have hstart : hashStart 536870912 536870912 = 0 := by decide
  have hpti : pti bufGiant 536870912 0 = rd32 bufGiant 16 := by
    unfold pti
    have : 16 + 8 * 536870912 % W32 + 4 * 0 = 16 := by decide
    rw [this]
  refine ⟨⟨?_, ?_, ?_, ⟨29, by norm_num⟩, ⟨1, by decide, bufGiant_slot_empty 1 (by decide)
      (by decide)⟩, ?_, ?_, ?_⟩, by decide, ?_, bufGiant_slot_zero, hpti, ?_, bufGiant_row_zero,
    by decide⟩
  · rw [bufGiant_head 4 (by decide)]; decide
  · rw [bufGiant_head 8 (by decide)]; decide
  · rw [bufGiant_head 12 (by decide)]; decide
  · rw [bufGiant_length]
  · intro i hi
    exact absurd hi (Nat.not_lt_zero i)
  · intro h hh hne
    by_cases h0 : h = 0
    · subst h0
      exact ⟨1, bufGiant_row_zero, by decide, by decide⟩
    · exact absurd (bufGiant_slot_empty h (by omega) hh) hne
  · rw [hstart]
    unfold probeLoop
    rw [bufGiant_slot_zero]
    simp
  · rw [hpti]; exact bufGiant_first_word

set_option maxRecDepth 10000 in
/-- Witness of C18: the index `bufPkg` (216 bytes) and the signature 41394. -/
theorem C18_witness :
    WellFormedIndex bufPkg 3 3 8 ∧ bufPkg.length < W32
      ∧ (tsoBase 8 = 16 + 12 * 8 ∧ ∀ h, pti bufPkg 8 h = rd32 bufPkg (16 + 8 * 8 + 4 * h))
      ∧ (∀ j, probeSeq 8 41394 j < 8)
      ∧ ∀ fuel, 8 ≤ fuel → ∃ r, lookupIndex kEx bufPkg 41394 fuel = Run.ok r :=
  have hwf : WellFormedIndex bufPkg 3 3 8 :=
    ⟨by decide, by decide, by decide, ⟨3, by decide⟩, ⟨0, by decide, by decide⟩, by decide,
      (by
        intro i hi
        have hcases : i = 0 ∨ i = 1 ∨ i = 2 := by omega
        rcases hcases with rfl | rfl | rfl
        · exact ⟨1, by decide, by decide⟩
        · exact ⟨3, by decide, by decide⟩
        · exact ⟨6, by decide, by decide⟩),
      (by
        intro h hh hne
        have hcases : h = 2 ∨ h = 3 ∨ h = 4 ∨ hts bufPkg h = some 0 := by
          interval_cases h <;> decide
        rcases hcases with rfl | rfl | rfl | h0
        · exact ⟨2, by decide, by decide, by decide⟩
        · exact ⟨1, by decide, by decide, by decide⟩
        · exact ⟨3, by decide, by decide, by decide⟩
        · exact absurd h0 hne)⟩
  ⟨hwf, by decide,
    (C18_accesses_in_range_below_4GiB kEx bufPkg 41394 3 3 8 hwf (by decide) (by decide)).1,
    (C18_accesses_in_range_below_4GiB kEx bufPkg 41394 3 3 8 hwf (by decide) (by decide)).2.1,
    (C18_accesses_in_range_below_4GiB kEx bufPkg 41394 3 3 8 hwf (by decide)
      (by decide)).2.2.2.elim fun _ hh => hh.2.2.2.2⟩

/-! ## A malformed index -/

set_option maxRecDepth 10000 in
/-- C16, the code at the failing inputs: the lookup of the signature 41394 reads the
tables without a check.  On `bufShort` the row-index entry `pti[2]` lies behind the end of
the buffer; on `bufTag9` the third column tag is 9 and `sec_mapping[9]` is written; on
`bufBadRow` the row-index entry is 7 with 3 units and the offsets row lies behind the end
of the buffer.  None of the three is treated as "not found". -/
theorem C16_malformed_index_is_not_rejected :
    (hts bufShort 2 = some 41394 ∧ pti bufShort 8 2 = none
      ∧ indexOffsets kEx (some bufShort) 41394 8 = Run.fault)
    ∧ (rd32 bufTag9 (tsoBase 8 + 4 * 2) = some 9
      ∧ fillMapping bufTag9 (tsoBase 8) 3 0 secMappingInit = Run.fault
      ∧ indexOffsets kEx (some bufTag9) 41394 8 = Run.fault)
    ∧ (pti bufBadRow 8 2 = some 7 ∧ rd32 bufBadRow 8 = some 3
      ∧ bufBadRow.length ≤ offsetsRowBase 3 8 (rowIndexOf 7)
      ∧ indexOffsets kEx (some bufBadRow) 41394 8 = Run.fault) := by
  decide

/-! ## The container of a second resolution -/

/-- The call of `tsearch` when it does not return `NULL`: an equal key is in the tree, or
a node can be allocated. -/
theorem tsearch_ok (env : Env) (owner key : Nat) (s : State)
    (hins : (∃ e, e ∈ s.split_tree ∧ e.1 = owner ∧ env.sameDbg e.2 key = true)
      ∨ env.allocOk s.trace.length = true) :
    tsearch env owner key s =
      (true, ({ s with split_tree :=
          if (s.split_tree.any fun e => decide (e.1 = owner) && env.sameDbg e.2 key)
          then s.split_tree else s.split_tree ++ [(owner, key)] }).log
        (Event.treeSearch key true)) := by
  unfold tsearch
  by_cases h1 : (s.split_tree.any fun e => decide (e.1 = owner) && env.sameDbg e.2 key) = true
  · rw [if_pos h1, if_pos h1]
  · rw [if_neg h1, if_neg h1]
    have halloc : env.allocOk s.trace.length = true := by
      rcases hins with ⟨e, he, h2, h3⟩ | h
      · exfalso
        apply h1
        rw [List.any_eq_true]
        exact ⟨e, he, by simp [h2, h3]⟩
      · exact h
    rw [if_pos halloc]

/-- With keys compared by identity a handle younger than every key of the tree has no equal
in it. -/
theorem any_equal_fresh (env : Env) (owner key : Nat) (tree : List (Nat × Nat))
    (hid : ∀ a b, env.sameDbg a b = (a == b)) (hfresh : ∀ e, e ∈ tree → e.2 < key) :
    (tree.any fun e => decide (e.1 = owner) && env.sameDbg e.2 key) = false := by
  rw [List.any_eq_false]
  intro e he
  have hlt := hfresh e he
  have hne : (e.2 == key) = false := by
    rw [beq_eq_false_iff_ne]
    omega
  rw [hid, hne, Bool.and_false]
  simp

/-- C14, the code at the failing input: the two skeletons of `sTwo` are resolved one after
the other into the same package file, with handles compared by identity.  The first
resolution leaves the state `sTwoFirst` with the handle 1 in the tree.  After the second
the tree holds two handles for the file, 1 and 2; the second skeleton (address 1) is linked
to the unit at address 3, a unit of the container 2 opened by the second resolution; both
containers were begun and none was ended. -/
theorem C14_counterexample_second_handle_registered :
    ((find_split_unit envOnePkg kEx 8 0 sTwo).bind fun r1 => Run.ok r1.2) = Run.ok sTwoFirst
    ∧ ((find_split_unit envOnePkg kEx 8 0 sTwo).bind fun r1 =>
      (find_split_unit envOnePkg kEx 8 1 r1.2).bind fun r2 =>
        Run.ok (r1.1, r2.1, r2.2.split_tree))
      = Run.ok (SplitLink.unit 2, SplitLink.unit 3, [(0, 1), (0, 2)])
    ∧ ((find_split_unit envOnePkg kEx 8 0 sTwo).bind fun r1 =>
      (find_split_unit envOnePkg kEx 8 1 r1.2).bind fun r2 =>
        Run.ok ((r2.2.cus.get? 3).map CU.dbg, begunDbgs r2.2.trace, endedDbgs r2.2.trace))
      = Run.ok (some 2, [1, 2], []) :=
  ⟨by decide, by decide, by decide⟩

/-- C14, as the code has it: when `tsearch` does not return `NULL` for the first unit of a
candidate that passes the test, the skeleton is linked to that unit, a unit of the container
just opened, and the container is not ended; the tree is left as it is when it holds an
equal key and gets the handle of the new container as a further key otherwise.  With keys
compared by identity and every key of the tree older than the new handle, the new handle is
added: a second resolution into a file registers a second handle for it. -/
theorem C14_new_container_is_registered_and_linked (env : Env) (k : Consts) (fuel cu : Nat)
    (path : String) (s : State) (c : CU) (d : Container) (ao so j : Nat) (u : UnitInfo)
    (hc : s.cus[cu]? = some c)
    (hopen : env.openFile s.trace.length path = true)
    (hbegin : env.dwarfBegin (openedState s path).trace.length path = some d)
    (hoffs : candidateOffsets k fuel cu d (begunState s path) = Run.ok (ao, so))
    (hj : (d.units ao)[j]? = some u) (hp : passes k c.unit_id8 u)
    (hbefore : ∀ i v, i < j → (d.units ao)[i]? = some v → ¬ passes k c.unit_id8 v)
    (hins : (∃ e, e ∈ s.split_tree ∧ e.1 = c.dbg ∧ env.sameDbg e.2 s.next_dbg = true)
      ∨ env.allocOk (s.trace.length + 2) = true) :
    ∃ s2, try_split_file env k fuel cu path s = Run.ok s2
      ∧ s2.split_tree =
          (if (s.split_tree.any fun e => decide (e.1 = c.dbg) && env.sameDbg e.2 s.next_dbg)
            then s.split_tree else s.split_tree ++ [(c.dbg, s.next_dbg)])
      ∧ ((∀ a b, env.sameDbg a b = (a == b)) → (∀ e, e ∈ s.split_tree → e.2 < s.next_dbg) →
          s2.split_tree = s.split_tree ++ [(c.dbg, s.next_dbg)])
      ∧ s2.errno_nomem = s.errno_nomem
      ∧ s2.cus = linkedCus
          (s.cus ++ ((d.units ao).take (j + 1)).map (yieldedUnit s.next_dbg so))
          cu (s.cus.length + j)
      ∧ s2.cus[cu]? = some { c with split := SplitLink.unit (s.cus.length + j) }
      ∧ s2.cus[s.cus.length + j]?
          = some { yieldedUnit s.next_dbg so u with split := SplitLink.unit cu }
      ∧ s2.trace = s.trace ++ [Event.openFile path (some s.next_fd),
          Event.dwarfBegin s.next_fd (some s.next_dbg),
          Event.treeSearch s.next_dbg true, Event.linkUnits cu (s.cus.length + j),
          Event.fdDone s.next_dbg, Event.closeFd s.next_fd]
      ∧ endedDbgs s2.trace = endedDbgs s.trace := by
  have hlt := lt_of_getElem?_some _ _ _ hc
  have hjl : j < (d.units ao).length := lt_of_getElem?_some _ _ _ hj
  have hcB : (begunState s path).cus[cu]? = some c := hc
  have hts := tsearch_ok env c.dbg s.next_dbg
    (yieldedState (begunState s path) s.next_dbg so ((d.units ao).take (j + 1)))
    (by
      rcases hins with h | h
      · exact Or.inl h
      · right
        show env.allocOk ((s.trace ++ [_]) ++ [_]).length = true
        simpa using h)
  have hloop := unitLoop_match env k cu s.next_dbg so (d.units ao) (begunState s path) c j u
    hcB hj hp hbefore
  rw [hts] at hloop
  simp only [if_true] at hloop
  have hX : (s.cus ++ ((d.units ao).take (j + 1)).map (yieldedUnit s.next_dbg so))[cu]?
      = some c := by
    rw [List.getElem?_append_left hlt]; exact hc
  have hY : (s.cus ++ ((d.units ao).take (j + 1)).map (yieldedUnit s.next_dbg so))[
      s.cus.length + j]? = some (yieldedUnit s.next_dbg so u) := by
    apply getElem?_yielded
    rw [List.getElem?_take_of_lt (Nat.lt_succ_self j)]
    exact hj
  have hne : cu ≠ s.cus.length + j := by omega
  have hcu : (linkedCus (s.cus ++ ((d.units ao).take (j + 1)).map (yieldedUnit s.next_dbg so))
      cu (s.cus.length + j))[cu]?
      = some { c with split := SplitLink.unit (s.cus.length + j) } := by
    rw [getElem?_linkedCus, hX]
    simp [hne.symm]
  have hsp : (linkedCus (s.cus ++ ((d.units ao).take (j + 1)).map (yieldedUnit s.next_dbg so))
      cu (s.cus.length + j))[s.cus.length + j]?
      = some { yieldedUnit s.next_dbg so u with split := SplitLink.unit cu } := by
    rw [getElem?_linkedCus, hY]
    simp [hne]
  rw [try_split_file_begun env k fuel cu path s d hopen hbegin, hoffs]
  simp only [Run.bind, hloop]
  rw [readCU_of_getElem? _ cu _ hcu]
  simp only [Run.bind]
  have hfin : ∀ X : State, finishCandidate X
      { c with split := SplitLink.unit (s.cus.length + j) } s.next_dbg s.next_fd
        = X.log (Event.closeFd s.next_fd) := by
    intro X
    unfold finishCandidate
    rw [if_neg (by simp)]
  rw [hfin]
  have htr : ((((((s.trace ++ [Event.openFile path (some s.next_fd)])
      ++ [Event.dwarfBegin s.next_fd (some s.next_dbg)])
      ++ [Event.treeSearch s.next_dbg true]) ++ [Event.linkUnits cu (s.cus.length + j)])
      ++ [Event.fdDone s.next_dbg]) ++ [Event.closeFd s.next_fd])
      = s.trace ++ [Event.openFile path (some s.next_fd),
          Event.dwarfBegin s.next_fd (some s.next_dbg),
          Event.treeSearch s.next_dbg true, Event.linkUnits cu (s.cus.length + j),
          Event.fdDone s.next_dbg, Event.closeFd s.next_fd] := by
    simp
  have hend : endedDbgs (s.trace ++ [Event.openFile path (some s.next_fd),
      Event.dwarfBegin s.next_fd (some s.next_dbg),
      Event.treeSearch s.next_dbg true, Event.linkUnits cu (s.cus.length + j),
      Event.fdDone s.next_dbg, Event.closeFd s.next_fd]) = endedDbgs s.trace := by
    unfold endedDbgs
    rw [List.filterMap_append]
    simp
  refine ⟨_, rfl, rfl, ?_, rfl, rfl, hcu, hsp, htr, (congrArg endedDbgs htr).trans hend⟩
  intro hid hfresh
  show (if (s.split_tree.any fun e => decide (e.1 = c.dbg) && env.sameDbg e.2 s.next_dbg)
      then s.split_tree else s.split_tree ++ [(c.dbg, s.next_dbg)]) = _
  rw [any_equal_fresh env c.dbg s.next_dbg s.split_tree hid hfresh]
  simp

/-- Witness of C14: the package file tried for the second skeleton of `sTwo` once the
first one has been resolved; the tree, which holds the handle 1, gets the handle 2. -/
theorem C14_witness :
    ∃ s2, try_split_file envOnePkg kEx 8 1 pkgPath sTwoFirst = Run.ok s2
      ∧ s2.split_tree = [(0, 1), (0, 2)]
      ∧ s2.cus[1]? = some { cuSecondEx with split := SplitLink.unit 3 }
      ∧ s2.cus[3]? = some { yieldedUnit 2 32 ⟨5, 10⟩ with split := SplitLink.unit 1 }
      ∧ endedDbgs s2.trace = endedDbgs sTwoFirst.trace :=
  match C14_new_container_is_registered_and_linked envOnePkg kEx 8 1 pkgPath sTwoFirst
      cuSecondEx pkgBoth 22 32 0 ⟨5, 10⟩ (by decide) rfl rfl (by decide) rfl
      ⟨by decide, by decide⟩ (fun i v hi => absurd hi (Nat.not_lt_zero i)) (Or.inr rfl) with
  | ⟨s2, h1, _, h3, _, _, h6, h7, _, h9⟩ =>
    ⟨s2, h1, h3 (fun _ _ => rfl) (by decide), h6, h7, h9⟩

/-! ## A search without a match: when it returns -/

/-- On a well-formed index of less than `2 ^ 32` bytes the lookup of a non-zero signature
returns, for every budget of at least `slots` probes. -/
theorem lookupIndex_total_of_wellFormed (k : Consts) (b : Buf)
    (id columns units slots fuel : Nat)
    (hwf : WellFormedIndex b columns units slots) (hlen : b.length < W32) (hid : id ≠ 0)
    (hfuel : slots ≤ fuel) :
    ∃ r, lookupIndex k b id fuel = Run.ok r := by
  obtain ⟨hc, hu, hs, ⟨n, hn⟩, hempty, hL, htags, hrows⟩ := hwf
  subst hn
  have hW : W32 = 4294967296 := rfl
  have hpos : 0 < 2 ^ n := Nat.two_pow_pos n
  have hslots : 2 ^ n < W32 := rd32_lt hs
  have hcol : columns < W32 := rd32_lt hc
  have hA : 4 * columns * (2 * units + 1) = 8 * (columns * units) + 4 * columns := by ring
  rw [hA] at hL
  have h8 : (8 * 2 ^ n) % W32 = 8 * 2 ^ n := Nat.mod_eq_of_lt (by omega)
  have h12 : (12 * 2 ^ n) % W32 = 12 * 2 ^ n := Nat.mod_eq_of_lt (by omega)
  have htso : tsoBase (2 ^ n) = 16 + 12 * 2 ^ n := by unfold tsoBase; rw [h12]
  have hpti : ∀ h, pti b (2 ^ n) h = rd32 b (16 + 8 * 2 ^ n + 4 * h) := by
    intro h; unfold pti; rw [h8]
  have hT : ∀ h, h < 2 ^ n → hts b h = some ((hts b h).getD 0) := by
    intro h hh
    obtain ⟨v, hv⟩ := rd64_of_le b (16 + 8 * h) (by omega)
    unfold hts
    rw [hv]; rfl
  obtain ⟨e, he, hte⟩ := hempty
  obtain ⟨m, _, hhit, _, hrun⟩ := probeLoop_finds b n id (fun h => (hts b h).getD 0)
    hslots hT ⟨e, he, by left; simp [hte]⟩
  have hlt := pathPos_lt n id m
  have hp := hrun fuel hfuel
  have htags2 : ∀ i, i < columns → ∃ t, rd32 b (tsoBase (2 ^ n) + 4 * i) = some t ∧ t < 9 := by
    intro i hi; rw [htso]; exact htags i hi
  obtain ⟨ver, hv⟩ := rd32_of_le b 0 (by omega)
  rcases hhit with h0 | hh
  · have h0s : hts b (pathPos (2 ^ n) id m) = some 0 := by
      rw [hT _ hlt]; exact congrArg some h0
    refine ⟨none, ?_⟩
    rw [lookupIndex_of_probe k b id fuel ver columns units (2 ^ n) _ 0 hv hc hu hs hp h0s,
      if_neg (fun h => hid h.symm)]
  · have hhs : hts b (pathPos (2 ^ n) id m) = some id := by
      rw [hT _ hlt]; exact congrArg some hh
    have hne : hts b (pathPos (2 ^ n) id m) ≠ some 0 := by
      rw [hhs]; intro h0; injection h0 with h0; exact hid h0
    obtain ⟨p, hpr, hp1, hpu⟩ := hrows _ hlt hne
    obtain ⟨q, rfl⟩ : ∃ q, p = q + 1 := ⟨p - 1, by omega⟩
    have hpW : q + 1 < W32 := rd32_lt hpr
    have hrow : rowIndexOf (q + 1) = q := by
      rw [rowIndexOf_pos (q + 1) (by omega) hpW]; rfl
    have hq : pti b (2 ^ n) (pathPos (2 ^ n) id m) = some (q + 1) := by rw [hpti]; exact hpr
    have hall : ∀ c, c < columns →
        (∃ v, rd32 b (offsetsRowBase columns (2 ^ n) (rowIndexOf (q + 1)) + 4 * c) = some v)
        ∧ ∃ v, rd32 b (sizesRowBase columns units (2 ^ n) (rowIndexOf (q + 1)) + 4 * c)
            = some v := by
      intro c hcc
      rw [hrow]
      have hB : columns * (q + 1) ≤ columns * units := Nat.mul_le_mul_left _ hpu
      have hB2 : columns * (q + 1) = columns * q + columns := Nat.mul_succ _ _
      have hU : columns * (units + 1) = columns * units + columns := Nat.mul_succ _ _
      have hu1 : units ≤ columns * units := Nat.le_mul_of_pos_left _ (by omega)
      have e1 : (q + 1) % W32 = q + 1 := Nat.mod_eq_of_lt hpW
      have e2 : (columns * (q + 1)) % W32 = columns * (q + 1) := Nat.mod_eq_of_lt (by omega)
      have e3 : (units + 1) % W32 = units + 1 := Nat.mod_eq_of_lt (by omega)
      have e4 : ((units + 1) * columns) % W32 = columns * (units + 1) := by
        rw [Nat.mul_comm]; exact Nat.mod_eq_of_lt (by omega)
      have e5 : (columns * q) % W32 = columns * q := Nat.mod_eq_of_lt (by omega)
      have o1 : offsetsRowBase columns (2 ^ n) q + 4 * c
          = 16 + 12 * 2 ^ n + 4 * (columns * (q + 1) + c) := by
        unfold offsetsRowBase
        rw [e1, e2, htso]; omega
      have o2 : sizesRowBase columns units (2 ^ n) q + 4 * c
          = 16 + 12 * 2 ^ n + 4 * (columns * (units + 1) + (columns * q + c)) := by
        unfold sizesRowBase
        rw [e3, e4, e5, htso]; omega
      exact ⟨rd32_of_le b _ (by rw [o1]; omega), rd32_of_le b _ (by rw [o2]; omega)⟩
    rw [lookupIndex_of_probe k b id fuel ver columns units (2 ^ n) _ id hv hc hu hs hp hhs,
      if_pos rfl]
    by_cases hmiss : (¬ hasColumn b (2 ^ n) columns k.DW_SECT_INFO.val
        ∨ ¬ hasColumn b (2 ^ n) columns k.DW_SECT_ABBREV.val
        ∨ ¬ hasColumn b (2 ^ n) columns k.DW_SECT_STR_OFFSETS.val)
    · exact ⟨none, decodeRow_unmapped k b columns units (2 ^ n) _ (q + 1) hcol hq htags2
        hmiss⟩
    · push_neg at hmiss
      obtain ⟨ci, hci⟩ := hasColumn_mapped b (2 ^ n) columns _ hmiss.1
      obtain ⟨ca, hca⟩ := hasColumn_mapped b (2 ^ n) columns _ hmiss.2.1
      obtain ⟨cs, hcs⟩ := hasColumn_mapped b (2 ^ n) columns _ hmiss.2.2
      obtain ⟨ei, hei⟩ := (hall ci hci.1).1
      obtain ⟨ea, hea⟩ := (hall ca hca.1).1
      obtain ⟨es, hes⟩ := (hall cs hcs.1).1
      obtain ⟨si, hsi⟩ := (hall ci hci.1).2
      obtain ⟨sa, hsa⟩ := (hall ca hca.1).2
      exact ⟨some ⟨ei, ea, es⟩, decodeRow_mapped k b columns units (2 ^ n) _ (q + 1)
        ci ca cs ei ea es si sa hcol hq htags2 hci hca hcs hei hea hes hsi hsa⟩

/-- C13: for an unresolved unit with a non-zero signature, in a context whose debug
directory is present and gives a pattern that fits the buffer `dwpglob`, when every package
index a candidate exposes is well formed and shorter than `2 ^ 32` bytes and no candidate
container holds a split-compile unit with the unit's signature, `__libdw_find_split_unit`
returns `NULL`, leaves the resolution state "resolved to none", sets no out-of-memory error,
leaves the search tree as it was, and every descriptor opened and every container begun
during the search has been released.  The probe budget is at least the slot count of every
index. -/
theorem C13_no_match_resolves_to_none_when_lookups_return (env : Env) (k : Consts)
    (fuel cu : Nat) (s : State) (c : CU) (dir : String)
    (hc : s.cus[cu]? = some c) (hun : c.split = SplitLink.untried)
    (hid : c.unit_id8 ≠ 0)
    (hd : env.debugdir c.dbg = some dir) (hdir : dir.utf8ByteSize + 6 ≤ k.PATH_MAX)
    (hwf : ∀ t p d b, env.dwarfBegin t p = some d → d.cu_index = some b →
      ∃ columns units slots, WellFormedIndex b columns units slots ∧ b.length < W32
        ∧ slots ≤ fuel)
    (hno : ∀ t p d ao u, env.dwarfBegin t p = some d → u ∈ d.units ao →
      ¬ passes k c.unit_id8 u) :
    ∃ s2, find_split_unit env k fuel cu s = Run.ok (SplitLink.null, s2)
      ∧ s2.cus[cu]? = some { c with split := SplitLink.null }
      ∧ s2.errno_nomem = s.errno_nomem
      ∧ s2.split_tree = s.split_tree
      ∧ Released s s2 := by
  apply find_split_unit_quiet env k fuel cu s c dir hc hun hd hdir ?_ hno
  intro t p d b hbegin hb
  obtain ⟨columns, units, slots, hw, hlen, hfuel⟩ := hwf t p d b hbegin hb
  obtain ⟨r, hr⟩ := lookupIndex_total_of_wellFormed k b c.unit_id8 columns units slots fuel
    hw hlen hid hfuel
  exact ⟨_, indexOffsets_of_lookup k b c.unit_id8 fuel r hr⟩

/-! ## A search without a match: when it does not return -/

theorem try_split_file_no_result (env : Env) (k : Consts) (fuel cu : Nat) (path : String)
    (s : State) (c : CU) (d : Container) (b : Buf) (hc : s.cus[cu]? = some c)
    (hopen : env.openFile s.trace.length path = true)
    (hbegin : env.dwarfBegin (openedState s path).trace.length path = some d)
    (hb : d.cu_index = some b)
    (ht : indexOffsets k (some b) c.unit_id8 fuel = Run.timeout) :
    try_split_file env k fuel cu path s = Run.timeout := by
  have hcB : (begunState s path).cus[cu]? = some c := hc
  rw [try_split_file_begun env k fuel cu path s d hopen hbegin]
  unfold candidateOffsets
  rw [hb]
  simp only [readCU_of_getElem? _ cu c hcB, Run.bind, ht]

theorem globSearch_no_result (env : Env) (k : Consts) (fuel cu : Nat) (dir p : String)
    (ps : List String) (s : State) (hdir : dir.utf8ByteSize + 6 ≤ k.PATH_MAX)
    (hg : env.glob s.trace.length (dir ++ "*.dwp") = some (p :: ps))
    (ht : try_split_file env k fuel cu p (s.log (Event.globRun (dir ++ "*.dwp")))
      = Run.timeout) :
    globSearch env k fuel cu (some dir) s = Run.timeout := by
  unfold globSearch
  simp only [if_pos hdir, hg, globLoop, ht, Run.bind]

theorem bufFull_lookup_never (fuel : Nat) :
    indexOffsets kEx (some bufFull) 7 fuel = Run.timeout := by
  have hnever : probeLoop bufFull 2 7 fuel (hashStart 2 7) = Run.timeout := by
    apply probeLoop_never bufFull 2 7 (by decide)
    · intro h hh
      have : h = 0 ∨ h = 1 := by omega
      rcases this with rfl | rfl
      · exact ⟨5, by decide, by decide, by decide⟩
      · exact ⟨9, by decide, by decide, by decide⟩
    · decide
  have hl := lookupIndex_of_probe_timeout kEx bufFull 7 fuel 2 0 2 2 (by decide) (by decide)
    (by decide) (by decide) hnever
  unfold indexOffsets
  simp only [hl, Run.bind]

/-- C13, counterexamples: three searches in which no candidate holds a split-compile unit
with the signature of the skeleton and which do not return `NULL`.  With the package file
`fullPkg`, whose table is full and does not hold the signature 7, the probe loop is never
left, whatever the probe budget.  With the signature 0 the lookup in the well-formed index
of `pkgFile` takes its found branch at the empty slot 0 and reads the sizes row far behind
the buffer.  With a context whose `debugdir` is `NULL` the pattern is copied from a null
pointer. -/
theorem C13_counterexample_search_does_not_return :
    ((∀ t p d ao, envFullPkg.dwarfBegin t p = some d → d.units ao = [])
      ∧ ∀ fuel, find_split_unit envFullPkg kEx fuel 0 sSeven = Run.timeout)
    ∧ ((∀ t p d ao u, envSib.dwarfBegin t p = some d → u ∈ d.units ao → ¬ passes kEx 0 u)
      ∧ find_split_unit envSib kEx 8 0 sZero = Run.fault)
    ∧ ((∀ t p d ao u, envNoDir.dwarfBegin t p = some d → u ∈ d.units ao → ¬ passes kEx 18 u)
      ∧ find_split_unit envNoDir kEx 8 0 sAbsent = Run.fault) := by
  have hsibUnits : ∀ (id : Nat), id ≠ 41394 → id ≠ 7 →
      ∀ (t : Nat) (p : String) (d : Container) (ao : Nat) (u : UnitInfo),
        (if p = sibPath then some dwoFile else if p = pkgPath then some pkgFile else none)
          = some d → u ∈ d.units ao → ¬ passes kEx id u := by
    intro id h1 h2 t p d ao u hd hu hp
    have hid : id = u.unit_id8 := hp.2
    split at hd
    · injection hd with hd
      subst hd
      have hu2 : u ∈ [(⟨5, 41394⟩ : UnitInfo)] := hu
      rw [List.mem_singleton] at hu2
      subst hu2
      exact h1 hid
    · split at hd
      · injection hd with hd
        subst hd
        have hu2 : u ∈ (if ao = 21 then
            [(⟨6, 41394⟩ : UnitInfo), ⟨5, 7⟩, ⟨5, 41394⟩, ⟨5, 41394⟩] else []) := hu
        split at hu2
        · simp only [List.mem_cons, List.mem_singleton, List.not_mem_nil, or_false] at hu2
          rcases hu2 with h | h | h | h <;> subst h
          · exact h1 hid
          · exact h2 hid
          · exact h1 hid
          · exact h1 hid
        · cases hu2
      · cases hd
  refine ⟨⟨?_, ?_⟩, ⟨hsibUnits 0 (by decide) (by decide), by decide⟩,
    ⟨hsibUnits 18 (by decide) (by decide), by decide⟩⟩
  · intro t p d ao hd
    have hd2 : (if p = pkgPath then some fullPkg else none) = some d := hd
    split at hd2
    · injection hd2 with hd2
      subst hd2
      rfl
    · cases hd2
  · intro fuel
    have hc : sSeven.cus[0]? = some cuSevenEx := by decide
    have hc0 : (afterNameLookup envFullPkg 0 sSeven).cus[0]? = some cuSevenEx := by decide
    have hsib := try_split_file_not_opened envFullPkg kEx fuel 0 sibPath
      ((afterNameLookup envFullPkg 0 sSeven).log
        (Event.filePath (envFullPkg.debugdir cuSevenEx.dbg) none dwoNameEx)) rfl
    have hglob := globSearch_no_result envFullPkg kEx fuel 0 debugDirEx pkgPath []
      (((afterNameLookup envFullPkg 0 sSeven).log
        (Event.filePath (envFullPkg.debugdir cuSevenEx.dbg) none dwoNameEx)).log
          (Event.openFile sibPath none))
      (by decide) (by decide)
      (try_split_file_no_result envFullPkg kEx fuel 0 pkgPath _ cuSevenEx fullPkg bufFull
        (by decide) rfl rfl rfl (bufFull_lookup_never fuel))
    unfold find_split_unit
    rw [readCU_of_getElem? sSeven 0 cuSevenEx hc]
    simp only [Run.bind]
    rw [if_neg (by decide), if_pos (by decide),
      searchSkeleton_named envFullPkg kEx fuel 0 sSeven dwoNameEx (Or.inl rfl),
      searchCandidates_sibling_unlinked envFullPkg kEx fuel 0 dwoNameEx sibPath _ _
        cuSevenEx cuSevenEx hc0 (by decide) hsib (by decide) rfl]
    have hglob2 : globSearch envFullPkg kEx fuel 0 (envFullPkg.debugdir cuSevenEx.dbg)
        (((afterNameLookup envFullPkg 0 sSeven).log
          (Event.filePath (envFullPkg.debugdir cuSevenEx.dbg) none dwoNameEx)).log
            (Event.openFile sibPath none)) = Run.timeout := hglob
    rw [hglob2]
    rfl

set_option maxRecDepth 10000 in
theorem bufPkg_wellFormed : WellFormedIndex bufPkg 3 3 8 ∧ bufPkg.length < W32 :=
  ⟨⟨by decide, by decide, by decide, ⟨3, by decide⟩, ⟨0, by decide, by decide⟩, by decide,
    (by
      intro i hi
      have hcases : i = 0 ∨ i = 1 ∨ i = 2 := by omega
      rcases hcases with rfl | rfl | rfl
      · exact ⟨1, by decide, by decide⟩
      · exact ⟨3, by decide, by decide⟩
      · exact ⟨6, by decide, by decide⟩),
    (by
      intro h hh hne
      have hcases : h = 2 ∨ h = 3 ∨ h = 4 ∨ hts bufPkg h = some 0 := by
        interval_cases h <;> decide
      rcases hcases with rfl | rfl | rfl | h0
      · exact ⟨2, by decide, by decide, by decide⟩
      · exact ⟨1, by decide, by decide, by decide⟩
      · exact ⟨3, by decide, by decide, by decide⟩
      · exact absurd h0 hne)⟩, by decide⟩

/-- Witness of C13: the skeleton with the signature 18 in `envSib`; the split file and
the package file hold other signatures only, the index of the package file is well formed
and does not hold 18, and the candidate below `comp_dir` does not exist. -/
theorem C13_witness :
    ∃ s2, find_split_unit envSib kEx 8 0 sAbsent = Run.ok (SplitLink.null, s2)
      ∧ s2.cus[0]? = some { cuAbsentEx with split := SplitLink.null }
      ∧ s2.errno_nomem = sAbsent.errno_nomem
      ∧ s2.split_tree = sAbsent.split_tree
      ∧ Released sAbsent s2 :=
  C13_no_match_resolves_to_none_when_lookups_return envSib kEx 8 0 sAbsent cuAbsentEx
    debugDirEx (by decide) (by decide) (by decide) rfl (by decide)
    (by
      intro t p d b hd hb
      have hd2 : (if p = sibPath then some dwoFile
          else if p = pkgPath then some pkgFile else none) = some d := hd
      split at hd2
      · injection hd2 with hd2
        subst hd2
        cases hb
      · split at hd2
        · injection hd2 with hd2
          subst hd2
          have hb2 : some bufPkg = some b := hb
          injection hb2 with hb2
          subst hb2
          exact ⟨3, 3, 8, bufPkg_wellFormed.1, bufPkg_wellFormed.2, Nat.le_refl 8⟩
        · cases hd2)
    (by
      intro t p d ao u hd hu hp
      have hid : (18 : Nat) = u.unit_id8 := hp.2
      have hd2 : (if p = sibPath then some dwoFile
          else if p = pkgPath then some pkgFile else none) = some d := hd
      split at hd2
      · injection hd2 with hd2
        subst hd2
        have hu2 : u ∈ [(⟨5, 41394⟩ : UnitInfo)] := hu
        rw [List.mem_singleton] at hu2
        subst hu2
        exact absurd hid (by decide)
      · split at hd2
        · injection hd2 with hd2
          subst hd2
          have hu2 : u ∈ (if ao = 21 then
              [(⟨6, 41394⟩ : UnitInfo), ⟨5, 7⟩, ⟨5, 41394⟩, ⟨5, 41394⟩] else []) := hu
          split at hu2
          · simp only [List.mem_cons, List.mem_singleton, List.not_mem_nil, or_false] at hu2
            rcases hu2 with h | h | h | h <;> subst h <;> exact absurd hid (by decide)
          · cases hu2
        · cases hd2)

end FindSplitUnit
